import Mathlib

/-!
Verification development for the Pane Fullscreen content script.

The source program is a browser content script that detects video-like
elements on a page, scores them, relocates the chosen element into a
full-viewport overlay, and later restores it to its original DOM position.

This file gives a shallow embedding of that script:

* `ElemData` carries exactly the per-element facts the script reads
  (tag name, id attribute, inline style attribute, class token list,
  src / data-src, playback flags, duration, bounding client rect, and
  which of the twelve fixed video-container selectors the element matches;
  CSS selector matching itself is a browser primitive and is abstracted
  into the `selHits` field).
* The document is a rose tree (`DNode` / `DForest`, a mutual inductive so
  that all operations are structurally recursive and evaluate by `decide`).
  A `Dom` is the body element with its child forest, plus a forest of
  detached subtrees (nodes removed from the document but still referenced),
  and the accessible same-origin iframe documents keyed by iframe id
  (a cross-origin frame is simply absent from that list, matching the
  script's silent catch).
* Machine state (`PF`) mirrors the script's module-level mutables:
  `isActive`, `currentElement`, `overlay`, `elementContainer`,
  `originalElementState`, `selectMode`, plus a fresh-id counter for
  `createElement`.

Numeric quantities (rect coordinates, scores, durations) are rationals:
the scoring multipliers 2 and 1.5 are exact in `ℚ`.
-/

/-- Tag name of a DOM element, restricted to the tags the script inspects. -/
inductive Tag where
  | video
  | iframe
  | div
  | button
  | bodyTag
  | other
deriving DecidableEq, Repr

/-- Result of `getBoundingClientRect`: left/top plus width/height; per the
DOMRect specification `right = left + width` and `bottom = top + height`. -/
structure Rect where
  left : ℚ
  top : ℚ
  width : ℚ
  height : ℚ
deriving DecidableEq, Repr

/-- Right edge of a client rect. -/
def Rect.right (r : Rect) : ℚ := r.left + r.width

/-- Bottom edge of a client rect. -/
def Rect.bottom (r : Rect) : ℚ := r.top + r.height

/-- Per-element data read by the content script.  `className` is the class
attribute as its token list.  `selHits` is the set (as a list of indices
into `VIDEO_CONTAINER_SELECTORS`) of fixed container selectors this element
matches; selector matching is a browser primitive abstracted here. -/
structure ElemData where
  eid : Nat
  tag : Tag
  idAttr : Option String
  styleAttr : Option String
  className : List String
  src : String
  dataSrc : String
  paused : Bool
  ended : Bool
  duration : ℚ
  currentTime : ℚ
  rect : Rect
  selHits : List Nat
deriving DecidableEq, Repr

/-- Default element record, used only as a total-function fallback for
lookups that the theorems' hypotheses guarantee succeed. -/
def defaultElem : ElemData :=
  { eid := 0, tag := Tag.other, idAttr := none, styleAttr := none,
    className := [], src := "", dataSrc := "", paused := true, ended := false,
    duration := 0, currentTime := 0,
    rect := { left := 0, top := 0, width := 0, height := 0 }, selHits := [] }

/-- Decide whether `needle` is a prefix of `hay` (over character lists). -/
def prefB : List Char → List Char → Bool
  | [], _ => true
  | _ :: _, [] => false
  | a :: as, b :: bs => a == b && prefB as bs

/-- Decide whether `needle` occurs as a contiguous substring of `hay`. -/
def substrB (needle : List Char) : List Char → Bool
  | [] => needle.isEmpty
  | b :: bs => prefB needle (b :: bs) || substrB needle bs

/-- Lower-case a string character by character, as the case-insensitive
regular-expression flag does for the plain-literal patterns below. -/
def lowerStr (s : String) : List Char := s.toList.map Char.toLower

/-- The `VIDEO_IFRAME_PATTERNS` list from the script.  Every regular
expression in the source is a case-insensitive literal (dots escaped), so
each is represented by its literal text and tested as a substring of the
lower-cased URL. -/
def VIDEO_IFRAME_PATTERNS : List String :=
  ["player.", "embed", "video", "stream", "megaplay", "aniwave",
   "youtube.com/embed", "youtube-nocookie.com/embed", "player.vimeo.com",
   "dailymotion.com/embed", "twitch.tv/embed", "facebook.com/plugins/video",
   "streamable.com", "vidyard", "wistia", "jwplatform", "brightcove",
   "kaltura", "ooyala", "vidcloud", "mp4upload", "gogoplay", "streamsb",
   "fembed", "mixdrop"]

/-- Embedding of `isVideoIframe`: take `src`, falling back to
`dataset.src`; an empty URL never matches; otherwise test every pattern. -/
def isVideoIframe (e : ElemData) : Bool :=
  let s := if e.src ≠ "" then e.src else e.dataSrc
  if s = "" then false
  else VIDEO_IFRAME_PATTERNS.any (fun p => substrB p.toList (lowerStr s))

/-- Embedding of `getElementScore`.  `vw`/`vh` are `window.innerWidth` and
`window.innerHeight`.  The visibility test and the bonus multipliers are
transcribed from the source: a non-visible element scores 0; a video is
doubled while playing (not paused, not ended) and further multiplied by
3/2 when its duration exceeds 60 seconds; an iframe is multiplied by 3/2
when its URL matches the player patterns. -/
def getElementScore (vw vh : ℚ) (e : ElemData) : ℚ :=
  let r := e.rect
  let area := r.width * r.height
  if r.width > 0 ∧ r.height > 0 ∧ r.top < vh ∧ Rect.bottom r > 0 ∧
      r.left < vw ∧ Rect.right r > 0 then
    let s1 := area
    let s2 :=
      if e.tag = Tag.video then
        let sa := if !e.paused && !e.ended then s1 * 2 else s1
        if e.duration > 60 then sa * (3 / 2) else sa
      else s1
    if e.tag = Tag.iframe then
      (if isVideoIframe e then s2 * (3 / 2) else s2)
    else s2
  else 0

/-- One step of the mutable best-candidate accumulation used by
`findBestVideo` / `findBestIframe` / `findBestContainer`: the candidate
replaces the current best exactly when its score strictly exceeds the best
score so far (which starts at 0). -/
def bestStep (vw vh : ℚ) (acc : Option ElemData × ℚ) (e : ElemData) :
    Option ElemData × ℚ :=
  if getElementScore vw vh e > acc.2 then (some e, getElementScore vw vh e)
  else acc

/-- The common `forEach` loop of the three tier searches: fold `bestStep`
from `(null, 0)`.  On an empty list this yields `none`, exactly the
source's early `return null`. -/
def bestOf (vw vh : ℚ) (l : List ElemData) : Option ElemData :=
  (l.foldl (bestStep vw vh) (none, 0)).1

mutual
/-- A DOM node: its element data and its children. -/
inductive DNode where
  | node : ElemData → DForest → DNode
/-- A sibling-ordered forest of DOM nodes. -/
inductive DForest where
  | fnil : DForest
  | fcons : DNode → DForest → DForest
end

/-- Element data of a node. -/
def DNode.data : DNode → ElemData
  | .node e _ => e

/-- Child forest of a node. -/
def DNode.kids : DNode → DForest
  | .node _ k => k

mutual
/-- Preorder (document-order) list of the element data in a subtree. -/
def dataN : DNode → List ElemData
  | .node e k => e :: dataF k
/-- Preorder (document-order) list of the element data in a forest. -/
def dataF : DForest → List ElemData
  | .fnil => []
  | .fcons t ts => dataN t ++ dataF ts
end

/-- All node ids of a subtree, in document order. -/
def idsN (t : DNode) : List Nat := (dataN t).map ElemData.eid

/-- All node ids of a forest, in document order. -/
def idsF (f : DForest) : List Nat := (dataF f).map ElemData.eid

/-- Whether a node with id `x` occurs in the forest. -/
def memF (x : Nat) (f : DForest) : Bool := (idsF f).contains x

/-- Number of nodes in a subtree whose id attribute equals `s`. -/
def countIdN (s : String) (t : DNode) : Nat :=
  ((dataN t).filter (fun e => e.idAttr == some s)).length

/-- Number of nodes in a forest whose id attribute equals `s`. -/
def countIdF (s : String) (f : DForest) : Nat :=
  ((dataF f).filter (fun e => e.idAttr == some s)).length

/-- Data of the top-level (root) nodes of a forest, in order. -/
def rootsF : DForest → List ElemData
  | .fnil => []
  | .fcons t ts => t.data :: rootsF ts

/-- Number of top-level nodes of a forest whose id attribute equals `s`. -/
def topCountIdF (s : String) (f : DForest) : Nat :=
  ((rootsF f).filter (fun e => e.idAttr == some s)).length

mutual
/-- Map a data transformation over every node of a subtree. -/
def mapN (g : ElemData → ElemData) : DNode → DNode
  | .node e k => .node (g e) (mapF g k)
/-- Map a data transformation over every node of a forest. -/
def mapF (g : ElemData → ElemData) : DForest → DForest
  | .fnil => .fnil
  | .fcons t ts => .fcons (mapN g t) (mapF g ts)
end

mutual
/-- Remove the first (document-order) node with id `x` from a subtree's
descendants, returning the removed subtree and the remainder.  On failure
the tree is returned unchanged. -/
def extractN (x : Nat) : DNode → Option DNode × DNode
  | .node e k =>
    match extractF x k with
    | (some t, k') => (some t, .node e k')
    | (none, _) => (none, .node e k)
/-- Remove the first (document-order) node with id `x` from a forest,
returning the removed subtree and the remainder. -/
def extractF (x : Nat) : DForest → Option DNode × DForest
  | .fnil => (none, .fnil)
  | .fcons t ts =>
    if t.data.eid == x then (some t, ts)
    else
      match extractN x t with
      | (some s, t') => (some s, .fcons t' ts)
      | (none, _) =>
        match extractF x ts with
        | (some s, ts') => (some s, .fcons t ts')
        | (none, _) => (none, .fcons t ts)
end

/-- Insert `sub` among a sibling list: before the first sibling whose id is
`ref`, or (as `insertBefore(node, null)` and `appendChild` do) at the end
when `ref` is `none`.  A `some` reference that does not occur also falls
through to an append; all in-scope uses are guarded by hypotheses putting
the reference in the list. -/
def insertBeforeRef (ref : Option Nat) (sub : DNode) : DForest → DForest
  | .fnil => .fcons sub .fnil
  | .fcons t ts =>
    match ref with
    | none => .fcons t (insertBeforeRef none sub ts)
    | some r =>
      if t.data.eid == r then .fcons sub (.fcons t ts)
      else .fcons t (insertBeforeRef (some r) sub ts)

mutual
/-- Insert `sub` as a child of the node with id `p` (before optional
sibling `ref`); the Boolean reports whether the parent was found. -/
def insUN (p : Nat) (ref : Option Nat) (sub : DNode) : DNode → DNode × Bool
  | .node e k =>
    if e.eid == p then (.node e (insertBeforeRef ref sub k), true)
    else
      match insUF p ref sub k with
      | (k', b) => (.node e k', b)
/-- Forest version of `insUN`. -/
def insUF (p : Nat) (ref : Option Nat) (sub : DNode) : DForest → DForest × Bool
  | .fnil => (.fnil, false)
  | .fcons t ts =>
    match insUN p ref sub t with
    | (t', true) => (.fcons t' ts, true)
    | (_, false) =>
      match insUF p ref sub ts with
      | (ts', b) => (.fcons t ts', b)
end

mutual
/-- Parent lookup inside one tree: `some r` when `x` occurs strictly
inside, where `r` is its parent's id. -/
def pFindN (x : Nat) : DNode → Option (Option Nat)
  | .node e k =>
    match pFindF x k with
    | some none => some (some e.eid)
    | some (some p) => some (some p)
    | none => none
/-- Parent lookup in a forest: `some none` when `x` is a root, `some
(some p)` when `x` sits under parent `p`, `none` when absent. -/
def pFindF (x : Nat) : DForest → Option (Option Nat)
  | .fnil => none
  | .fcons t ts =>
    if t.data.eid == x then some none
    else
      match pFindN x t with
      | some r => some r
      | none => pFindF x ts
end

/-- Id of the first root of a forest, if any. -/
def headRoot : DForest → Option Nat
  | .fnil => none
  | .fcons t _ => some t.data.eid

mutual
/-- Next-sibling lookup inside one tree (strictly below the root). -/
def nsFindN (x : Nat) : DNode → Option (Option Nat)
  | .node _ k => nsFindF x k
/-- Next-sibling lookup in a forest: `some s` when `x` was found with
next-sibling option `s`. -/
def nsFindF (x : Nat) : DForest → Option (Option Nat)
  | .fnil => none
  | .fcons t ts =>
    if t.data.eid == x then some (headRoot ts)
    else
      match nsFindN x t with
      | some r => some r
      | none => nsFindF x ts
end

mutual
/-- Find the subtree rooted at the node with id `x` (first in document
order). -/
def findSubN (x : Nat) : DNode → Option DNode
  | .node e k => if e.eid == x then some (.node e k) else findSubF x k
/-- Forest version of `findSubN`. -/
def findSubF (x : Nat) : DForest → Option DNode
  | .fnil => none
  | .fcons t ts =>
    match findSubN x t with
    | some s => some s
    | none => findSubF x ts
end

/-- Whether an element matches at least one entry of the fixed
`VIDEO_CONTAINER_SELECTORS` list (twelve selectors, abstracted as the
index set `selHits`). -/
def elemMatchesSel (e : ElemData) : Bool :=
  (List.range 12).any (fun i => e.selHits.contains i)

mutual
/-- For the node with id `x` inside this tree, report whether any element
on the path from the tree's root down to `x` (inclusive) matches a
container selector; `none` when `x` is absent.  This models
`element.closest(VIDEO_CONTAINER_SELECTORS.join(', '))` being non-null. -/
def pathSelN (x : Nat) : DNode → Option Bool
  | .node e k =>
    if e.eid == x then some (elemMatchesSel e)
    else
      match pathSelF x k with
      | some b => some (b || elemMatchesSel e)
      | none => none
/-- Forest version of `pathSelN`. -/
def pathSelF (x : Nat) : DForest → Option Bool
  | .fnil => none
  | .fcons t ts =>
    match pathSelN x t with
    | some b => some b
    | none => pathSelF x ts
end

mutual
/-- Remove the first node in document order whose id attribute equals `s`
from a subtree's descendants (the node itself is checked by the forest
version at its parent level). -/
def remIdN (s : String) : DNode → Option DNode × DNode
  | .node e k =>
    match remIdF s k with
    | (some t, k') => (some t, .node e k')
    | (none, _) => (none, .node e k)
/-- Remove the first node in document order whose id attribute equals `s`
from a forest, returning the removed subtree and the remainder.  This is
`document.getElementById(s)` followed by `.remove()`. -/
def remIdF (s : String) : DForest → Option DNode × DForest
  | .fnil => (none, .fnil)
  | .fcons t ts =>
    if t.data.idAttr == some s then (some t, ts)
    else
      match remIdN s t with
      | (some u, t') => (some u, .fcons t' ts)
      | (none, _) =>
        match remIdF s ts with
        | (some u, ts') => (some u, .fcons t ts')
        | (none, _) => (none, .fcons t ts)
end

mutual
/-- Whether a subtree contains a frame or video node (used for
`container.querySelector('iframe, video')`, which inspects descendants). -/
def anyMediaN : DNode → Bool
  | .node e k => e.tag == Tag.iframe || e.tag == Tag.video || anyMediaF k
/-- Forest version of `anyMediaN`. -/
def anyMediaF : DForest → Bool
  | .fnil => false
  | .fcons t ts => anyMediaN t || anyMediaF ts
end

/-- The document and its surroundings: the body element (its own data and
its child forest), currently detached subtrees, the reachable same-origin
iframe documents keyed by the iframe's id, and the viewport size. -/
structure Dom where
  bodyData : ElemData
  bodyKids : DForest
  detached : DForest
  frames : List (Nat × DForest)
  innerW : ℚ
  innerH : ℚ

/-- Association-list lookup of an accessible iframe document. -/
def framesLookup (x : Nat) : List (Nat × DForest) → Option DForest
  | [] => none
  | (i, f) :: rest => if i == x then some f else framesLookup x rest

/-- Elements of the main document in document order (body first, then its
subtree in preorder). -/
def docElems (d : Dom) : List ElemData := d.bodyData :: dataF d.bodyKids

/-- Embedding of `findAllVideos`: video elements of the main document in
document order, then, for each iframe of the main document whose content
document is accessible (same-origin), that document's video elements.  An
inaccessible (cross-origin) frame contributes nothing — the script's
silent `catch`. -/
def findAllVideos (d : Dom) : List ElemData :=
  (docElems d).filter (fun e => e.tag == Tag.video) ++
  ((docElems d).filter (fun e => e.tag == Tag.iframe)).flatMap (fun f =>
    match framesLookup f.eid d.frames with
    | some doc => (dataF doc).filter (fun e => e.tag == Tag.video)
    | none => [])

/-- Whether `element.closest(VIDEO_CONTAINER_SELECTORS.join(', '))` is
non-null for the main-document element with id `x`: some self-or-ancestor
(up to and including body) matches a container selector. -/
def closestSelHit (d : Dom) (x : Nat) : Bool :=
  if x == d.bodyData.eid then elemMatchesSel d.bodyData
  else
    match pathSelF x d.bodyKids with
    | some b => b || elemMatchesSel d.bodyData
    | none => false

/-- Acceptance test of the `findVideoIframes` loop body for one iframe:
pattern-matching URL, or at least 200×150 with either a container-selector
ancestor or a width/height quotient within the plausible video band
[1.2, 2.5]. -/
def iframeAccepted (d : Dom) (f : ElemData) : Bool :=
  if isVideoIframe f then true
  else if decide (f.rect.width ≥ 200 ∧ f.rect.height ≥ 150) then
    if closestSelHit d f.eid then true
    else decide ((6 : ℚ) / 5 ≤ f.rect.width / f.rect.height ∧
                 f.rect.width / f.rect.height ≤ 5 / 2)
  else false

/-- Embedding of `findVideoIframes`: the main document's iframes, in
document order, filtered by `iframeAccepted`. -/
def findVideoIframes (d : Dom) : List ElemData :=
  ((docElems d).filter (fun e => e.tag == Tag.iframe)).filter
    (fun f => iframeAccepted d f)

/-- Whether the main-document element with id `x` has an iframe or video
among its descendants: `container.querySelector('iframe, video')` is
non-null. -/
def hasMediaDesc (d : Dom) (x : Nat) : Bool :=
  if x == d.bodyData.eid then anyMediaF d.bodyKids
  else
    match findSubF x d.bodyKids with
    | some t => anyMediaF t.kids
    | none => false

/-- Acceptance test of the `findVideoContainers` loop body: the container
has media somewhere inside, or measures at least 200×150. -/
def containerAccepted (d : Dom) (c : ElemData) : Bool :=
  hasMediaDesc d c.eid || decide (c.rect.width ≥ 200 ∧ c.rect.height ≥ 150)

/-- Embedding of `findVideoContainers`: for each of the twelve container
selectors in order, the main-document elements matching it (in document
order) that pass `containerAccepted`; an element matching several
selectors is pushed once per selector, as in the source. -/
def findVideoContainers (d : Dom) : List ElemData :=
  (List.range 12).flatMap (fun i =>
    (docElems d).filter (fun c => c.selHits.contains i && containerAccepted d c))

/-- Candidate kind tag: the `type` strings `'video'`, `'iframe'`,
`'container'` of the script. -/
inductive SKind where
  | video
  | iframe
  | container
deriving DecidableEq, Repr

/-- A candidate: an element together with its kind tag. -/
structure Cand where
  elem : ElemData
  ckind : SKind
deriving DecidableEq, Repr

/-- Embedding of `findBestVideo`. -/
def findBestVideo (d : Dom) : Option ElemData :=
  bestOf d.innerW d.innerH (findAllVideos d)

/-- Embedding of `findBestIframe`. -/
def findBestIframe (d : Dom) : Option ElemData :=
  bestOf d.innerW d.innerH (findVideoIframes d)

/-- Embedding of `findBestContainer`. -/
def findBestContainer (d : Dom) : Option ElemData :=
  bestOf d.innerW d.innerH (findVideoContainers d)

/-- Embedding of `findBestPlayableElement`: native videos first, then
player iframes, then containers; `none` when every tier comes up empty. -/
def findBestPlayableElement (d : Dom) : Option Cand :=
  match findBestVideo d with
  | some v => some ⟨v, SKind.video⟩
  | none =>
    match findBestIframe d with
    | some f => some ⟨f, SKind.iframe⟩
    | none =>
      match findBestContainer d with
      | some c => some ⟨c, SKind.container⟩
      | none => none

/-- `a.contains(x)` for main-document nodes: inclusive descendant test
(every node contains itself).  `Node.contains` never crosses a document
boundary, so elements of iframe documents are not contained in any
main-document node. -/
def containsB (d : Dom) (a x : Nat) : Bool :=
  if a == d.bodyData.eid then x == a || memF x d.bodyKids
  else
    match findSubF a d.bodyKids with
    | some t => (idsN t).contains x
    | none => false

/-- The videos-then-accepted-iframes prefix of
`getAllSelectableElements`'s growing array.  In the source the
container-drop check scans the whole array built so far, but only
entries of kind `iframe` can satisfy it, so that scan equals a scan over
this prefix. -/
def selectableBase (d : Dom) : List Cand :=
  (findAllVideos d).map (fun v => ⟨v, SKind.video⟩) ++
  (findVideoIframes d).map (fun f => ⟨f, SKind.iframe⟩)

/-- Embedding of `getAllSelectableElements`: videos, then accepted
iframes (`selectableBase`), then accepted containers — a container being
dropped when some already-collected iframe entry lies inside it
(`c.contains(e.element)`). -/
def getAllSelectableElements (d : Dom) : List Cand :=
  selectableBase d ++
  ((findVideoContainers d).filter (fun c =>
    !((selectableBase d).any (fun e => e.ckind == SKind.iframe &&
        containsB d c.eid e.elem.eid)))).map
    (fun c => ⟨c, SKind.container⟩)

/-- The saved `originalElementState` record of `saveElementState`:
original parent and next sibling (as ids), inline style attribute
(coalesced to `""` when absent, as `getAttribute('style') || ''` does),
class token list, tag, and — meaningful for videos only — playback
facts. -/
structure SavedState where
  parent : Option Nat
  nextSibling : Option Nat
  style : String
  className : List String
  ty : Tag
  wasPlaying : Bool
  currentTime : ℚ
deriving DecidableEq, Repr

/-- First element record with id `x` in the whole node store (document,
then detached subtrees, then frame documents). -/
def lookupData (d : Dom) (x : Nat) : Option ElemData :=
  if d.bodyData.eid == x then some d.bodyData
  else
    match (dataF d.bodyKids).find? (fun e => e.eid == x) with
    | some e => some e
    | none =>
      match (dataF d.detached).find? (fun e => e.eid == x) with
      | some e => some e
      | none =>
        (d.frames.flatMap (fun fr => dataF fr.2)).find? (fun e => e.eid == x)

/-- `element.parentElement` as an id: parent inside the body tree (a
top-level child of body has parent body), parent inside a detached
subtree, or parent inside a frame document; the body itself, roots of
detached subtrees and top-level frame-document nodes report `none`. -/
def parentElementOf (d : Dom) (x : Nat) : Option Nat :=
  if x == d.bodyData.eid then none
  else
    match pFindF x d.bodyKids with
    | some none => some d.bodyData.eid
    | some (some p) => some p
    | none =>
      match pFindF x d.detached with
      | some none => none
      | some (some p) => some p
      | none =>
        match (d.frames.map (fun fr => pFindF x fr.2)).reduceOption.head? with
        | some none => none
        | some (some p) => some p
        | none => none

/-- `element.nextSibling` as an id (element granularity: the model's
trees carry element nodes only). -/
def nextSiblingOf (d : Dom) (x : Nat) : Option Nat :=
  match nsFindF x d.bodyKids with
  | some r => r
  | none =>
    match nsFindF x d.detached with
    | some r => r
    | none =>
      match (d.frames.map (fun fr => nsFindF x fr.2)).reduceOption.head? with
      | some r => r
      | none => none

/-- Embedding of `saveElementState`. -/
def saveElementState (d : Dom) (x : Nat) : SavedState :=
  let e := (lookupData d x).getD defaultElem
  { parent := parentElementOf d x
    nextSibling := nextSiblingOf d x
    style := e.styleAttr.getD ""
    className := e.className
    ty := e.tag
    wasPlaying := e.tag == Tag.video && !e.paused
    currentTime := if e.tag == Tag.video then e.currentTime else 0 }

/-- Update the record of the node(s) with id `x` in place (ids are unique
in every well-formed state, so this touches one node). -/
def updData (d : Dom) (x : Nat) (g : ElemData → ElemData) : Dom :=
  let h := fun e => if e.eid == x then g e else e
  { d with bodyData := h d.bodyData, bodyKids := mapF h d.bodyKids,
           detached := mapF h d.detached,
           frames := d.frames.map (fun fr => (fr.1, mapF h fr.2)) }

/-- Detach the subtree of node `x` from wherever it lives (document,
detached forest, or a frame document).  The body element itself is never
extracted. -/
def domExtract (d : Dom) (x : Nat) : Option DNode × Dom :=
  match extractF x d.bodyKids with
  | (some t, k) => (some t, { d with bodyKids := k })
  | (none, _) =>
    match extractF x d.detached with
    | (some t, det) => (some t, { d with detached := det })
    | (none, _) =>
      match framesExtract x d.frames with
      | (some t, fr) => (some t, { d with frames := fr })
      | (none, _) => (none, d)
where
  /-- Extract from the first frame document that holds `x`. -/
  framesExtract (x : Nat) : List (Nat × DForest) →
      Option DNode × List (Nat × DForest)
    | [] => (none, [])
    | (i, f) :: rest =>
      match extractF x f with
      | (some t, f') => (some t, (i, f') :: rest)
      | (none, _) =>
        match framesExtract x rest with
        | (r, rest') => (r, (i, f) :: rest')

/-- Insert the subtree `sub` as a child of node `p`, before the optional
reference sibling.  `p = body` appends among body's children.  The final
fallback (parent nowhere in the store) parks the subtree in the detached
forest; every use in the theorems is covered by hypotheses locating `p`. -/
def domInsert (d : Dom) (p : Nat) (ref : Option Nat) (sub : DNode) : Dom :=
  if p == d.bodyData.eid then
    { d with bodyKids := insertBeforeRef ref sub d.bodyKids }
  else
    match insUF p ref sub d.bodyKids with
    | (k, true) => { d with bodyKids := k }
    | (_, false) =>
      match insUF p ref sub d.detached with
      | (det, true) => { d with detached := det }
      | (_, false) =>
        match framesInsert p ref sub d.frames with
        | (fr, true) => { d with frames := fr }
        | (_, false) => { d with detached := insertBeforeRef none sub d.detached }
where
  /-- Insert into the first frame document that holds `p`. -/
  framesInsert (p : Nat) (ref : Option Nat) (sub : DNode) :
      List (Nat × DForest) → List (Nat × DForest) × Bool
    | [] => ([], false)
    | (i, f) :: rest =>
      match insUF p ref sub f with
      | (f', true) => ((i, f') :: rest, true)
      | (_, false) =>
        match framesInsert p ref sub rest with
        | (rest', b) => ((i, f) :: rest', b)

/-- Relocate node `x` (with its subtree) under parent `p`, before the
optional reference sibling: `parent.insertBefore(elem, ref)` /
`parent.appendChild(elem)`.  When `x` is absent nothing happens. -/
def moveNode (d : Dom) (x p : Nat) (ref : Option Nat) : Dom :=
  match domExtract d x with
  | (some t, d') => domInsert d' p ref t
  | (none, _) => d

/-- The three session marker classes the script adds and removes. -/
def markerClasses : List String :=
  ["pane-fullscreen-video", "pane-fullscreen-iframe", "pane-fullscreen-container"]

/-- Embedding of `restoreElementState`: reinstate the inline style
attribute and the recorded class list, strip the three marker classes,
and re-insert the node under its recorded parent before its recorded next
sibling (appending when no sibling was recorded); a `null` recorded
parent skips the move entirely. -/
def restoreElementState (d : Dom) (x : Nat) (st : SavedState) : Dom :=
  let d1 := updData d x (fun e =>
    { e with styleAttr := some st.style,
             className := st.className.filter
               (fun c => !(markerClasses.contains c)) })
  match st.parent with
  | some p => moveNode d1 x p st.nextSibling
  | none => d1

/-- The reserved overlay element id. -/
def OVERLAY_ID : String := "pane-fullscreen-overlay"

/-- The reserved inner-container element id. -/
def CONTAINER_ID : String := "pane-fullscreen-container"

/-- The script's module-level mutable state. -/
structure PF where
  dom : Dom
  isActive : Bool
  currentElement : Option Nat
  overlay : Option Nat
  elementContainer : Option Nat
  originalElementState : Option SavedState
  selectMode : Bool
  nextId : Nat

/-- Embedding of `removeOverlay`: remove the first document element whose
id is `OVERLAY_ID` (with its subtree, which stays alive detached) and
null both node references. -/
def removeOverlay (s : PF) : PF :=
  let d :=
    match remIdF OVERLAY_ID s.dom.bodyKids with
    | (some t, k) =>
      { s.dom with bodyKids := k,
                   detached := insertBeforeRef none t s.dom.detached }
    | (none, _) => s.dom
  { s with dom := d, overlay := none, elementContainer := none }

/-- A freshly created element (`document.createElement`) with the given
tag, id attribute and class list. -/
def mkFresh (n : Nat) (tg : Tag) (ida : Option String) (cls : List String) :
    ElemData :=
  { defaultElem with eid := n, tag := tg, idAttr := ida, className := cls }

/-- Embedding of `createOverlay`: drop any existing overlay, then build
the overlay div (id `OVERLAY_ID`) holding the element container (id
`CONTAINER_ID`), the close button and the hint, and append it to body.
The four nodes take the four next fresh ids; `overlayTree n` is the
overlay subtree built from fresh ids `n .. n+3`. -/
def overlayTree (n : Nat) : DNode :=
  .node (mkFresh n Tag.div (some OVERLAY_ID) ["pane-fullscreen-overlay"])
    (.fcons (.node (mkFresh (n + 1) Tag.div (some CONTAINER_ID)
        ["pane-fullscreen-video-container"]) .fnil)
    (.fcons (.node (mkFresh (n + 2) Tag.button none
        ["pane-fullscreen-close-btn"]) .fnil)
    (.fcons (.node (mkFresh (n + 3) Tag.div none
        ["pane-fullscreen-hint"]) .fnil) .fnil)))

/-- Embedding of `createOverlay`; see `overlayTree`. -/
def createOverlay (s : PF) : PF :=
  let s := removeOverlay s
  let n := s.nextId
  { s with
    dom := { s.dom with
      bodyKids := insertBeforeRef none (overlayTree n) s.dom.bodyKids }
    overlay := some n
    elementContainer := some (n + 1)
    nextId := n + 4 }

/-- `classList.add`: append the token unless present. -/
def classListAdd (cl : List String) (c : String) : List String :=
  if cl.contains c then cl else cl ++ [c]

/-- `classList.remove`: drop the token wherever it occurs. -/
def classListRemove (cl : List String) (c : String) : List String :=
  cl.filter (fun x => !(x == c))

/-- Marker class chosen by the `type` argument of `enterPaneFullscreen`. -/
def markerClassOf : SKind → String
  | .video => "pane-fullscreen-video"
  | .iframe => "pane-fullscreen-iframe"
  | .container => "pane-fullscreen-container"

/-- Embedding of `exitPaneFullscreen`: a no-op while inactive; otherwise
restore the relocated element from its snapshot, remove the overlay, and
clear the session state.  (The conditional resume of playback is an
asynchronous effect outside the DOM model.) -/
def exitPaneFullscreen (s : PF) : PF :=
  if s.isActive = false then s
  else
    let s1 :=
      match s.currentElement, s.originalElementState with
      | some x, some st => { s with dom := restoreElementState s.dom x st }
      | _, _ => s
    let s2 := removeOverlay s1
    { s2 with isActive := false, currentElement := none,
              originalElementState := none }

/-- Embedding of `enterPaneFullscreen`: fail (returning `false`, state
untouched) when no element is supplied; otherwise exit any active
session, snapshot the element, build a fresh overlay, tag the element
with its kind's marker class, move it into the overlay's container, and
mark the session active, returning `true`. -/
def enterPaneFullscreen (x? : Option Nat) (ty : SKind) (s : PF) : Bool × PF :=
  match x? with
  | none => (false, s)
  | some x =>
    let s0 := if s.isActive then exitPaneFullscreen s else s
    let st := saveElementState s0.dom x
    let s1 := { s0 with originalElementState := some st,
                        currentElement := some x }
    let s2 := createOverlay s1
    let s3 := { s2 with dom := updData s2.dom x (fun e =>
      { e with className := classListAdd e.className (markerClassOf ty) }) }
    let s4 := { s3 with dom := moveNode s3.dom x (s3.elementContainer.getD 0)
                          none }
    (true, { s4 with isActive := true })

/-- Class placed on body while pick-mode is live. -/
def selectModeClass : String := "pane-fullscreen-select-mode"

/-- Class marking each offered candidate while pick-mode is live. -/
def selectableClass : String := "pane-fullscreen-selectable"

/-- Embedding of `enableSelectMode`.  Already-enabled calls return
without a value (`undefined` in the source, `none` here) and change
nothing.  A fresh call sets the flag, tags body, collects
`getAllSelectableElements()`, tags each candidate, and returns the
candidate count.  (Click/Escape listeners and the 15-second timer are
event-loop machinery outside the DOM model.)

The document at the moment `enableSelectMode` calls
`getAllSelectableElements()` has body already carrying the pick-mode
class; `pickModeEntryDom` names that intermediate document. -/
def pickModeEntryDom (d : Dom) : Dom :=
  { d with bodyData := { d.bodyData with
      className := classListAdd d.bodyData.className selectModeClass } }

/-- Embedding of `enableSelectMode`; see `pickModeEntryDom`. -/
def enableSelectMode (s : PF) : Option Nat × PF :=
  if s.selectMode then (none, s)
  else
    let s1 := { s with selectMode := true, dom := pickModeEntryDom s.dom }
    let sels := getAllSelectableElements s1.dom
    let s2 := sels.foldl (fun acc c =>
      { acc with dom := updData acc.dom c.elem.eid (fun e =>
          { e with className := classListAdd e.className selectableClass }) }) s1
    (some sels.length, s2)

/-- Embedding of `disableSelectMode`: a no-op when not enabled; otherwise
clear the flag, untag body, and strip the selectable marker from every
document element carrying it. -/
def disableSelectMode (s : PF) : PF :=
  if s.selectMode = false then s
  else
    let g := fun (e : ElemData) =>
      { e with className := classListRemove e.className selectableClass }
    { s with selectMode := false,
             dom := { s.dom with
               bodyData := g { s.dom.bodyData with
                 className := classListRemove s.dom.bodyData.className selectModeClass }
               bodyKids := mapF g s.dom.bodyKids } }

/-- The `autoFullscreen` message action: run the selector and enter on
its result; failure when nothing was found. -/
def autoFullscreenAction (s : PF) : Bool × PF :=
  match findBestPlayableElement s.dom with
  | some c => enterPaneFullscreen (some c.elem.eid) c.ckind s
  | none => (false, s)

/-- The `selectVideo` message action: enable pick-mode; when the call
says zero candidates were offered (`count === 0` — a strict comparison
that an already-enabled `undefined` return does not satisfy), disable
pick-mode again and report failure. -/
def selectVideoAction (s : PF) : Bool × PF :=
  match enableSelectMode s with
  | (c, s1) => if c == some 0 then (false, disableSelectMode s1) else (true, s1)

/-- Embedding of `handleElementSelect`: a click on an offered candidate
disables pick-mode first, then enters the session on it. -/
def handleElementSelect (x : Nat) (ty : SKind) (s : PF) : PF :=
  (enterPaneFullscreen (some x) ty (disableSelectMode s)).2

/-- The `exitFullscreen` message action. -/
def exitFullscreenAction (s : PF) : Bool × PF := (true, exitPaneFullscreen s)

/-- Every element record of the frame documents, in order. -/
def framesData (l : List (Nat × DForest)) : List ElemData :=
  l.flatMap (fun fr => dataF fr.2)

/-- Every element record in the whole node store: the body, the document
tree, the detached subtrees, and the frame documents. -/
def allData (d : Dom) : List ElemData :=
  d.bodyData :: (dataF d.bodyKids ++ dataF d.detached ++
    framesData d.frames)

/-- Every node id in the whole node store. -/
def allIds (d : Dom) : List Nat := (allData d).map ElemData.eid

/-- Total number of nodes carrying id `s` across the frame documents. -/
def framesCount (s : String) (l : List (Nat × DForest)) : Nat :=
  (l.map (fun fr => countIdF s fr.2)).sum

/-- Number of overlay elements (elements whose id attribute is the
reserved `OVERLAY_ID`) present in the document. -/
def overlaysInDocument (s : PF) : Nat := countIdF OVERLAY_ID s.dom.bodyKids

/-- No element record with this node id carries the reserved overlay id
attribute (pages and callers do not use the extension's reserved id). -/
def IdFact (d : Dom) (x : Nat) : Prop :=
  ∀ e ∈ allData d, e.eid = x → e.idAttr ≠ some OVERLAY_ID

/-- The state invariant maintained by every script operation: ids are
unique and below the fresh-id counter, the reserved overlay id never
appears on the body, in a frame document, or (except as a root, i.e. a
previously removed overlay) in the detached store, the document holds
exactly one overlay element while a session is active and none otherwise,
any element carrying the reserved id is overlay-shaped (a `div` matching
no container selector), and an active session's relocated element never
itself carries the reserved id. -/
structure PFInv (s : PF) : Prop where
  nodup : (allIds s.dom).Nodup
  bound : ∀ i ∈ allIds s.dom, i < s.nextId
  bodyNotOv : s.dom.bodyData.idAttr ≠ some OVERLAY_ID
  framesOv : framesCount OVERLAY_ID s.dom.frames = 0
  detOvTop : countIdF OVERLAY_ID s.dom.detached =
    topCountIdF OVERLAY_ID s.dom.detached
  activeOv : s.isActive = true → countIdF OVERLAY_ID s.dom.bodyKids = 1 ∧
    topCountIdF OVERLAY_ID s.dom.bodyKids = 1
  inactiveOv : s.isActive = false → countIdF OVERLAY_ID s.dom.bodyKids = 0
  ovShape : ∀ e ∈ allData s.dom, e.idAttr = some OVERLAY_ID →
    e.tag = Tag.div ∧ e.selHits = []
  curOk : s.isActive = true → ∃ x, s.currentElement = some x ∧
    x ∈ allIds s.dom ∧ IdFact s.dom x

/-- A pristine page state: no session, no pick-mode, nothing detached,
unique bounded ids, and no page element usurping the reserved overlay
id. -/
structure InitState (s : PF) : Prop where
  inactive : s.isActive = false
  noCur : s.currentElement = none
  noSnap : s.originalElementState = none
  noSelect : s.selectMode = false
  noDetached : s.dom.detached = DForest.fnil
  nodup : (allIds s.dom).Nodup
  bound : ∀ i ∈ allIds s.dom, i < s.nextId
  bodyNotOv : s.dom.bodyData.idAttr ≠ some OVERLAY_ID
  noOv : countIdF OVERLAY_ID s.dom.bodyKids = 0
  framesNoOv : framesCount OVERLAY_ID s.dom.frames = 0
  ovShape : ∀ e ∈ allData s.dom, e.idAttr = some OVERLAY_ID →
    e.tag = Tag.div ∧ e.selHits = []

/-- One user-visible operation of the script: the `autoFullscreen`,
`selectVideo` and `exitFullscreen` message actions, a click on an offered
pick-mode candidate, and pick-mode cancellation (Escape or the
15-second timeout). -/
inductive PFStep : PF → PF → Prop where
  | auto (s : PF) : PFStep s (autoFullscreenAction s).2
  | pick (s : PF) (c : Cand) (hc : c ∈ getAllSelectableElements s.dom) :
      PFStep s (handleElementSelect c.elem.eid c.ckind s)
  | exitStep (s : PF) : PFStep s (exitPaneFullscreen s)
  | selectVid (s : PF) : PFStep s (selectVideoAction s).2
  | cancelPick (s : PF) : PFStep s (disableSelectMode s)

/-- States reachable from a pristine page through the script's
operations. -/
inductive PFReach : PF → Prop where
  | init (s : PF) (h : InitState s) : PFReach s
  | step {s t : PF} (hs : PFReach s) (st : PFStep s t) : PFReach t

/-- Spec reading of claim C8's "directly contains a frame or video
node": a direct child of the container is a frame or video.  The source
uses `container.querySelector('iframe, video')`, which inspects all
descendants; this definition exists to compare the two readings. -/
def hasMediaChild (d : Dom) (x : Nat) : Bool :=
  match (if x == d.bodyData.eid then some d.bodyKids
         else (findSubF x d.bodyKids).map DNode.kids) with
  | some k => (rootsF k).any (fun e => e.tag == Tag.iframe || e.tag == Tag.video)
  | none => false

/-- Whether an element matches the claim C8 right-hand side as written:
matches the fixed selector list, and is at least 200 by 150 or directly
(as a child) contains a frame or video. -/
def claimC8Rhs (d : Dom) (e : ElemData) : Prop :=
  (∃ i < 12, i ∈ e.selHits) ∧
  (hasMediaChild d e.eid = true ∨ (e.rect.width ≥ 200 ∧ e.rect.height ≥ 150))

/-- Concrete fixture: an element entirely below a 1920 by 1080 viewport. -/
def exOffscreen : ElemData :=
  { defaultElem with
    eid := 7
    tag := Tag.video
    rect := { left := 0, top := 2000, width := 500, height := 300 }
    paused := false
    duration := 600 }

/-- Concrete fixture: an empty page. -/
def exDomEmpty : Dom :=
  { bodyData := { defaultElem with eid := 0, tag := Tag.bodyTag },
    bodyKids := .fnil, detached := .fnil, frames := [],
    innerW := 1000, innerH := 800 }

/-- Concrete fixture: pick-mode already active on the empty page. -/
def exStateSelectOn : PF :=
  { dom := exDomEmpty, isActive := false, currentElement := none,
    overlay := none, elementContainer := none, originalElementState := none,
    selectMode := true, nextId := 1 }

/-- Concrete fixture: pick-mode inactive on the empty page. -/
def exStateSelectOff : PF :=
  { exStateSelectOn with selectMode := false }

/-- Concrete fixture: a paused 800 by 450 video, duration 30 s. -/
def exVideoPaused : ElemData :=
  { defaultElem with
    eid := 1
    tag := Tag.video
    rect := { left := 0, top := 0, width := 800, height := 450 }
    duration := 30 }

/-- Concrete fixture: a playing 400 by 225 video, duration 120 s. -/
def exVideoPlaying : ElemData :=
  { defaultElem with
    eid := 2
    tag := Tag.video
    rect := { left := 0, top := 500, width := 400, height := 225 }
    paused := false
    duration := 120 }

/-- Concrete fixture: a player iframe with a pattern-matching URL. -/
def exIframe : ElemData :=
  { defaultElem with
    eid := 3
    tag := Tag.iframe
    src := "https://example.com/embed/1"
    rect := { left := 0, top := 0, width := 640, height := 360 } }

/-- Concrete fixture: a 400 by 300 element matching container selector 0. -/
def exContainer : ElemData :=
  { defaultElem with
    eid := 4
    tag := Tag.div
    selHits := [0]
    rect := { left := 0, top := 0, width := 400, height := 300 } }

/-- Concrete fixture: a body element. -/
def exBody : ElemData := { defaultElem with eid := 0, tag := Tag.bodyTag }

/-- Concrete fixture: a page with one scoring video, one scoring player
iframe and one scoring container. -/
def exDom1 : Dom :=
  { bodyData := exBody
    bodyKids := .fcons (.node exVideoPaused .fnil)
      (.fcons (.node exIframe .fnil) (.fcons (.node exContainer .fnil) .fnil))
    detached := .fnil
    frames := []
    innerW := 1920
    innerH := 1080 }

/-- Concrete fixture: the claim C4 scenario page — the paused large video
and the playing small long video, both visible. -/
def exDom2 : Dom :=
  { bodyData := exBody
    bodyKids := .fcons (.node exVideoPaused .fnil)
      (.fcons (.node exVideoPlaying .fnil) .fnil)
    detached := .fnil
    frames := []
    innerW := 1920
    innerH := 1080 }

/-- Concrete fixture: an undersized selector-matching container. -/
def exContainerDeep : ElemData :=
  { defaultElem with
    eid := 11
    tag := Tag.div
    selHits := [0]
    rect := { left := 0, top := 0, width := 100, height := 100 } }

/-- Concrete fixture: a plain wrapper div. -/
def exWrapDiv : ElemData := { defaultElem with eid := 12, tag := Tag.div }

/-- Concrete fixture: an iframe nested two levels below the container. -/
def exDeepIframe : ElemData := { defaultElem with eid := 13, tag := Tag.iframe }

/-- Concrete fixture: page whose undersized container holds a frame only
as a grandchild (through a wrapper div). -/
def exDomC8 : Dom :=
  { bodyData := exBody
    bodyKids := .fcons (.node exContainerDeep (.fcons (.node exWrapDiv
      (.fcons (.node exDeepIframe .fnil) .fnil)) .fnil)) .fnil
    detached := .fnil
    frames := []
    innerW := 1920
    innerH := 1080 }

/-- Concrete fixture: page with a container and a player iframe that are
siblings (the container does not contain the iframe). -/
def exDom9 : Dom :=
  { bodyData := exBody
    bodyKids := .fcons (.node exContainer .fnil)
      (.fcons (.node exIframe .fnil) .fnil)
    detached := .fnil
    frames := []
    innerW := 1920
    innerH := 1080 }

/-- Concrete fixture: a page whose first body child (id 1) already
carries a session marker class and has no inline style attribute. -/
def exC1Dom : Dom :=
  { bodyData := exBody
    bodyKids := .fcons (.node { defaultElem with
        eid := 1
        tag := Tag.div
        className := ["keep", "pane-fullscreen-video"] } .fnil)
      (.fcons (.node { defaultElem with eid := 2, tag := Tag.div } .fnil)
        .fnil)
    detached := .fnil
    frames := []
    innerW := 1920
    innerH := 1080 }

/-- Concrete fixture: a page whose first body child (id 1) has an inline
style attribute and no session marker class. -/
def exC1Clean : Dom :=
  { bodyData := exBody
    bodyKids := .fcons (.node { defaultElem with
        eid := 1
        tag := Tag.div
        styleAttr := some "color: red"
        className := ["keep"] } .fnil)
      (.fcons (.node { defaultElem with eid := 2, tag := Tag.div } .fnil)
        .fnil)
    detached := .fnil
    frames := []
    innerW := 1920
    innerH := 1080 }

/-- Concrete fixture: the snapshot of a node that had no parent element
at capture time. -/
def exC10St : SavedState :=
  { parent := none
    nextSibling := none
    style := ""
    className := []
    ty := Tag.div
    wasPlaying := false
    currentTime := 0 }

/-- Concrete fixture: an overlay element holding the relocated node
(id 5). -/
def exC10Ov : DNode :=
  .node { defaultElem with
      eid := 3
      tag := Tag.div
      idAttr := some OVERLAY_ID
      className := ["pane-fullscreen-overlay"] }
    (.fcons (.node { defaultElem with eid := 5, tag := Tag.div } .fnil)
      .fnil)

/-- Concrete fixture: the rest of the document next to the overlay. -/
def exC10Rest : DForest :=
  .fcons (.node { defaultElem with eid := 2, tag := Tag.div } .fnil) .fnil

/-- Concrete fixture: an active session whose snapshot records a null
parent and whose relocated node sits inside the overlay. -/
def exC10PF : PF :=
  { dom :=
      { bodyData := exBody
        bodyKids := .fcons exC10Ov exC10Rest
        detached := .fnil
        frames := []
        innerW := 1920
        innerH := 1080 }
    isActive := true
    currentElement := some 5
    overlay := some 3
    elementContainer := some 4
    originalElementState := some exC10St
    selectMode := false
    nextId := 10 }

/-- The tail of `exitPaneFullscreen`: drop the overlay and clear the
session state. -/
def clearedState (s1 : PF) : PF :=
  { removeOverlay s1 with
    isActive := false
    currentElement := none
    originalElementState := none }

/-- Stage one of `enterPaneFullscreen` on an inactive state: record the
snapshot and the current element. -/
def enterSnap (x : Nat) (t : PF) : PF :=
  { t with
    originalElementState := some (saveElementState t.dom x)
    currentElement := some x }

/-- Stage three of `enterPaneFullscreen`: tag the element with its
kind's marker class. -/
def enterTag (x : Nat) (ty : SKind) (s2 : PF) : PF :=
  { s2 with dom := updData s2.dom x (fun e =>
      { e with className := classListAdd e.className (markerClassOf ty) }) }

/-- Stage four of `enterPaneFullscreen`: move the element into the
overlay's container. -/
def enterMove (x : Nat) (s3 : PF) : PF :=
  { s3 with dom := moveNode s3.dom x (s3.elementContainer.getD 0) none }

/-- The candidate-tagging fold of `enableSelectMode`. -/
def selFold (l : List Cand) (s : PF) : PF :=
  l.foldl (fun acc c =>
    { acc with dom := updData acc.dom c.elem.eid (fun e =>
        { e with className := classListAdd e.className selectableClass }) }) s

/-- The overlay subtree while it hosts a relocated subtree `u` inside
the element container: the shape `enterPaneFullscreen` leaves in the
document after moving the chosen element into the container. -/
def ovHold (n : Nat) (u : DNode) : DNode :=
  .node (mkFresh n Tag.div (some OVERLAY_ID) ["pane-fullscreen-overlay"])
    (.fcons (.node (mkFresh (n + 1) Tag.div (some CONTAINER_ID)
        ["pane-fullscreen-video-container"]) (.fcons u .fnil))
    (.fcons (.node (mkFresh (n + 2) Tag.button none
        ["pane-fullscreen-close-btn"]) .fnil)
    (.fcons (.node (mkFresh (n + 3) Tag.div none
        ["pane-fullscreen-hint"]) .fnil) .fnil)))

/-- The per-record update `enterPaneFullscreen`'s tagging stage applies
across the store: the chosen element's record gains its kind's marker
class. -/
def tagFn (x : Nat) (ty : SKind) : ElemData → ElemData :=
  fun e => if (e.eid == x) = true then
    { e with className := classListAdd e.className (markerClassOf ty) }
  else e

/-- The per-record update `restoreElementState` applies across the
store: the relocated element's record gets the snapshot's style and its
marker-stripped class list. -/
def restoreFn (x : Nat) (st : SavedState) : ElemData → ElemData :=
  fun e => if (e.eid == x) = true then
    { e with
      styleAttr := some st.style
      className := st.className.filter (fun c => !(markerClasses.contains c)) }
  else e

/-- A store with its body forest replaced. -/
def withBody (d : Dom) (k : DForest) : Dom := { d with bodyKids := k }

/-- The explicit state a session entered from an inactive state reaches:
the chosen element's subtree (tagged with its kind's marker class) sits
inside the overlay's container, the overlay appended after the remaining
body children `k1`, the snapshot of the pre-session document recorded. -/
def sessionState (t : PF) (x : Nat) (ty : SKind) (u0 : DNode)
    (k1 : DForest) : PF :=
  { t with
    dom := withBody t.dom (insertBeforeRef none
      (ovHold t.nextId (mapN (tagFn x ty) u0)) k1)
    isActive := true
    currentElement := some x
    overlay := some t.nextId
    elementContainer := some (t.nextId + 1)
    originalElementState := some (saveElementState t.dom x)
    nextId := t.nextId + 4 }

/-- Concrete fixture: an inactive script state over the clean page, from
which a session is entered and then exited. -/
def exC5Enter : PF :=
  { dom := exC1Clean
    isActive := false
    currentElement := none
    overlay := none
    elementContainer := none
    originalElementState := none
    selectMode := false
    nextId := 10 }

/-- Claim C6: `enterPaneFullscreen` fails exactly when no node is
supplied, and then mutates nothing — the returned state is the input
state, so the session flag, current element, snapshot, overlay and
document are all untouched; for every non-null node it returns
success. -/
theorem C6_enter_failure_iff :
    (∀ (ty : SKind) (s : PF), enterPaneFullscreen none ty s = (false, s)) ∧
    (∀ (x : Nat) (ty : SKind) (s : PF),
      (enterPaneFullscreen (some x) ty s).1 = true) := by
  exact ⟨fun ty s => rfl, fun x ty s => rfl⟩

/-- Claim C3: the scorer returns exactly 0 for any candidate whose
bounding rectangle has a zero dimension or does not intersect the
viewport (top < viewport height and bottom > 0 and left < viewport width
and right > 0), regardless of area, kind or playback state. -/
theorem C3_scorer_offscreen_zero (vw vh : ℚ) (e : ElemData)
    (h : e.rect.width = 0 ∨ e.rect.height = 0 ∨
      ¬(e.rect.top < vh ∧ Rect.bottom e.rect > 0 ∧ e.rect.left < vw ∧
        Rect.right e.rect > 0)) :
    getElementScore vw vh e = 0 := by
  have hneg : ¬(e.rect.width > 0 ∧ e.rect.height > 0 ∧ e.rect.top < vh ∧
      Rect.bottom e.rect > 0 ∧ e.rect.left < vw ∧ Rect.right e.rect > 0) := by
    rintro ⟨hw, hh, h1, h2, h3, h4⟩
    rcases h with h | h | h
    · rw [h] at hw; exact lt_irrefl 0 hw
    · rw [h] at hh; exact lt_irrefl 0 hh
    · exact h ⟨h1, h2, h3, h4⟩
  simp only [getElementScore, if_neg hneg]

/-- Witness for C3: a playing, long, large video sitting 2000 CSS pixels
below the top of a 1920 by 1080 viewport scores exactly 0. -/
theorem C3_witness :
    (exOffscreen.rect.width = 0 ∨ exOffscreen.rect.height = 0 ∨
      ¬(exOffscreen.rect.top < 1080 ∧ Rect.bottom exOffscreen.rect > 0 ∧
        exOffscreen.rect.left < 1920 ∧ Rect.right exOffscreen.rect > 0)) ∧
    getElementScore 1920 1080 exOffscreen = 0 := by
  have h : (exOffscreen.rect.width = 0 ∨ exOffscreen.rect.height = 0 ∨
      ¬(exOffscreen.rect.top < 1080 ∧ Rect.bottom exOffscreen.rect > 0 ∧
        exOffscreen.rect.left < 1920 ∧ Rect.right exOffscreen.rect > 0)) := by
    refine Or.inr (Or.inr ?_)
    rintro ⟨h1, -⟩
    norm_num [exOffscreen, defaultElem] at h1
  exact ⟨h, C3_scorer_offscreen_zero 1920 1080 exOffscreen h⟩

/-- Helper: `disableSelectMode` always leaves the pick-mode flag off. -/
theorem disableSelectMode_flag (s : PF) :
    (disableSelectMode s).selectMode = false := by
  unfold disableSelectMode
  by_cases h : s.selectMode = false
  · rw [if_pos h]; exact h
  · rw [if_neg h]

/-- Claim C7 (amended): `enableSelectMode` is a no-op returning no count
when pick-mode is already active (the source returns `undefined`, not a
count); a newly enabling call returns the number of candidates offered —
the length of `getAllSelectableElements()` on the document at that
moment — and the `selectVideo` action auto-disables pick-mode and
reports failure exactly when that returned count is zero. -/
theorem C7_enable_pick_mode :
    (∀ s : PF, s.selectMode = true → enableSelectMode s = (none, s)) ∧
    (∀ s : PF, s.selectMode = false →
      (enableSelectMode s).1 =
        some (getAllSelectableElements (pickModeEntryDom s.dom)).length) ∧
    (∀ s : PF, (enableSelectMode s).1 = some 0 →
      selectVideoAction s = (false, disableSelectMode (enableSelectMode s).2) ∧
      (selectVideoAction s).2.selectMode = false) := by
  refine ⟨?_, ?_, ?_⟩
  · intro s h
    unfold enableSelectMode
    rw [if_pos h]
  · intro s h
    unfold enableSelectMode
    rw [if_neg (by rw [h]; exact Bool.false_ne_true)]
  · intro s h
    have hpair : enableSelectMode s = (some 0, (enableSelectMode s).2) := by
      rw [← h]
    have hact : selectVideoAction s =
        (false, disableSelectMode (enableSelectMode s).2) := by
      unfold selectVideoAction
      rw [hpair]
      rfl
    exact ⟨hact, by rw [hact]; exact disableSelectMode_flag _⟩

/-- Counterexample to claim C7 as stated: with pick-mode already active,
`enableSelectMode` offers zero candidates but does not return a count at
all (`undefined` in the source, `none` here), so "every call returns the
count of candidates offered" fails. -/
theorem C7_counterexample :
    exStateSelectOn.selectMode = true ∧
    (enableSelectMode exStateSelectOn).1 = none ∧
    (enableSelectMode exStateSelectOn).1 ≠ some 0 := by
  refine ⟨rfl, rfl, ?_⟩
  intro h
  exact Option.noConfusion h

/-- Witness for C7: the no-op branch on an already-enabled state, the
count-returning branch on a fresh state, and the zero-count auto-disable
of `selectVideo`, each at a concrete state. -/
theorem C7_witness :
    exStateSelectOn.selectMode = true ∧
    enableSelectMode exStateSelectOn = (none, exStateSelectOn) ∧
    exStateSelectOff.selectMode = false ∧
    (enableSelectMode exStateSelectOff).1 =
      some (getAllSelectableElements
        (pickModeEntryDom exStateSelectOff.dom)).length ∧
    selectVideoAction exStateSelectOff =
      (false, disableSelectMode (enableSelectMode exStateSelectOff).2) := by
  refine ⟨rfl, C7_enable_pick_mode.1 exStateSelectOn rfl, rfl,
    C7_enable_pick_mode.2.1 exStateSelectOff rfl, ?_⟩
  exact (C7_enable_pick_mode.2.2 exStateSelectOff (by decide)).1

/-- Characterisation of the best-candidate fold: from any accumulator,
either no candidate strictly beats the accumulator score (returned
unchanged), or the result is the first candidate attaining the overall
maximum — every earlier candidate scores strictly less, every later one
at most as much. -/
theorem bestFold_spec (vw vh : ℚ) :
    ∀ (l : List ElemData) (b : Option ElemData) (s : ℚ),
      (List.foldl (bestStep vw vh) (b, s) l = (b, s) ∧
        ∀ e ∈ l, getElementScore vw vh e ≤ s) ∨
      (∃ x l₁ l₂, l = l₁ ++ x :: l₂ ∧
        List.foldl (bestStep vw vh) (b, s) l =
          (some x, getElementScore vw vh x) ∧
        s < getElementScore vw vh x ∧
        (∀ e ∈ l₁, getElementScore vw vh e < getElementScore vw vh x) ∧
        (∀ e ∈ l₂, getElementScore vw vh e ≤ getElementScore vw vh x)) := by
  intro l
  induction l with
  | nil => intro b s; left; exact ⟨rfl, by simp⟩
  | cons e t ih =>
    intro b s
    by_cases hc : s < getElementScore vw vh e
    · have hstep : List.foldl (bestStep vw vh) (b, s) (e :: t) =
          List.foldl (bestStep vw vh)
            (some e, getElementScore vw vh e) t := by
        rw [List.foldl_cons]
        congr 1
        unfold bestStep
        rw [if_pos hc]
      rcases ih (some e) (getElementScore vw vh e) with
        ⟨hfix, hall⟩ | ⟨x, l₁, l₂, hsplit, hres, hlt, hbefore, hafter⟩
      · right
        exact ⟨e, [], t, rfl, by rw [hstep, hfix], hc, by simp, hall⟩
      · right
        refine ⟨x, e :: l₁, l₂, by rw [hsplit, List.cons_append],
          by rw [hstep, hres], lt_trans hc hlt, ?_, hafter⟩
        intro u hu
        rcases List.mem_cons.mp hu with rfl | hu
        · exact hlt
        · exact hbefore u hu
    · push_neg at hc
      have hstep : List.foldl (bestStep vw vh) (b, s) (e :: t) =
          List.foldl (bestStep vw vh) (b, s) t := by
        rw [List.foldl_cons]
        congr 1
        unfold bestStep
        rw [if_neg (not_lt.mpr hc)]
      rcases ih b s with
        ⟨hfix, hall⟩ | ⟨x, l₁, l₂, hsplit, hres, hlt, hbefore, hafter⟩
      · left
        refine ⟨by rw [hstep, hfix], ?_⟩
        intro u hu
        rcases List.mem_cons.mp hu with rfl | hu
        · exact hc
        · exact hall u hu
      · right
        refine ⟨x, e :: l₁, l₂, by rw [hsplit, List.cons_append],
          by rw [hstep, hres], hlt, ?_, hafter⟩
        intro u hu
        rcases List.mem_cons.mp hu with rfl | hu
        · exact lt_of_le_of_lt hc hlt
        · exact hbefore u hu

/-- The tier fold returns nothing exactly when no candidate scores
strictly positively. -/
theorem bestOf_eq_none_iff (vw vh : ℚ) (l : List ElemData) :
    bestOf vw vh l = none ↔ ∀ e ∈ l, getElementScore vw vh e ≤ 0 := by
  unfold bestOf
  rcases bestFold_spec vw vh l none 0 with
    ⟨hfix, hall⟩ | ⟨x, l₁, l₂, hsplit, hres, hlt, hbefore, hafter⟩
  · rw [hfix]
    simp only [true_iff]
    exact hall
  · rw [hres]
    simp only [reduceCtorEq, false_iff, not_forall]
    push_neg
    exact ⟨x, by rw [hsplit]; exact List.mem_append_right _ (List.mem_cons_self _ _),
      lt_of_lt_of_le hlt le_rfl⟩

/-- When some candidate scores strictly positively, the tier fold
returns the first candidate attaining the maximum score. -/
theorem bestOf_of_pos (vw vh : ℚ) (l : List ElemData) (x0 : ElemData)
    (hx : x0 ∈ l) (h0 : 0 < getElementScore vw vh x0) :
    ∃ x l₁ l₂, bestOf vw vh l = some x ∧ l = l₁ ++ x :: l₂ ∧
      0 < getElementScore vw vh x ∧
      (∀ e ∈ l, getElementScore vw vh e ≤ getElementScore vw vh x) ∧
      (∀ e ∈ l₁, getElementScore vw vh e < getElementScore vw vh x) := by
  unfold bestOf
  rcases bestFold_spec vw vh l none 0 with
    ⟨hfix, hall⟩ | ⟨x, l₁, l₂, hsplit, hres, hlt, hbefore, hafter⟩
  · exact absurd h0 (not_lt.mpr (hall x0 hx))
  · refine ⟨x, l₁, l₂, by rw [hres], hsplit, hlt, ?_, hbefore⟩
    intro u hu
    rw [hsplit] at hu
    rcases List.mem_append.mp hu with hu | hu
    · exact le_of_lt (hbefore u hu)
    · rcases List.mem_cons.mp hu with rfl | hu
      · exact le_rfl
      · exact hafter u hu

/-- Claim C2: `findBestPlayableElement` returns a video-tagged candidate
whenever some video scores positively; otherwise an iframe-tagged
candidate whenever some player frame scores positively; otherwise a
container-tagged candidate whenever some container scores positively;
otherwise no candidate.  Within the winning tier the result attains the
maximum score and is the first such in traversal order (every earlier
candidate of the tier scores strictly less).  The "one scoring video,
one scoring frame, one scoring container" case is the first branch. -/
theorem C2_selector_tiers (d : Dom) :
    (∀ v ∈ findAllVideos d, 0 < getElementScore d.innerW d.innerH v →
      ∃ x l₁ l₂, findBestPlayableElement d = some ⟨x, SKind.video⟩ ∧
        findAllVideos d = l₁ ++ x :: l₂ ∧
        (∀ e ∈ findAllVideos d, getElementScore d.innerW d.innerH e ≤
          getElementScore d.innerW d.innerH x) ∧
        (∀ e ∈ l₁, getElementScore d.innerW d.innerH e <
          getElementScore d.innerW d.innerH x)) ∧
    ((∀ v ∈ findAllVideos d, getElementScore d.innerW d.innerH v ≤ 0) →
      ∀ f ∈ findVideoIframes d, 0 < getElementScore d.innerW d.innerH f →
      ∃ x l₁ l₂, findBestPlayableElement d = some ⟨x, SKind.iframe⟩ ∧
        findVideoIframes d = l₁ ++ x :: l₂ ∧
        (∀ e ∈ findVideoIframes d, getElementScore d.innerW d.innerH e ≤
          getElementScore d.innerW d.innerH x) ∧
        (∀ e ∈ l₁, getElementScore d.innerW d.innerH e <
          getElementScore d.innerW d.innerH x)) ∧
    ((∀ v ∈ findAllVideos d, getElementScore d.innerW d.innerH v ≤ 0) →
      (∀ f ∈ findVideoIframes d, getElementScore d.innerW d.innerH f ≤ 0) →
      ∀ c ∈ findVideoContainers d, 0 < getElementScore d.innerW d.innerH c →
      ∃ x l₁ l₂, findBestPlayableElement d = some ⟨x, SKind.container⟩ ∧
        findVideoContainers d = l₁ ++ x :: l₂ ∧
        (∀ e ∈ findVideoContainers d, getElementScore d.innerW d.innerH e ≤
          getElementScore d.innerW d.innerH x) ∧
        (∀ e ∈ l₁, getElementScore d.innerW d.innerH e <
          getElementScore d.innerW d.innerH x)) ∧
    ((∀ v ∈ findAllVideos d, getElementScore d.innerW d.innerH v ≤ 0) →
      (∀ f ∈ findVideoIframes d, getElementScore d.innerW d.innerH f ≤ 0) →
      (∀ c ∈ findVideoContainers d, getElementScore d.innerW d.innerH c ≤ 0) →
      findBestPlayableElement d = none) := by
  refine ⟨?_, ?_, ?_, ?_⟩
  · intro v hv h0
    obtain ⟨x, l₁, l₂, hbest, hsplit, hpos, hmax, hfirst⟩ :=
      bestOf_of_pos d.innerW d.innerH (findAllVideos d) v hv h0
    refine ⟨x, l₁, l₂, ?_, hsplit, hmax, hfirst⟩
    unfold findBestPlayableElement findBestVideo
    rw [hbest]
  · intro hvz f hf h0
    have hvnone : findBestVideo d = none := by
      unfold findBestVideo
      exact (bestOf_eq_none_iff _ _ _).mpr hvz
    obtain ⟨x, l₁, l₂, hbest, hsplit, hpos, hmax, hfirst⟩ :=
      bestOf_of_pos d.innerW d.innerH (findVideoIframes d) f hf h0
    refine ⟨x, l₁, l₂, ?_, hsplit, hmax, hfirst⟩
    unfold findBestPlayableElement
    rw [hvnone]
    unfold findBestIframe
    rw [hbest]
  · intro hvz hfz c hc h0
    have hvnone : findBestVideo d = none := by
      unfold findBestVideo
      exact (bestOf_eq_none_iff _ _ _).mpr hvz
    have hfnone : findBestIframe d = none := by
      unfold findBestIframe
      exact (bestOf_eq_none_iff _ _ _).mpr hfz
    obtain ⟨x, l₁, l₂, hbest, hsplit, hpos, hmax, hfirst⟩ :=
      bestOf_of_pos d.innerW d.innerH (findVideoContainers d) c hc h0
    refine ⟨x, l₁, l₂, ?_, hsplit, hmax, hfirst⟩
    unfold findBestPlayableElement
    rw [hvnone, hfnone]
    unfold findBestContainer
    rw [hbest]
  · intro hvz hfz hcz
    have hvnone : findBestVideo d = none := by
      unfold findBestVideo
      exact (bestOf_eq_none_iff _ _ _).mpr hvz
    have hfnone : findBestIframe d = none := by
      unfold findBestIframe
      exact (bestOf_eq_none_iff _ _ _).mpr hfz
    have hcnone : findBestContainer d = none := by
      unfold findBestContainer
      exact (bestOf_eq_none_iff _ _ _).mpr hcz
    unfold findBestPlayableElement
    rw [hvnone, hfnone, hcnone]

/-- Witness for C2: on `exDom1` a scoring video, a scoring player frame
and a scoring container are all present, and the selector's video branch
applies. -/
theorem C2_witness :
    exVideoPaused ∈ findAllVideos exDom1 ∧
    exIframe ∈ findVideoIframes exDom1 ∧
    exContainer ∈ findVideoContainers exDom1 ∧
    0 < getElementScore exDom1.innerW exDom1.innerH exVideoPaused ∧
    0 < getElementScore exDom1.innerW exDom1.innerH exIframe ∧
    0 < getElementScore exDom1.innerW exDom1.innerH exContainer ∧
    (∃ x l₁ l₂, findBestPlayableElement exDom1 = some ⟨x, SKind.video⟩ ∧
      findAllVideos exDom1 = l₁ ++ x :: l₂ ∧
      (∀ e ∈ findAllVideos exDom1,
        getElementScore exDom1.innerW exDom1.innerH e ≤
          getElementScore exDom1.innerW exDom1.innerH x) ∧
      (∀ e ∈ l₁, getElementScore exDom1.innerW exDom1.innerH e <
        getElementScore exDom1.innerW exDom1.innerH x)) := by
  have hm : exVideoPaused ∈ findAllVideos exDom1 := by decide
  have hmf : exIframe ∈ findVideoIframes exDom1 := by decide
  have hmc : exContainer ∈ findVideoContainers exDom1 := by decide
  have h1 : 0 < getElementScore exDom1.innerW exDom1.innerH exVideoPaused := by
    show 0 < getElementScore 1920 1080 exVideoPaused
    norm_num +decide [getElementScore, exVideoPaused, defaultElem,
      Rect.bottom, Rect.right]
  have hiv : isVideoIframe exIframe = true := by decide
  have h2 : 0 < getElementScore exDom1.innerW exDom1.innerH exIframe := by
    show 0 < getElementScore 1920 1080 exIframe
    norm_num +decide [getElementScore, exIframe, defaultElem, Rect.bottom,
      Rect.right, hiv]
  have h3 : 0 < getElementScore exDom1.innerW exDom1.innerH exContainer := by
    show 0 < getElementScore 1920 1080 exContainer
    norm_num +decide [getElementScore, exContainer, defaultElem,
      Rect.bottom, Rect.right]
  exact ⟨hm, hmf, hmc, h1, h2, h3,
    (C2_selector_tiers exDom1).1 exVideoPaused hm h1⟩

/-- Claim C4: for a visible video candidate the scorer returns the
rectangle area times 2 exactly when the video is playing (not paused,
not ended) and additionally times 3/2 exactly when its duration exceeds
60 seconds, the multipliers composing multiplicatively; and in the
concrete scenario — a paused visible 800 by 450 video (score 360000)
next to a playing visible 400 by 225 video of duration over 60 s (score
270000) — the selector picks the paused larger video. -/
theorem C4_video_bonus :
    (∀ (vw vh : ℚ) (e : ElemData), e.tag = Tag.video →
      (e.rect.width > 0 ∧ e.rect.height > 0 ∧ e.rect.top < vh ∧
        Rect.bottom e.rect > 0 ∧ e.rect.left < vw ∧ Rect.right e.rect > 0) →
      getElementScore vw vh e =
        e.rect.width * e.rect.height *
          (if !e.paused && !e.ended then 2 else 1) *
          (if e.duration > 60 then 3 / 2 else 1)) ∧
    (getElementScore exDom2.innerW exDom2.innerH exVideoPaused = 360000 ∧
      getElementScore exDom2.innerW exDom2.innerH exVideoPlaying = 270000 ∧
      findBestPlayableElement exDom2 = some ⟨exVideoPaused, SKind.video⟩) := by
  constructor
  · intro vw vh e htag hvis
    unfold getElementScore
    rw [if_pos hvis]
    simp only [htag, reduceCtorEq, eq_self_iff_true, if_true, if_false,
      ite_true, ite_false]
    split_ifs with hp hd hd <;> ring
  · have hsc1 : getElementScore 1920 1080 exVideoPaused = 360000 := by
      norm_num +decide [getElementScore, exVideoPaused, defaultElem,
        Rect.bottom, Rect.right]
    have hsc2 : getElementScore 1920 1080 exVideoPlaying = 270000 := by
      norm_num +decide [getElementScore, exVideoPlaying, defaultElem,
        Rect.bottom, Rect.right]
    refine ⟨hsc1, hsc2, ?_⟩
    have hvids : findAllVideos exDom2 = [exVideoPaused, exVideoPlaying] := by
      decide
    have hbv : findBestVideo exDom2 = some exVideoPaused := by
      unfold findBestVideo
      show bestOf 1920 1080 (findAllVideos exDom2) = some exVideoPaused
      rw [hvids]
      unfold bestOf
      rw [List.foldl_cons, List.foldl_cons, List.foldl_nil]
      unfold bestStep
      rw [hsc1, hsc2]
      norm_num
    unfold findBestPlayableElement
    rw [hbv]

/-- Witness for C4: the playing long video is visible in a 1920 by 1080
viewport and the multiplicative formula applies to it. -/
theorem C4_witness :
    exVideoPlaying.tag = Tag.video ∧
    (exVideoPlaying.rect.width > 0 ∧ exVideoPlaying.rect.height > 0 ∧
      exVideoPlaying.rect.top < 1080 ∧ Rect.bottom exVideoPlaying.rect > 0 ∧
      exVideoPlaying.rect.left < 1920 ∧ Rect.right exVideoPlaying.rect > 0) ∧
    getElementScore 1920 1080 exVideoPlaying =
      exVideoPlaying.rect.width * exVideoPlaying.rect.height *
        (if !exVideoPlaying.paused && !exVideoPlaying.ended then 2 else 1) *
        (if exVideoPlaying.duration > 60 then 3 / 2 else 1) := by
  have ht : exVideoPlaying.tag = Tag.video := rfl
  have hv : exVideoPlaying.rect.width > 0 ∧ exVideoPlaying.rect.height > 0 ∧
      exVideoPlaying.rect.top < 1080 ∧ Rect.bottom exVideoPlaying.rect > 0 ∧
      exVideoPlaying.rect.left < 1920 ∧ Rect.right exVideoPlaying.rect > 0 := by
    norm_num [exVideoPlaying, defaultElem, Rect.bottom, Rect.right]
  exact ⟨ht, hv, C4_video_bonus.1 1920 1080 exVideoPlaying ht hv⟩

/-- Claim C8 (amended): the container list holds an element exactly when
it is a document element matching the fixed container selector list
that either has a frame or video somewhere among its descendants (the
source's `querySelector('iframe, video')`) or measures at least 200 by
150. -/
theorem C8_container_list (d : Dom) (e : ElemData) :
    e ∈ findVideoContainers d ↔
      (e ∈ docElems d ∧ elemMatchesSel e = true ∧
        (hasMediaDesc d e.eid = true ∨
          (e.rect.width ≥ 200 ∧ e.rect.height ≥ 150))) := by
  unfold findVideoContainers containerAccepted elemMatchesSel
  simp only [List.mem_flatMap, List.mem_range, List.mem_filter,
    Bool.and_eq_true, List.any_eq_true, Bool.or_eq_true, decide_eq_true_eq]
  constructor
  · rintro ⟨i, hi, hmem, hhits, hacc⟩
    exact ⟨hmem, ⟨i, hi, hhits⟩, hacc⟩
  · rintro ⟨hmem, ⟨i, hi, hhits⟩, hacc⟩
    exact ⟨i, hi, hmem, hhits, hacc⟩

/-- Counterexample to claim C8 as stated: an undersized container whose
only frame sits two levels down (not a direct child) is accepted by the
source — `querySelector` inspects all descendants — but the claim's
"directly contains a frame or video node" (with its 100 by 100 box)
rejects it. -/
theorem C8_counterexample :
    exContainerDeep ∈ findVideoContainers exDomC8 ∧
    ¬ claimC8Rhs exDomC8 exContainerDeep := by
  constructor
  · decide
  · rintro ⟨-, hmedia | hsize⟩
    · exact absurd hmedia (by decide)
    · exact absurd hsize.1 (by norm_num [exContainerDeep, defaultElem])

/-- Claim C9: in `getAllSelectableElements`' output no container entry
spatially contains any iframe entry of the same output. -/
theorem C9_container_dedup (d : Dom) (c f : ElemData)
    (hc : (⟨c, SKind.container⟩ : Cand) ∈ getAllSelectableElements d)
    (hf : (⟨f, SKind.iframe⟩ : Cand) ∈ getAllSelectableElements d) :
    containsB d c.eid f.eid = false := by
  unfold getAllSelectableElements at hc hf
  have hfbase : (⟨f, SKind.iframe⟩ : Cand) ∈ selectableBase d := by
    rcases List.mem_append.mp hf with h | h
    · exact h
    · exfalso
      rcases List.mem_map.mp h with ⟨x, -, hxeq⟩
      simp [Cand.mk.injEq] at hxeq
  rcases List.mem_append.mp hc with h | h
  · exfalso
    unfold selectableBase at h
    rcases List.mem_append.mp h with h | h <;>
      · rcases List.mem_map.mp h with ⟨x, -, hxeq⟩
        simp [Cand.mk.injEq] at hxeq
  · rcases List.mem_map.mp h with ⟨c', hc', hceq⟩
    have hcc : c' = c := by
      have := congrArg Cand.elem hceq
      simpa using this
    subst hcc
    rcases List.mem_filter.mp hc' with ⟨-, hcond⟩
    rw [Bool.not_eq_true', List.any_eq_false] at hcond
    have hff := hcond _ hfbase
    simpa using hff

/-- Witness for C9: a page holding a sibling container entry and iframe
entry; the theorem yields that the container does not contain the
iframe. -/
theorem C9_witness :
    (⟨exContainer, SKind.container⟩ : Cand) ∈
      getAllSelectableElements exDom9 ∧
    (⟨exIframe, SKind.iframe⟩ : Cand) ∈ getAllSelectableElements exDom9 ∧
    containsB exDom9 exContainer.eid exIframe.eid = false := by
  have h1 : (⟨exContainer, SKind.container⟩ : Cand) ∈
      getAllSelectableElements exDom9 := by decide
  have h2 : (⟨exIframe, SKind.iframe⟩ : Cand) ∈
      getAllSelectableElements exDom9 := by decide
  exact ⟨h1, h2, C9_container_dedup exDom9 exContainer exIframe h1 h2⟩


mutual
/-- Extracting a subtree from a tree's descendants partitions its data. -/
theorem extractN_perm : ∀ (x : Nat) (t u t' : DNode),
    extractN x t = (some u, t') → List.Perm (dataN t) (dataN u ++ dataN t')
  | x, .node e k, u, t', h => by
    unfold extractN at h
    cases hk : extractF x k with
    | mk o k2 =>
      rw [hk] at h
      cases o with
      | none => simp at h
      | some v =>
        injection h with h1 h2
        injection h1 with h1
        subst h1
        subst h2
        have ih := extractF_perm x k v k2 hk
        have s1 : List.Perm (e :: dataF k) (e :: (dataN v ++ dataF k2)) :=
          ih.cons e
        have s2 : List.Perm (e :: (dataN v ++ dataF k2))
            (dataN v ++ e :: dataF k2) := List.perm_middle.symm
        exact s1.trans s2

/-- Extracting a subtree from a forest partitions its data. -/
theorem extractF_perm : ∀ (x : Nat) (f : DForest) (u : DNode) (f' : DForest),
    extractF x f = (some u, f') → List.Perm (dataF f) (dataN u ++ dataF f')
  | x, .fnil, u, f', h => by simp [extractF] at h
  | x, .fcons t ts, u, f', h => by
    unfold extractF at h
    by_cases he : (t.data.eid == x) = true
    · rw [if_pos he] at h
      injection h with h1 h2
      injection h1 with h1
      subst h1
      subst h2
      exact List.Perm.refl _
    · rw [if_neg he] at h
      cases hn : extractN x t with
      | mk o t2 =>
        rw [hn] at h
        cases o with
        | some v =>
          injection h with h1 h2
          injection h1 with h1
          subst h1
          subst h2
          have ih := extractN_perm x t v t2 hn
          have s1 : List.Perm (dataN t ++ dataF ts)
              ((dataN v ++ dataN t2) ++ dataF ts) :=
            ih.append_right (dataF ts)
          have s2 : (dataN v ++ dataN t2) ++ dataF ts =
              dataN v ++ (dataN t2 ++ dataF ts) := List.append_assoc _ _ _
          exact s2 ▸ s1
        | none =>
          cases hts : extractF x ts with
          | mk o2 ts2 =>
            rw [hts] at h
            cases o2 with
            | some w =>
              injection h with h1 h2
              injection h1 with h1
              subst h1
              subst h2
              have ih := extractF_perm x ts w ts2 hts
              have s1 : List.Perm (dataN t ++ dataF ts)
                  (dataN t ++ (dataN w ++ dataF ts2)) :=
                ih.append_left (dataN t)
              have s2 : dataN t ++ (dataN w ++ dataF ts2) =
                  (dataN t ++ dataN w) ++ dataF ts2 :=
                (List.append_assoc _ _ _).symm
              have s3 : List.Perm ((dataN t ++ dataN w) ++ dataF ts2)
                  ((dataN w ++ dataN t) ++ dataF ts2) :=
                List.perm_append_comm.append_right _
              have s4 : (dataN w ++ dataN t) ++ dataF ts2 =
                  dataN w ++ (dataN t ++ dataF ts2) := List.append_assoc _ _ _
              exact s4 ▸ ((s2 ▸ s1).trans s3)
            | none => simp at h
end

/-- Count equation: empty forest. -/
theorem countIdF_fnil (s : String) : countIdF s .fnil = 0 := rfl

/-- Count equation: forest cons. -/
theorem countIdF_fcons (s : String) (t : DNode) (ts : DForest) :
    countIdF s (.fcons t ts) = countIdN s t + countIdF s ts := by
  unfold countIdF countIdN
  rw [show dataF (.fcons t ts) = dataN t ++ dataF ts from rfl,
    List.filter_append, List.length_append]

/-- Count equation: a tree counts its root plus its descendants. -/
theorem countIdN_node (s : String) (e : ElemData) (k : DForest) :
    countIdN s (.node e k) =
      (if (e.idAttr == some s) = true then 1 else 0) + countIdF s k := by
  unfold countIdN countIdF
  rw [show dataN (.node e k) = e :: dataF k from rfl, List.filter_cons]
  split
  · rw [List.length_cons, Nat.add_comm]
  · rw [Nat.zero_add]

/-- Top-count equations. -/
theorem topCountIdF_fnil (s : String) : topCountIdF s .fnil = 0 := rfl

/-- Top-count of a forest cons. -/
theorem topCountIdF_fcons (s : String) (t : DNode) (ts : DForest) :
    topCountIdF s (.fcons t ts) =
      (if (t.data.idAttr == some s) = true then 1 else 0) +
        topCountIdF s ts := by
  unfold topCountIdF
  rw [show rootsF (.fcons t ts) = t.data :: rootsF ts from rfl,
    List.filter_cons]
  split
  · rw [List.length_cons, Nat.add_comm]
  · rw [Nat.zero_add]

/-- Permutation-invariance of the id count. -/
theorem countId_of_perm (s : String) {l l' : List ElemData}
    (h : List.Perm l l') :
    (l.filter (fun e => e.idAttr == some s)).length =
      (l'.filter (fun e => e.idAttr == some s)).length :=
  (h.filter _).length_eq

/-- The root's id contributes to the subtree count. -/
theorem root_le_countIdN (s : String) (t : DNode) :
    (if (t.data.idAttr == some s) = true then 1 else 0) ≤ countIdN s t := by
  cases t with
  | node e k =>
    rw [countIdN_node]
    exact Nat.le_add_right _ _

/-- Roots never outnumber all nodes with a given id. -/
theorem topCount_le_countIdF (s : String) : ∀ f : DForest,
    topCountIdF s f ≤ countIdF s f
  | .fnil => le_refl 0
  | .fcons t ts => by
    rw [topCountIdF_fcons, countIdF_fcons]
    exact Nat.add_le_add (root_le_countIdN s t) (topCount_le_countIdF s ts)

/-- When every id-carrying node of a forest is a root, each tree's
descendants are id-free. -/
theorem kids_free_of_top_eq (s : String) : ∀ (t : DNode) (ts : DForest),
    countIdF s (.fcons t ts) = topCountIdF s (.fcons t ts) →
    countIdF s t.kids = 0 ∧ countIdF s ts = topCountIdF s ts
  | .node e k, ts, h => by
    rw [countIdF_fcons, topCountIdF_fcons, countIdN_node] at h
    simp only [DNode.data] at h
    have h1 := topCount_le_countIdF s ts
    have h2 : countIdF s k + countIdF s ts ≤ topCountIdF s ts := by
      have := Nat.add_le_add_left h1 (countIdF s k)
      omega
    have h3 : countIdF s k = 0 ∧ countIdF s ts = topCountIdF s ts := by omega
    exact ⟨h3.1, h3.2⟩

/-- Extraction keeps a tree's root data. -/
theorem extractN_root (x : Nat) (t : DNode) (o : Option DNode)
    (t' : DNode) (h : extractN x t = (o, t')) : t'.data = t.data := by
  cases t with
  | node e k =>
    unfold extractN at h
    cases hk : extractF x k with
    | mk o2 k2 =>
      rw [hk] at h
      cases o2 with
      | some v =>
        injection h with h1 h2
        subst h2
        rfl
      | none =>
        injection h with h1 h2
        subst h2
        rfl

mutual
/-- A subtree extracted from inside a tree has the requested root id. -/
theorem extractN_eid : ∀ (x : Nat) (t : DNode) (u t' : DNode),
    extractN x t = (some u, t') → u.data.eid = x
  | x, .node e k, u, t', h => by
    unfold extractN at h
    cases hk : extractF x k with
    | mk o k2 =>
      rw [hk] at h
      cases o with
      | none => simp at h
      | some v =>
        injection h with h1 h2
        injection h1 with h1
        subst h1
        exact extractF_eid x k v k2 hk

/-- A subtree extracted from a forest has the requested root id. -/
theorem extractF_eid : ∀ (x : Nat) (f : DForest) (u : DNode) (f' : DForest),
    extractF x f = (some u, f') → u.data.eid = x
  | x, .fnil, u, f', h => by simp [extractF] at h
  | x, .fcons t ts, u, f', h => by
    unfold extractF at h
    by_cases he : (t.data.eid == x) = true
    · rw [if_pos he] at h
      injection h with h1 h2
      injection h1 with h1
      subst h1
      exact eq_of_beq he
    · rw [if_neg he] at h
      cases hn : extractN x t with
      | mk o t2 =>
        rw [hn] at h
        cases o with
        | some v =>
          injection h with h1 h2
          injection h1 with h1
          subst h1
          exact extractN_eid x t v t2 hn
        | none =>
          cases hts : extractF x ts with
          | mk o2 ts2 =>
            rw [hts] at h
            cases o2 with
            | some w =>
              injection h with h1 h2
              injection h1 with h1
              subst h1
              exact extractF_eid x ts w ts2 hts
            | none => simp at h
end

/-- Count decomposition along an extraction. -/
theorem countIdF_extract (s : String) {x : Nat} {f : DForest} {u : DNode}
    {f' : DForest} (h : extractF x f = (some u, f')) :
    countIdF s f = countIdN s u + countIdF s f' := by
  have hp := extractF_perm x f u f' h
  unfold countIdF countIdN
  rw [countId_of_perm s hp, List.filter_append, List.length_append]

/-- Extracting an id-free subtree leaves the forest's root id count
unchanged. -/
theorem extract_top_of_free (s : String) :
    ∀ (x : Nat) (f : DForest) (u : DNode) (f' : DForest),
    extractF x f = (some u, f') → countIdN s u = 0 →
    topCountIdF s f' = topCountIdF s f
  | x, .fnil, u, f', h, _ => by simp [extractF] at h
  | x, .fcons t ts, u, f', h, hu => by
    unfold extractF at h
    by_cases he : (t.data.eid == x) = true
    · rw [if_pos he] at h
      injection h with h1 h2
      injection h1 with h1
      subst h1
      subst h2
      rw [topCountIdF_fcons]
      have hb := root_le_countIdN s t
      omega
    · rw [if_neg he] at h
      cases hn : extractN x t with
      | mk o t2 =>
        rw [hn] at h
        cases o with
        | some v =>
          injection h with h1 h2
          injection h1 with h1
          subst h1
          subst h2
          rw [topCountIdF_fcons, topCountIdF_fcons,
            extractN_root x t (some v) t2 hn]
        | none =>
          cases hts : extractF x ts with
          | mk o2 ts2 =>
            rw [hts] at h
            cases o2 with
            | some w =>
              injection h with h1 h2
              injection h1 with h1
              subst h1
              subst h2
              rw [topCountIdF_fcons, topCountIdF_fcons,
                extract_top_of_free s x ts w ts2 hts hu]
            | none => simp at h

/-- When every id-carrying node is a root, an extracted subtree whose
root does not carry the id is id-free. -/
theorem extract_free_of_top_eq (s : String) :
    ∀ (x : Nat) (f : DForest) (u : DNode) (f' : DForest),
    countIdF s f = topCountIdF s f →
    extractF x f = (some u, f') →
    (u.data.idAttr == some s) = false →
    countIdN s u = 0
  | x, .fnil, u, f', _, h, _ => by simp [extractF] at h
  | x, .fcons t ts, u, f', heq, h, hne => by
    obtain ⟨hkids, hts⟩ := kids_free_of_top_eq s t ts heq
    unfold extractF at h
    by_cases he : (t.data.eid == x) = true
    · rw [if_pos he] at h
      injection h with h1 h2
      injection h1 with h1
      subst h1
      cases t with
      | node e k =>
        rw [countIdN_node]
        simp only [DNode.data] at hne
        rw [hne]
        simp only [DNode.kids] at hkids
        simp [hkids]
    · rw [if_neg he] at h
      cases hn : extractN x t with
      | mk o t2 =>
        rw [hn] at h
        cases o with
        | some v =>
          injection h with h1 h2
          injection h1 with h1
          subst h1
          cases t with
          | node e k =>
            unfold extractN at hn
            cases hk : extractF x k with
            | mk o3 k3 =>
              rw [hk] at hn
              cases o3 with
              | some w =>
                injection hn with hn1 hn2
                injection hn1 with hn1
                subst hn1
                have := countIdF_extract s hk
                simp only [DNode.kids] at hkids
                omega
              | none => simp at hn
        | none =>
          cases hts2 : extractF x ts with
          | mk o2 ts2 =>
            rw [hts2] at h
            cases o2 with
            | some w =>
              injection h with h1 h2
              injection h1 with h1
              subst h1
              exact extract_free_of_top_eq s x ts w ts2 hts hts2 hne
            | none => simp at h

/-- Unfolding: inserting into an empty sibling list. -/
theorem insertBeforeRef_fnil (ref : Option Nat) (sub : DNode) :
    insertBeforeRef ref sub .fnil = .fcons sub .fnil := by
  cases ref <;> rfl

/-- Unfolding: appending walks past the head. -/
theorem insertBeforeRef_fcons_none (sub t : DNode) (ts : DForest) :
    insertBeforeRef none sub (.fcons t ts) =
      .fcons t (insertBeforeRef none sub ts) := rfl

/-- Unfolding: inserting before a reference checks the head root. -/
theorem insertBeforeRef_fcons_some (r : Nat) (sub t : DNode) (ts : DForest) :
    insertBeforeRef (some r) sub (.fcons t ts) =
      if (t.data.eid == r) = true then .fcons sub (.fcons t ts)
      else .fcons t (insertBeforeRef (some r) sub ts) := rfl

/-- Inserting among a sibling list contributes the subtree's data. -/
theorem insertBeforeRef_perm (ref : Option Nat) (sub : DNode) :
    ∀ f : DForest,
    List.Perm (dataF (insertBeforeRef ref sub f)) (dataN sub ++ dataF f)
  | .fnil => by
    rw [insertBeforeRef_fnil]
    simp [dataF]
  | .fcons t ts => by
    have step : ∀ rest : DForest,
        List.Perm (dataF rest) (dataN sub ++ dataF ts) →
        List.Perm (dataF (.fcons t rest))
          (dataN sub ++ dataF (.fcons t ts)) := by
      intro rest hrest
      have s1 : List.Perm (dataN t ++ dataF rest)
          (dataN t ++ (dataN sub ++ dataF ts)) := hrest.append_left _
      have s2 : dataN t ++ (dataN sub ++ dataF ts) =
          (dataN t ++ dataN sub) ++ dataF ts := (List.append_assoc _ _ _).symm
      have s3 : List.Perm ((dataN t ++ dataN sub) ++ dataF ts)
          ((dataN sub ++ dataN t) ++ dataF ts) :=
        List.perm_append_comm.append_right _
      have s4 : (dataN sub ++ dataN t) ++ dataF ts =
          dataN sub ++ (dataN t ++ dataF ts) := List.append_assoc _ _ _
      exact s4 ▸ ((s2 ▸ s1).trans s3)
    cases ref with
    | none =>
      rw [insertBeforeRef_fcons_none]
      exact step _ (insertBeforeRef_perm none sub ts)
    | some r =>
      rw [insertBeforeRef_fcons_some]
      by_cases he : (t.data.eid == r) = true
      · rw [if_pos he]
        exact List.Perm.refl _
      · rw [if_neg he]
        exact step _ (insertBeforeRef_perm (some r) sub ts)

/-- Count after a sibling-list insertion. -/
theorem countIdF_insertBeforeRef (s : String) (ref : Option Nat)
    (sub : DNode) (f : DForest) :
    countIdF s (insertBeforeRef ref sub f) = countIdN s sub + countIdF s f := by
  unfold countIdF countIdN
  rw [countId_of_perm s (insertBeforeRef_perm ref sub f),
    List.filter_append, List.length_append]

/-- Root id count after a sibling-list insertion: the new subtree
becomes a root. -/
theorem topCount_insertBeforeRef (s : String) (ref : Option Nat)
    (sub : DNode) : ∀ f : DForest,
    topCountIdF s (insertBeforeRef ref sub f) =
      (if (sub.data.idAttr == some s) = true then 1 else 0) +
        topCountIdF s f
  | .fnil => by
    rw [insertBeforeRef_fnil, topCountIdF_fcons, topCountIdF_fnil]
  | .fcons t ts => by
    cases ref with
    | none =>
      rw [insertBeforeRef_fcons_none, topCountIdF_fcons,
        topCount_insertBeforeRef s none sub ts, topCountIdF_fcons]
      omega
    | some r =>
      rw [insertBeforeRef_fcons_some]
      by_cases he : (t.data.eid == r) = true
      · rw [if_pos he, topCountIdF_fcons, topCountIdF_fcons]
      · rw [if_neg he, topCountIdF_fcons,
          topCount_insertBeforeRef s (some r) sub ts, topCountIdF_fcons]
        omega

mutual
/-- A failed child insertion leaves the tree unchanged. -/
theorem insUN_false : ∀ (p : Nat) (ref : Option Nat) (sub t t' : DNode),
    insUN p ref sub t = (t', false) → t' = t
  | p, ref, sub, .node e k, t', h => by
    unfold insUN at h
    by_cases he : (e.eid == p) = true
    · rw [if_pos he] at h
      injection h with h1 h2
      cases h2
    · rw [if_neg he] at h
      cases hk : insUF p ref sub k with
      | mk k' b =>
        rw [hk] at h
        injection h with h1 h2
        subst h2
        rw [insUF_false p ref sub k k' hk] at h1
        exact h1.symm

/-- A failed forest insertion leaves the forest unchanged. -/
theorem insUF_false : ∀ (p : Nat) (ref : Option Nat) (sub : DNode)
    (f f' : DForest), insUF p ref sub f = (f', false) → f' = f
  | p, ref, sub, .fnil, f', h => by
    unfold insUF at h
    injection h with h1 h2
    exact h1.symm
  | p, ref, sub, .fcons t ts, f', h => by
    unfold insUF at h
    cases hn : insUN p ref sub t with
    | mk t' b =>
      rw [hn] at h
      cases b with
      | true =>
        injection h with h1 h2
        cases h2
      | false =>
        cases hts : insUF p ref sub ts with
        | mk ts' b2 =>
          rw [hts] at h
          injection h with h1 h2
          subst h2
          rw [insUF_false p ref sub ts ts' hts] at h1
          exact h1.symm
end

mutual
/-- A successful child insertion adds exactly the subtree's data. -/
theorem insUN_perm : ∀ (p : Nat) (ref : Option Nat) (sub t t' : DNode),
    insUN p ref sub t = (t', true) →
    List.Perm (dataN t') (dataN sub ++ dataN t)
  | p, ref, sub, .node e k, t', h => by
    unfold insUN at h
    by_cases he : (e.eid == p) = true
    · rw [if_pos he] at h
      injection h with h1 h2
      subst h1
      have hp := insertBeforeRef_perm ref sub k
      have s1 : List.Perm (e :: dataF (insertBeforeRef ref sub k))
          (e :: (dataN sub ++ dataF k)) := hp.cons e
      have s2 : List.Perm (e :: (dataN sub ++ dataF k))
          (dataN sub ++ e :: dataF k) := List.perm_middle.symm
      exact s1.trans s2
    · rw [if_neg he] at h
      cases hk : insUF p ref sub k with
      | mk k' b =>
        rw [hk] at h
        injection h with h1 h2
        subst h1
        subst h2
        have ih := insUF_perm p ref sub k k' hk
        have s1 : List.Perm (e :: dataF k') (e :: (dataN sub ++ dataF k)) :=
          ih.cons e
        have s2 : List.Perm (e :: (dataN sub ++ dataF k))
            (dataN sub ++ e :: dataF k) := List.perm_middle.symm
        exact s1.trans s2

/-- A successful forest insertion adds exactly the subtree's data. -/
theorem insUF_perm : ∀ (p : Nat) (ref : Option Nat) (sub : DNode)
    (f f' : DForest), insUF p ref sub f = (f', true) →
    List.Perm (dataF f') (dataN sub ++ dataF f)
  | p, ref, sub, .fnil, f', h => by
    unfold insUF at h
    injection h with h1 h2
    cases h2
  | p, ref, sub, .fcons t ts, f', h => by
    unfold insUF at h
    cases hn : insUN p ref sub t with
    | mk t' b =>
      rw [hn] at h
      cases b with
      | true =>
        injection h with h1 h2
        subst h1
        have ih := insUN_perm p ref sub t t' hn
        have s1 : List.Perm (dataN t' ++ dataF ts)
            ((dataN sub ++ dataN t) ++ dataF ts) := ih.append_right _
        have s2 : (dataN sub ++ dataN t) ++ dataF ts =
            dataN sub ++ (dataN t ++ dataF ts) := List.append_assoc _ _ _
        exact s2 ▸ s1
      | false =>
        cases hts : insUF p ref sub ts with
        | mk ts' b2 =>
          rw [hts] at h
          injection h with h1 h2
          subst h1
          subst h2
          have ih := insUF_perm p ref sub ts ts' hts
          have s1 : List.Perm (dataN t ++ dataF ts')
              (dataN t ++ (dataN sub ++ dataF ts)) := ih.append_left _
          have s2 : dataN t ++ (dataN sub ++ dataF ts) =
              (dataN t ++ dataN sub) ++ dataF ts :=
            (List.append_assoc _ _ _).symm
          have s3 : List.Perm ((dataN t ++ dataN sub) ++ dataF ts)
              ((dataN sub ++ dataN t) ++ dataF ts) :=
            List.perm_append_comm.append_right _
          have s4 : (dataN sub ++ dataN t) ++ dataF ts =
              dataN sub ++ (dataN t ++ dataF ts) := List.append_assoc _ _ _
          exact s4 ▸ ((s2 ▸ s1).trans s3)
end

/-- A child insertion never changes the tree's root data. -/
theorem insUN_root (p : Nat) (ref : Option Nat) (sub t : DNode)
    (t' : DNode) (b : Bool) (h : insUN p ref sub t = (t', b)) :
    t'.data = t.data := by
  cases t with
  | node e k =>
    unfold insUN at h
    by_cases he : (e.eid == p) = true
    · rw [if_pos he] at h
      injection h with h1 h2
      subst h1
      rfl
    · rw [if_neg he] at h
      cases hk : insUF p ref sub k with
      | mk k' b2 =>
        rw [hk] at h
        injection h with h1 h2
        subst h1
        rfl

/-- A forest insertion under a parent never changes the root list. -/
theorem insUF_roots : ∀ (p : Nat) (ref : Option Nat) (sub : DNode)
    (f f' : DForest) (b : Bool), insUF p ref sub f = (f', b) →
    rootsF f' = rootsF f
  | p, ref, sub, .fnil, f', b, h => by
    unfold insUF at h
    injection h with h1 h2
    subst h1
    rfl
  | p, ref, sub, .fcons t ts, f', b, h => by
    unfold insUF at h
    cases hn : insUN p ref sub t with
    | mk t' b2 =>
      rw [hn] at h
      cases b2 with
      | true =>
        injection h with h1 h2
        subst h1
        show t'.data :: rootsF ts = t.data :: rootsF ts
        rw [insUN_root p ref sub t t' true hn]
      | false =>
        cases hts : insUF p ref sub ts with
        | mk ts' b3 =>
          rw [hts] at h
          injection h with h1 h2
          subst h1
          show t.data :: rootsF ts' = t.data :: rootsF ts
          rw [insUF_roots p ref sub ts ts' b3 hts]

/-- Count after a successful forest insertion. -/
theorem countIdF_insUF (s : String) {p : Nat} {ref : Option Nat}
    {sub : DNode} {f f' : DForest} (h : insUF p ref sub f = (f', true)) :
    countIdF s f' = countIdN s sub + countIdF s f := by
  unfold countIdF countIdN
  rw [countId_of_perm s (insUF_perm _ _ _ _ _ h), List.filter_append,
    List.length_append]

/-- Root id count is untouched by an insertion under a parent. -/
theorem topCount_insUF (s : String) {p : Nat} {ref : Option Nat}
    {sub : DNode} {f f' : DForest} {b : Bool}
    (h : insUF p ref sub f = (f', b)) :
    topCountIdF s f' = topCountIdF s f := by
  unfold topCountIdF
  rw [insUF_roots _ _ _ _ _ _ h]

mutual
/-- A failed id removal leaves the tree unchanged, and its descendants
carry no such id. -/
theorem remIdN_none : ∀ (s : String) (t t' : DNode),
    remIdN s t = (none, t') → t' = t ∧ countIdF s t.kids = 0
  | s, .node e k, t', h => by
    unfold remIdN at h
    cases hk : remIdF s k with
    | mk o k2 =>
      rw [hk] at h
      cases o with
      | some u => simp at h
      | none =>
        injection h with h1 h2
        subst h2
        obtain ⟨he, hc⟩ := remIdF_none s k k2 hk
        exact ⟨rfl, hc⟩

/-- A failed id removal leaves the forest unchanged and id-free. -/
theorem remIdF_none : ∀ (s : String) (f f' : DForest),
    remIdF s f = (none, f') → f' = f ∧ countIdF s f = 0
  | s, .fnil, f', h => by
    unfold remIdF at h
    injection h with h1 h2
    subst h2
    exact ⟨rfl, rfl⟩
  | s, .fcons t ts, f', h => by
    unfold remIdF at h
    by_cases he : (t.data.idAttr == some s) = true
    · rw [if_pos he] at h
      simp at h
    · rw [if_neg he] at h
      cases hn : remIdN s t with
      | mk o t2 =>
        rw [hn] at h
        cases o with
        | some u => simp at h
        | none =>
          cases hts : remIdF s ts with
          | mk o2 ts2 =>
            rw [hts] at h
            cases o2 with
            | some u => simp at h
            | none =>
              injection h with h1 h2
              subst h2
              obtain ⟨-, hkids⟩ := remIdN_none s t t2 hn
              obtain ⟨-, hrest⟩ := remIdF_none s ts ts2 hts
              refine ⟨rfl, ?_⟩
              rw [countIdF_fcons]
              cases t with
              | node e k =>
                rw [countIdN_node]
                simp only [DNode.data] at he
                simp only [DNode.kids] at hkids
                rw [if_neg he, hkids, hrest]
end

mutual
/-- A successful id removal partitions the data and returns a subtree
whose root carries the id. -/
theorem remIdN_perm : ∀ (s : String) (t : DNode) (u t' : DNode),
    remIdN s t = (some u, t') →
    List.Perm (dataN t) (dataN u ++ dataN t') ∧
      (u.data.idAttr == some s) = true
  | s, .node e k, u, t', h => by
    unfold remIdN at h
    cases hk : remIdF s k with
    | mk o k2 =>
      rw [hk] at h
      cases o with
      | none => simp at h
      | some v =>
        injection h with h1 h2
        injection h1 with h1
        subst h1
        subst h2
        obtain ⟨ih, hattr⟩ := remIdF_perm s k v k2 hk
        refine ⟨?_, hattr⟩
        have s1 : List.Perm (e :: dataF k) (e :: (dataN v ++ dataF k2)) :=
          ih.cons e
        have s2 : List.Perm (e :: (dataN v ++ dataF k2))
            (dataN v ++ e :: dataF k2) := List.perm_middle.symm
        exact s1.trans s2

/-- Forest version of `remIdN_perm`. -/
theorem remIdF_perm : ∀ (s : String) (f : DForest) (u : DNode)
    (f' : DForest), remIdF s f = (some u, f') →
    List.Perm (dataF f) (dataN u ++ dataF f') ∧
      (u.data.idAttr == some s) = true
  | s, .fnil, u, f', h => by simp [remIdF] at h
  | s, .fcons t ts, u, f', h => by
    unfold remIdF at h
    by_cases he : (t.data.idAttr == some s) = true
    · rw [if_pos he] at h
      injection h with h1 h2
      injection h1 with h1
      subst h1
      subst h2
      exact ⟨List.Perm.refl _, he⟩
    · rw [if_neg he] at h
      cases hn : remIdN s t with
      | mk o t2 =>
        rw [hn] at h
        cases o with
        | some v =>
          injection h with h1 h2
          injection h1 with h1
          subst h1
          subst h2
          obtain ⟨ih, hattr⟩ := remIdN_perm s t v t2 hn
          refine ⟨?_, hattr⟩
          have s1 : List.Perm (dataN t ++ dataF ts)
              ((dataN v ++ dataN t2) ++ dataF ts) := ih.append_right _
          have s2 : (dataN v ++ dataN t2) ++ dataF ts =
              dataN v ++ (dataN t2 ++ dataF ts) := List.append_assoc _ _ _
          exact s2 ▸ s1
        | none =>
          cases hts : remIdF s ts with
          | mk o2 ts2 =>
            rw [hts] at h
            cases o2 with
            | some w =>
              injection h with h1 h2
              injection h1 with h1
              subst h1
              subst h2
              obtain ⟨ih, hattr⟩ := remIdF_perm s ts w ts2 hts
              refine ⟨?_, hattr⟩
              have s1 : List.Perm (dataN t ++ dataF ts)
                  (dataN t ++ (dataN w ++ dataF ts2)) := ih.append_left _
              have s2 : dataN t ++ (dataN w ++ dataF ts2) =
                  (dataN t ++ dataN w) ++ dataF ts2 :=
                (List.append_assoc _ _ _).symm
              have s3 : List.Perm ((dataN t ++ dataN w) ++ dataF ts2)
                  ((dataN w ++ dataN t) ++ dataF ts2) :=
                List.perm_append_comm.append_right _
              have s4 : (dataN w ++ dataN t) ++ dataF ts2 =
                  dataN w ++ (dataN t ++ dataF ts2) := List.append_assoc _ _ _
              exact s4 ▸ ((s2 ▸ s1).trans s3)
            | none => simp at h
end

mutual
/-- Mapping data commutes with tree preorder data. -/
theorem dataN_mapN (g : ElemData → ElemData) : ∀ t : DNode,
    dataN (mapN g t) = (dataN t).map g
  | .node e k => by
    show g e :: dataF (mapF g k) = (e :: dataF k).map g
    rw [dataF_mapF g k, List.map_cons]

/-- Mapping data commutes with forest preorder data. -/
theorem dataF_mapF (g : ElemData → ElemData) : ∀ f : DForest,
    dataF (mapF g f) = (dataF f).map g
  | .fnil => rfl
  | .fcons t ts => by
    show dataN (mapN g t) ++ dataF (mapF g ts) = (dataN t ++ dataF ts).map g
    rw [dataN_mapN g t, dataF_mapF g ts, List.map_append]
end

/-- Mapping data keeps a tree's root shape. -/
theorem mapN_data (g : ElemData → ElemData) (t : DNode) :
    (mapN g t).data = g t.data := by
  cases t with
  | node e k => rfl

/-- Mapping data commutes with the root list. -/
theorem rootsF_mapF (g : ElemData → ElemData) : ∀ f : DForest,
    rootsF (mapF g f) = (rootsF f).map g
  | .fnil => rfl
  | .fcons t ts => by
    show (mapN g t).data :: rootsF (mapF g ts) = (t.data :: rootsF ts).map g
    rw [mapN_data, rootsF_mapF g ts, List.map_cons]

/-- A zero total over the frame documents means each frame document is
free of the id. -/
theorem framesCount_zero (s : String) : ∀ (l : List (Nat × DForest)),
    framesCount s l = 0 → ∀ fr ∈ l, countIdF s fr.2 = 0
  | [], _, fr, hfr => absurd hfr (List.not_mem_nil _)
  | a :: rest, h, fr, hfr => by
    unfold framesCount at h
    rw [List.map_cons, List.sum_cons] at h
    rcases List.mem_cons.mp hfr with rfl | hfr
    · omega
    · exact framesCount_zero s rest (by unfold framesCount; omega) fr hfr

/-- The requested-id count of a forest bounds any extracted subtree's. -/
theorem countIdN_le_of_extract (s : String) {x : Nat} {f : DForest}
    {u : DNode} {f' : DForest} (h : extractF x f = (some u, f')) :
    countIdN s u ≤ countIdF s f := by
  rw [countIdF_extract s h]
  exact Nat.le_add_right _ _

/-- The data of an extracted subtree's root belongs to the forest. -/
theorem extract_root_mem {x : Nat} {f : DForest} {u : DNode}
    {f' : DForest} (h : extractF x f = (some u, f')) :
    u.data ∈ dataF f := by
  have hp := extractF_perm x f u f' h
  have : u.data ∈ dataN u ++ dataF f' := by
    apply List.mem_append_left
    cases u with
    | node e k => exact List.mem_cons_self _ _
  exact hp.mem_iff.mpr this

/-- A nonzero id count forces the removal to find a node. -/
theorem remIdF_some_of_pos (s : String) (f : DForest)
    (h : 1 ≤ countIdF s f) :
    ∃ u f', remIdF s f = (some u, f') := by
  cases hr : remIdF s f with
  | mk o f2 =>
    cases o with
    | some u => exact ⟨u, f2, rfl⟩
    | none =>
      obtain ⟨-, hz⟩ := remIdF_none s f f2 hr
      omega

/-- A zero id count means removal is a no-op. -/
theorem remIdF_none_of_zero (s : String) (f : DForest)
    (h : countIdF s f = 0) : remIdF s f = (none, f) := by
  cases hr : remIdF s f with
  | mk o f2 =>
    cases o with
    | some u =>
      obtain ⟨hp, hattr⟩ := remIdF_perm s f u f2 hr
      have hcount : countIdF s f = countIdN s u + countIdF s f2 := by
        unfold countIdF countIdN
        rw [countId_of_perm s hp, List.filter_append, List.length_append]
      have hroot := root_le_countIdN s u
      rw [hattr] at hroot
      simp only [if_pos] at hroot
      omega
    | none =>
      obtain ⟨he, -⟩ := remIdF_none s f f2 hr
      rw [he]

/-- Frame count as a filter over the flattened frame data. -/
theorem framesCount_eq_filter (s : String) : ∀ l : List (Nat × DForest),
    framesCount s l =
      ((framesData l).filter (fun e => e.idAttr == some s)).length
  | [] => rfl
  | a :: rest => by
    unfold framesCount framesData
    rw [List.map_cons, List.sum_cons, List.flatMap_cons, List.filter_append,
      List.length_append]
    have ih := framesCount_eq_filter s rest
    unfold framesCount framesData at ih
    rw [ih]
    rfl

/-- Failed frame extraction leaves the frame store unchanged. -/
theorem framesExtract_none : ∀ (x : Nat) (l l' : List (Nat × DForest)),
    domExtract.framesExtract x l = (none, l') → l' = l
  | x, [], l', h => by
    unfold domExtract.framesExtract at h
    injection h with h1 h2
    exact h2.symm
  | x, (i, f) :: rest, l', h => by
    unfold domExtract.framesExtract at h
    cases hf : extractF x f with
    | mk o f2 =>
      rw [hf] at h
      cases o with
      | some u => simp at h
      | none =>
        cases hr : domExtract.framesExtract x rest with
        | mk r rest' =>
          rw [hr] at h
          injection h with h1 h2
          subst h1
          subst h2
          rw [framesExtract_none x rest rest' hr]

/-- Unfolding: frame data of a cons. -/
theorem framesData_cons (a : Nat × DForest) (rest : List (Nat × DForest)) :
    framesData (a :: rest) = dataF a.2 ++ framesData rest := rfl

/-- Permutation step: an (a ++ b) ++ c list permutes to b ++ (a ++ c). -/
theorem perm_rotate (a b c : List ElemData) :
    List.Perm ((a ++ b) ++ c) (b ++ (a ++ c)) := by
  have s3 : List.Perm ((a ++ b) ++ c) ((b ++ a) ++ c) :=
    List.perm_append_comm.append_right _
  have s4 : (b ++ a) ++ c = b ++ (a ++ c) := List.append_assoc _ _ _
  exact s4 ▸ s3

/-- Successful frame extraction partitions the flattened frame data and
returns a subtree rooted at the requested id. -/
theorem framesExtract_some : ∀ (x : Nat) (l : List (Nat × DForest))
    (u : DNode) (l' : List (Nat × DForest)),
    domExtract.framesExtract x l = (some u, l') →
    List.Perm (framesData l) (dataN u ++ framesData l') ∧ u.data.eid = x
  | x, [], u, l', h => by
    unfold domExtract.framesExtract at h
    simp at h
  | x, (i, f) :: rest, u, l', h => by
    unfold domExtract.framesExtract at h
    cases hf : extractF x f with
    | mk o f2 =>
      rw [hf] at h
      cases o with
      | some v =>
        injection h with h1 h2
        injection h1 with h1
        subst h1
        subst h2
        refine ⟨?_, extractF_eid x f v f2 hf⟩
        rw [framesData_cons, framesData_cons]
        have hp := extractF_perm x f v f2 hf
        have s1 : List.Perm (dataF f ++ framesData rest)
            ((dataN v ++ dataF f2) ++ framesData rest) := hp.append_right _
        have s2 : (dataN v ++ dataF f2) ++ framesData rest =
            dataN v ++ (dataF f2 ++ framesData rest) := List.append_assoc _ _ _
        exact s2 ▸ s1
      | none =>
        cases hr : domExtract.framesExtract x rest with
        | mk r rest' =>
          rw [hr] at h
          cases r with
          | none => simp at h
          | some w =>
            injection h with h1 h2
            injection h1 with h1
            subst h1
            subst h2
            obtain ⟨ihp, ihe⟩ := framesExtract_some x rest w rest' hr
            refine ⟨?_, ihe⟩
            rw [framesData_cons, framesData_cons]
            have s1 : List.Perm (dataF f ++ framesData rest)
                (dataF f ++ (dataN w ++ framesData rest')) := ihp.append_left _
            have s2 : dataF f ++ (dataN w ++ framesData rest') =
                (dataF f ++ dataN w) ++ framesData rest' :=
              (List.append_assoc _ _ _).symm
            exact (s2 ▸ s1).trans (perm_rotate _ _ _)

/-- Frame insertion: failure leaves the store unchanged, success adds
exactly the subtree's data. -/
theorem framesInsert_spec : ∀ (p : Nat) (ref : Option Nat) (sub : DNode)
    (l l' : List (Nat × DForest)) (b : Bool),
    domInsert.framesInsert p ref sub l = (l', b) →
    (b = false → l' = l) ∧
    (b = true → List.Perm (framesData l') (dataN sub ++ framesData l))
  | p, ref, sub, [], l', b, h => by
    unfold domInsert.framesInsert at h
    injection h with h1 h2
    subst h1
    subst h2
    exact ⟨fun _ => rfl, fun hb => by cases hb⟩
  | p, ref, sub, (i, f) :: rest, l', b, h => by
    unfold domInsert.framesInsert at h
    cases hf : insUF p ref sub f with
    | mk f2 b2 =>
      rw [hf] at h
      cases b2 with
      | true =>
        injection h with h1 h2
        subst h1
        subst h2
        refine ⟨fun hb => Bool.noConfusion hb, fun _ => ?_⟩
        rw [framesData_cons, framesData_cons]
        have hp := insUF_perm p ref sub f f2 hf
        have s1 : List.Perm (dataF f2 ++ framesData rest)
            ((dataN sub ++ dataF f) ++ framesData rest) := hp.append_right _
        have s2 : (dataN sub ++ dataF f) ++ framesData rest =
            dataN sub ++ (dataF f ++ framesData rest) := List.append_assoc _ _ _
        exact s2 ▸ s1
      | false =>
        cases hr : domInsert.framesInsert p ref sub rest with
        | mk rest' b3 =>
          rw [hr] at h
          injection h with h1 h2
          subst h1
          subst h2
          obtain ⟨ihf, iht⟩ := framesInsert_spec p ref sub rest rest' b3 hr
          constructor
          · intro hb
            rw [ihf hb]
          · intro hb
            have ihp := iht hb
            rw [framesData_cons, framesData_cons]
            have s1 : List.Perm (dataF f ++ framesData rest')
                (dataF f ++ (dataN sub ++ framesData rest)) :=
              ihp.append_left _
            have s2 : dataF f ++ (dataN sub ++ framesData rest) =
                (dataF f ++ dataN sub) ++ framesData rest :=
              (List.append_assoc _ _ _).symm
            exact (s2 ▸ s1).trans (perm_rotate _ _ _)

/-- Updating one node's record maps the pointwise update over the whole
node store. -/
theorem allData_updData (d : Dom) (x : Nat) (g : ElemData → ElemData) :
    allData (updData d x g) =
      (allData d).map (fun e => if (e.eid == x) = true then g e else e) := by
  unfold allData updData framesData
  simp only [List.map_cons, List.map_append, dataF_mapF, List.flatMap_map,
    List.map_flatMap]

/-- Store permutation helper: growing or shrinking the first region. -/
theorem perm_store_left {α : Type} {u A A2 B C : List α} {b : α}
    (h : List.Perm A (u ++ A2)) :
    List.Perm (b :: (A ++ B ++ C)) (u ++ b :: (A2 ++ B ++ C)) := by
  rw [← Multiset.coe_eq_coe] at h ⊢
  simp only [← Multiset.coe_add, ← Multiset.cons_coe,
    ← Multiset.singleton_add] at h ⊢
  rw [h]
  abel

/-- Store permutation helper: growing or shrinking the middle region. -/
theorem perm_store_mid {α : Type} {u A B B2 C : List α} {b : α}
    (h : List.Perm B (u ++ B2)) :
    List.Perm (b :: (A ++ B ++ C)) (u ++ b :: (A ++ B2 ++ C)) := by
  rw [← Multiset.coe_eq_coe] at h ⊢
  simp only [← Multiset.coe_add, ← Multiset.cons_coe,
    ← Multiset.singleton_add] at h ⊢
  rw [h]
  abel

/-- Store permutation helper: growing or shrinking the last region. -/
theorem perm_store_right {α : Type} {u A B C C2 : List α} {b : α}
    (h : List.Perm C (u ++ C2)) :
    List.Perm (b :: (A ++ B ++ C)) (u ++ b :: (A ++ B ++ C2)) := by
  rw [← Multiset.coe_eq_coe] at h ⊢
  simp only [← Multiset.coe_add, ← Multiset.cons_coe,
    ← Multiset.singleton_add] at h ⊢
  rw [h]
  abel

/-- Characterisation of `domExtract` on success: the store splits off
the extracted subtree, whose root carries the requested id and belonged
to the store; exactly one region shrank. -/
theorem domExtract_spec (d : Dom) (x : Nat) (u : DNode) (d1 : Dom)
    (h : domExtract d x = (some u, d1)) :
    List.Perm (allData d) (dataN u ++ allData d1) ∧
    u.data.eid = x ∧ u.data ∈ allData d ∧ d1.bodyData = d.bodyData ∧
    ((d1.detached = d.detached ∧ d1.frames = d.frames ∧
        extractF x d.bodyKids = (some u, d1.bodyKids)) ∨
      (d1.bodyKids = d.bodyKids ∧ d1.frames = d.frames ∧
        extractF x d.detached = (some u, d1.detached)) ∨
      (d1.bodyKids = d.bodyKids ∧ d1.detached = d.detached ∧
        domExtract.framesExtract x d.frames = (some u, d1.frames))) := by
  unfold domExtract at h
  cases hb : extractF x d.bodyKids with
  | mk o bk2 =>
    rw [hb] at h
    cases o with
    | some v =>
      injection h with h1 h2
      injection h1 with h1
      subst h1
      subst h2
      have hp := extractF_perm x d.bodyKids v bk2 hb
      refine ⟨perm_store_left hp, extractF_eid x d.bodyKids v bk2 hb, ?_,
        rfl, Or.inl ⟨rfl, rfl, rfl⟩⟩
      exact List.mem_cons_of_mem _
        (List.mem_append_left _ (List.mem_append_left _
          (extract_root_mem hb)))
    | none =>
      cases hd : extractF x d.detached with
      | mk o2 det2 =>
        rw [hd] at h
        cases o2 with
        | some v =>
          injection h with h1 h2
          injection h1 with h1
          subst h1
          subst h2
          have hp := extractF_perm x d.detached v det2 hd
          refine ⟨perm_store_mid hp, extractF_eid x d.detached v det2 hd, ?_,
            rfl, Or.inr (Or.inl ⟨rfl, rfl, rfl⟩)⟩
          exact List.mem_cons_of_mem _
            (List.mem_append_left _ (List.mem_append_right _
              (extract_root_mem hd)))
        | none =>
          cases hfr : domExtract.framesExtract x d.frames with
          | mk o3 fr2 =>
            rw [hfr] at h
            cases o3 with
            | some v =>
              injection h with h1 h2
              injection h1 with h1
              subst h1
              subst h2
              obtain ⟨hp, he⟩ := framesExtract_some x d.frames v fr2 hfr
              refine ⟨perm_store_right hp, he, ?_, rfl,
                Or.inr (Or.inr ⟨rfl, rfl, rfl⟩)⟩
              have humem : v.data ∈ framesData d.frames := by
                have : v.data ∈ dataN v ++ framesData fr2 := by
                  apply List.mem_append_left
                  cases v with
                  | node e k => exact List.mem_cons_self _ _
                exact hp.mem_iff.mpr this
              exact List.mem_cons_of_mem _ (List.mem_append_right _ humem)
            | none => simp at h

/-- Inserting an overlay-free subtree anywhere in the store preserves
the node multiset (adding exactly that subtree), the document's overlay
count and root count, the detached at-roots property, the frame overlay
total, and the body record. -/
theorem domInsert_free (d : Dom) (p : Nat) (ref : Option Nat) (sub : DNode)
    (hsub : countIdN OVERLAY_ID sub = 0) :
    List.Perm (allData (domInsert d p ref sub)) (dataN sub ++ allData d) ∧
    countIdF OVERLAY_ID (domInsert d p ref sub).bodyKids =
      countIdF OVERLAY_ID d.bodyKids ∧
    topCountIdF OVERLAY_ID (domInsert d p ref sub).bodyKids =
      topCountIdF OVERLAY_ID d.bodyKids ∧
    (countIdF OVERLAY_ID d.detached = topCountIdF OVERLAY_ID d.detached →
      countIdF OVERLAY_ID (domInsert d p ref sub).detached =
        topCountIdF OVERLAY_ID (domInsert d p ref sub).detached) ∧
    framesCount OVERLAY_ID (domInsert d p ref sub).frames =
      framesCount OVERLAY_ID d.frames ∧
    (domInsert d p ref sub).bodyData = d.bodyData := by
  have hroot : (if (sub.data.idAttr == some OVERLAY_ID) = true then 1 else 0)
      = 0 := by
    have := root_le_countIdN OVERLAY_ID sub
    omega
  unfold domInsert
  by_cases hp : (p == d.bodyData.eid) = true
  · rw [if_pos hp]
    refine ⟨perm_store_left (insertBeforeRef_perm ref sub d.bodyKids),
      ?_, ?_, fun hdeq => hdeq, rfl, rfl⟩
    · rw [show ({ d with bodyKids := insertBeforeRef ref sub d.bodyKids
        : Dom }).bodyKids = insertBeforeRef ref sub d.bodyKids from rfl,
        countIdF_insertBeforeRef, hsub]
      omega
    · rw [show ({ d with bodyKids := insertBeforeRef ref sub d.bodyKids
        : Dom }).bodyKids = insertBeforeRef ref sub d.bodyKids from rfl,
        topCount_insertBeforeRef, hroot]
      omega
  · rw [if_neg hp]
    cases hb : insUF p ref sub d.bodyKids with
    | mk bk2 b =>
      cases b with
      | true =>
        refine ⟨perm_store_left (insUF_perm _ _ _ _ _ hb), ?_, ?_,
          fun hdeq => hdeq, rfl, rfl⟩
        · rw [show ({ d with bodyKids := bk2 : Dom }).bodyKids = bk2
            from rfl, countIdF_insUF OVERLAY_ID hb, hsub]
          omega
        · rw [show ({ d with bodyKids := bk2 : Dom }).bodyKids = bk2
            from rfl, topCount_insUF OVERLAY_ID hb]
      | false =>
        cases hdet : insUF p ref sub d.detached with
        | mk det2 b2 =>
          cases b2 with
          | true =>
            refine ⟨perm_store_mid (insUF_perm _ _ _ _ _ hdet), rfl, rfl,
              ?_, rfl, rfl⟩
            intro hdeq
            rw [show ({ d with detached := det2 : Dom }).detached = det2
              from rfl, countIdF_insUF OVERLAY_ID hdet,
              topCount_insUF OVERLAY_ID hdet, hsub, hdeq]
            omega
          | false =>
            cases hfr : domInsert.framesInsert p ref sub d.frames with
            | mk fr2 b3 =>
              cases b3 with
              | true =>
                obtain ⟨-, hperm⟩ := framesInsert_spec p ref sub d.frames
                  fr2 true hfr
                refine ⟨perm_store_right (hperm rfl), rfl, rfl,
                  fun hdeq => hdeq, ?_, rfl⟩
                rw [show ({ d with frames := fr2 : Dom }).frames = fr2
                  from rfl, framesCount_eq_filter, framesCount_eq_filter,
                  countId_of_perm OVERLAY_ID (hperm rfl),
                  List.filter_append, List.length_append]
                have : ((dataN sub).filter
                    (fun e => e.idAttr == some OVERLAY_ID)).length = 0 := hsub
                omega
              | false =>
                refine ⟨perm_store_mid
                  (insertBeforeRef_perm none sub d.detached), rfl, rfl,
                  ?_, rfl, rfl⟩
                intro hdeq
                rw [show ({ d with
                    detached := insertBeforeRef none sub d.detached
                    : Dom }).detached =
                    insertBeforeRef none sub d.detached from rfl,
                  countIdF_insertBeforeRef, topCount_insertBeforeRef,
                  hsub, hroot, hdeq]

/-- Master preservation lemma for `moveNode`: relocating a node that
does not carry the reserved overlay id — under the at-roots invariants —
permutes the node store, and preserves the document's overlay count and
root count, the detached at-roots property, overlay-freeness of the
frame documents, and the body record. -/
theorem moveNode_inv (d : Dom) (x p : Nat) (ref : Option Nat)
    (hub : countIdF OVERLAY_ID d.bodyKids = topCountIdF OVERLAY_ID d.bodyKids)
    (hdet : countIdF OVERLAY_ID d.detached =
      topCountIdF OVERLAY_ID d.detached)
    (hfr : framesCount OVERLAY_ID d.frames = 0)
    (hid : IdFact d x) :
    List.Perm (allData (moveNode d x p ref)) (allData d) ∧
    countIdF OVERLAY_ID (moveNode d x p ref).bodyKids =
      countIdF OVERLAY_ID d.bodyKids ∧
    topCountIdF OVERLAY_ID (moveNode d x p ref).bodyKids =
      topCountIdF OVERLAY_ID d.bodyKids ∧
    countIdF OVERLAY_ID (moveNode d x p ref).detached =
      topCountIdF OVERLAY_ID (moveNode d x p ref).detached ∧
    framesCount OVERLAY_ID (moveNode d x p ref).frames = 0 ∧
    (moveNode d x p ref).bodyData = d.bodyData := by
  unfold moveNode
  cases hx : domExtract d x with
  | mk o d1 =>
    cases o with
    | none => exact ⟨List.Perm.refl _, rfl, rfl, hdet, hfr, rfl⟩
    | some u =>
      obtain ⟨hperm, heid, humem, hbody, hregion⟩ :=
        domExtract_spec d x u d1 hx
      have hne : (u.data.idAttr == some OVERLAY_ID) = false := by
        have hneq := hid u.data humem heid
        cases hbeq : (u.data.idAttr == some OVERLAY_ID) with
        | false => rfl
        | true => exact absurd (eq_of_beq hbeq) hneq
      have key : countIdN OVERLAY_ID u = 0 ∧
          countIdF OVERLAY_ID d1.bodyKids = countIdF OVERLAY_ID d.bodyKids ∧
          topCountIdF OVERLAY_ID d1.bodyKids =
            topCountIdF OVERLAY_ID d.bodyKids ∧
          countIdF OVERLAY_ID d1.detached =
            topCountIdF OVERLAY_ID d1.detached ∧
          framesCount OVERLAY_ID d1.frames = 0 := by
        rcases hregion with ⟨hd1, hf1, hext⟩ | ⟨hb1, hf1, hext⟩ |
          ⟨hb1, hd1, hext⟩
        · have hu0 := extract_free_of_top_eq OVERLAY_ID x d.bodyKids u
            d1.bodyKids hub hext hne
          have hc := countIdF_extract OVERLAY_ID hext
          have ht := extract_top_of_free OVERLAY_ID x d.bodyKids u
            d1.bodyKids hext hu0
          refine ⟨hu0, by omega, ht, ?_, ?_⟩
          · rw [hd1]
            exact hdet
          · rw [hf1]
            exact hfr
        · have hu0 := extract_free_of_top_eq OVERLAY_ID x d.detached u
            d1.detached hdet hext hne
          have hc := countIdF_extract OVERLAY_ID hext
          have ht := extract_top_of_free OVERLAY_ID x d.detached u
            d1.detached hext hu0
          exact ⟨hu0, by rw [hb1], by rw [hb1], by omega,
            by rw [hf1]; exact hfr⟩
        · obtain ⟨hfp, -⟩ := framesExtract_some x d.frames u d1.frames hext
          have hcnt : framesCount OVERLAY_ID d.frames =
              countIdN OVERLAY_ID u + framesCount OVERLAY_ID d1.frames := by
            rw [framesCount_eq_filter, framesCount_eq_filter,
              countId_of_perm OVERLAY_ID hfp, List.filter_append,
              List.length_append]
            rfl
          have hu0 : countIdN OVERLAY_ID u = 0 := by omega
          exact ⟨hu0, by rw [hb1], by rw [hb1], by rw [hd1]; exact hdet,
            by omega⟩
      obtain ⟨hu0, hb2, ht2, hd2, hf2⟩ := key
      obtain ⟨iperm, ib, it, idet, ifr, ibody⟩ :=
        domInsert_free d1 p ref u hu0
      refine ⟨iperm.trans hperm.symm, by rw [ib]; exact hb2,
        by rw [it]; exact ht2, idet hd2, by rw [ifr]; exact hf2,
        by rw [ibody, hbody]⟩

/-- Count preservation under a data map that keeps id attributes. -/
theorem countIdF_mapF (s : String) (h : ElemData → ElemData)
    (hpres : ∀ e, (h e).idAttr = e.idAttr) (f : DForest) :
    countIdF s (mapF h f) = countIdF s f := by
  unfold countIdF
  rw [dataF_mapF, ← List.countP_eq_length_filter,
    ← List.countP_eq_length_filter, List.countP_map]
  apply List.countP_congr
  intro e he
  simp [Function.comp, hpres e]

/-- Root count preservation under a data map that keeps id attributes. -/
theorem topCountIdF_mapF (s : String) (h : ElemData → ElemData)
    (hpres : ∀ e, (h e).idAttr = e.idAttr) (f : DForest) :
    topCountIdF s (mapF h f) = topCountIdF s f := by
  unfold topCountIdF
  rw [rootsF_mapF, ← List.countP_eq_length_filter,
    ← List.countP_eq_length_filter, List.countP_map]
  apply List.countP_congr
  intro e he
  simp [Function.comp, hpres e]

/-- Facts preserved by a record update that keeps ids, id attributes,
tags and selector hits. -/
theorem updData_pres (d : Dom) (x : Nat) (g : ElemData → ElemData)
    (hidp : ∀ e, (g e).idAttr = e.idAttr) (heid : ∀ e, (g e).eid = e.eid)
    (htag : ∀ e, (g e).tag = e.tag) (hsel : ∀ e, (g e).selHits = e.selHits) :
    allIds (updData d x g) = allIds d ∧
    countIdF OVERLAY_ID (updData d x g).bodyKids =
      countIdF OVERLAY_ID d.bodyKids ∧
    topCountIdF OVERLAY_ID (updData d x g).bodyKids =
      topCountIdF OVERLAY_ID d.bodyKids ∧
    countIdF OVERLAY_ID (updData d x g).detached =
      countIdF OVERLAY_ID d.detached ∧
    topCountIdF OVERLAY_ID (updData d x g).detached =
      topCountIdF OVERLAY_ID d.detached ∧
    framesCount OVERLAY_ID (updData d x g).frames =
      framesCount OVERLAY_ID d.frames ∧
    (updData d x g).bodyData.idAttr = d.bodyData.idAttr ∧
    ((∀ e ∈ allData d, e.idAttr = some OVERLAY_ID →
        e.tag = Tag.div ∧ e.selHits = []) →
      ∀ e ∈ allData (updData d x g), e.idAttr = some OVERLAY_ID →
        e.tag = Tag.div ∧ e.selHits = []) ∧
    (∀ y, IdFact d y → IdFact (updData d x g) y) := by
  have hidp' : ∀ e, ((fun e => if (e.eid == x) = true then g e else e)
      e).idAttr = e.idAttr := by
    intro e
    by_cases he : (e.eid == x) = true
    · simp only [he, if_true]
      exact hidp e
    · simp [he]
  have heid' : ∀ e, ((fun e => if (e.eid == x) = true then g e else e)
      e).eid = e.eid := by
    intro e
    by_cases he : (e.eid == x) = true
    · simp only [he, if_true]
      exact heid e
    · simp [he]
  have htag' : ∀ e, ((fun e => if (e.eid == x) = true then g e else e)
      e).tag = e.tag := by
    intro e
    by_cases he : (e.eid == x) = true
    · simp only [he, if_true]
      exact htag e
    · simp [he]
  have hsel' : ∀ e, ((fun e => if (e.eid == x) = true then g e else e)
      e).selHits = e.selHits := by
    intro e
    by_cases he : (e.eid == x) = true
    · simp only [he, if_true]
      exact hsel e
    · simp [he]
  refine ⟨?_, countIdF_mapF _ _ hidp' _, topCountIdF_mapF _ _ hidp' _,
    countIdF_mapF _ _ hidp' _, topCountIdF_mapF _ _ hidp' _, ?_, ?_, ?_, ?_⟩
  · unfold allIds
    rw [allData_updData, List.map_map]
    apply List.map_congr_left
    intro e he
    exact heid' e
  · show framesCount OVERLAY_ID (d.frames.map (fun fr =>
      (fr.1, mapF (fun e => if (e.eid == x) = true then g e else e) fr.2))) =
      framesCount OVERLAY_ID d.frames
    unfold framesCount
    rw [List.map_map]
    apply congrArg
    apply List.map_congr_left
    intro fr hfr
    exact countIdF_mapF _ _ hidp' _
  · exact hidp' d.bodyData
  · intro hshape e he hov
    rw [allData_updData] at he
    obtain ⟨e0, he0, heq⟩ := List.mem_map.mp he
    subst heq
    rw [hidp' e0] at hov
    obtain ⟨ht, hs⟩ := hshape e0 he0 hov
    rw [htag' e0, hsel' e0]
    exact ⟨ht, hs⟩
  · intro y hy e he hey
    rw [allData_updData] at he
    obtain ⟨e0, he0, heq⟩ := List.mem_map.mp he
    subst heq
    rw [heid' e0] at hey
    rw [hidp' e0]
    exact hy e0 he0 hey

/-- With no overlay in the document, `removeOverlay` only nulls the two
node references. -/
theorem removeOverlay_zero (s : PF)
    (h : countIdF OVERLAY_ID s.dom.bodyKids = 0) :
    removeOverlay s = { s with overlay := none, elementContainer := none }
      := by
  unfold removeOverlay
  rw [remIdF_none_of_zero OVERLAY_ID s.dom.bodyKids h]

/-- With exactly one overlay, at a root, `removeOverlay` detaches it:
the store is preserved up to permutation, the document ends overlay-free,
and the detached at-roots property survives. -/
theorem removeOverlay_one (s : PF)
    (hc : countIdF OVERLAY_ID s.dom.bodyKids = 1)
    (hdet : countIdF OVERLAY_ID s.dom.detached =
      topCountIdF OVERLAY_ID s.dom.detached) :
    List.Perm (allData (removeOverlay s).dom) (allData s.dom) ∧
    countIdF OVERLAY_ID (removeOverlay s).dom.bodyKids = 0 ∧
    topCountIdF OVERLAY_ID (removeOverlay s).dom.bodyKids = 0 ∧
    countIdF OVERLAY_ID (removeOverlay s).dom.detached =
      topCountIdF OVERLAY_ID (removeOverlay s).dom.detached ∧
    (removeOverlay s).dom.frames = s.dom.frames ∧
    (removeOverlay s).dom.bodyData = s.dom.bodyData ∧
    (removeOverlay s).overlay = none ∧
    (removeOverlay s).elementContainer = none ∧
    (removeOverlay s).isActive = s.isActive ∧
    (removeOverlay s).currentElement = s.currentElement ∧
    (removeOverlay s).originalElementState = s.originalElementState ∧
    (removeOverlay s).selectMode = s.selectMode ∧
    (removeOverlay s).nextId = s.nextId := by
  obtain ⟨u, k, hr⟩ := remIdF_some_of_pos OVERLAY_ID s.dom.bodyKids
    (by omega)
  obtain ⟨hperm, hattr⟩ := remIdF_perm OVERLAY_ID s.dom.bodyKids u k hr
  have hcnt : countIdF OVERLAY_ID s.dom.bodyKids =
      countIdN OVERLAY_ID u + countIdF OVERLAY_ID k := by
    unfold countIdF countIdN
    rw [countId_of_perm OVERLAY_ID hperm, List.filter_append,
      List.length_append]
  have hroot : (if (u.data.idAttr == some OVERLAY_ID) = true then 1 else 0)
      = 1 := by simp [hattr]
  have hule := root_le_countIdN OVERLAY_ID u
  have hu1 : countIdN OVERLAY_ID u = 1 := by omega
  have hk0 : countIdF OVERLAY_ID k = 0 := by omega
  have htk0 : topCountIdF OVERLAY_ID k = 0 := by
    have := topCount_le_countIdF OVERLAY_ID k
    omega
  unfold removeOverlay
  rw [hr]
  refine ⟨?_, hk0, htk0, ?_, rfl, rfl, rfl, rfl, rfl, rfl, rfl, rfl, rfl⟩
  · have hdp := insertBeforeRef_perm none u s.dom.detached
    show List.Perm
      (s.dom.bodyData :: (dataF k ++
        dataF (insertBeforeRef none u s.dom.detached) ++
        framesData s.dom.frames))
      (s.dom.bodyData :: (dataF s.dom.bodyKids ++ dataF s.dom.detached ++
        framesData s.dom.frames))
    rw [← Multiset.coe_eq_coe] at hdp hperm ⊢
    simp only [← Multiset.coe_add, ← Multiset.cons_coe,
      ← Multiset.singleton_add] at hdp hperm ⊢
    rw [hdp, hperm]
    abel
  · show countIdF OVERLAY_ID (insertBeforeRef none u s.dom.detached) =
      topCountIdF OVERLAY_ID (insertBeforeRef none u s.dom.detached)
    rw [countIdF_insertBeforeRef, topCount_insertBeforeRef, hu1, hroot,
      hdet]

/-- The overlay subtree's records, in order. -/
theorem overlayTree_data (n : Nat) :
    dataN (overlayTree n) =
      [mkFresh n Tag.div (some OVERLAY_ID) ["pane-fullscreen-overlay"],
        mkFresh (n + 1) Tag.div (some CONTAINER_ID)
          ["pane-fullscreen-video-container"],
        mkFresh (n + 2) Tag.button none ["pane-fullscreen-close-btn"],
        mkFresh (n + 3) Tag.div none ["pane-fullscreen-hint"]] := rfl

/-- Exactly one node of the overlay subtree carries the reserved id. -/
theorem countIdN_overlayTree (n : Nat) :
    countIdN OVERLAY_ID (overlayTree n) = 1 := by
  unfold countIdN
  rw [overlayTree_data]
  simp +decide [mkFresh, defaultElem, OVERLAY_ID, CONTAINER_ID,
    List.filter]

/-- The overlay subtree's root carries the reserved id. -/
theorem overlayTree_root (n : Nat) :
    ((overlayTree n).data.idAttr == some OVERLAY_ID) = true := by
  show ((mkFresh n Tag.div (some OVERLAY_ID)
    ["pane-fullscreen-overlay"]).idAttr == some OVERLAY_ID) = true
  simp [mkFresh, defaultElem]

/-- The ids used by the overlay subtree. -/
theorem idsN_overlayTree (n : Nat) :
    idsN (overlayTree n) = [n, n + 1, n + 2, n + 3] := by
  unfold idsN
  rw [overlayTree_data]
  simp [mkFresh, defaultElem]

/-- Unfolding of `createOverlay` on an overlay-free document. -/
theorem createOverlay_eq (s : PF)
    (hc : countIdF OVERLAY_ID s.dom.bodyKids = 0) :
    createOverlay s = { s with
      dom := { s.dom with
        bodyKids := insertBeforeRef none (overlayTree s.nextId)
          s.dom.bodyKids }
      overlay := some s.nextId
      elementContainer := some (s.nextId + 1)
      nextId := s.nextId + 4 } := by
  unfold createOverlay
  rw [removeOverlay_zero s hc]

/-- Facts established by `createOverlay` on an overlay-free document:
the store gains exactly the four fresh overlay records and the document
holds exactly one overlay, as a root. -/
theorem createOverlay_pres (s : PF)
    (hc : countIdF OVERLAY_ID s.dom.bodyKids = 0) :
    List.Perm (allData (createOverlay s).dom)
      (dataN (overlayTree s.nextId) ++ allData s.dom) ∧
    countIdF OVERLAY_ID (createOverlay s).dom.bodyKids = 1 ∧
    topCountIdF OVERLAY_ID (createOverlay s).dom.bodyKids = 1 ∧
    (createOverlay s).dom.detached = s.dom.detached ∧
    (createOverlay s).dom.frames = s.dom.frames ∧
    (createOverlay s).dom.bodyData = s.dom.bodyData ∧
    (createOverlay s).overlay = some s.nextId ∧
    (createOverlay s).elementContainer = some (s.nextId + 1) ∧
    (createOverlay s).nextId = s.nextId + 4 ∧
    (createOverlay s).isActive = s.isActive ∧
    (createOverlay s).currentElement = s.currentElement ∧
    (createOverlay s).originalElementState = s.originalElementState ∧
    (createOverlay s).selectMode = s.selectMode := by
  rw [createOverlay_eq s hc]
  have htop : topCountIdF OVERLAY_ID s.dom.bodyKids = 0 := by
    have := topCount_le_countIdF OVERLAY_ID s.dom.bodyKids
    omega
  refine ⟨?_, ?_, ?_, rfl, rfl, rfl, rfl, rfl, rfl, rfl, rfl, rfl, rfl⟩
  · exact perm_store_left
      (insertBeforeRef_perm none (overlayTree s.nextId) s.dom.bodyKids)
  · show countIdF OVERLAY_ID
      (insertBeforeRef none (overlayTree s.nextId) s.dom.bodyKids) = 1
    rw [countIdF_insertBeforeRef, countIdN_overlayTree, hc]
  · show topCountIdF OVERLAY_ID
      (insertBeforeRef none (overlayTree s.nextId) s.dom.bodyKids) = 1
    rw [topCount_insertBeforeRef, overlayTree_root, htop]
    simp

/-- Ids of a tree: the root id followed by the kids' ids. -/
theorem idsN_node (e : ElemData) (k : DForest) :
    idsN (.node e k) = e.eid :: idsF k := rfl

/-- Ids of the empty forest. -/
theorem idsF_fnil : idsF .fnil = [] := rfl

/-- Ids of a forest unfold along its first tree. -/
theorem idsF_fcons (t : DNode) (ts : DForest) :
    idsF (.fcons t ts) = idsN t ++ idsF ts := by
  unfold idsF idsN
  show (dataN t ++ dataF ts).map ElemData.eid = _
  rw [List.map_append]

/-- Parent search in a forest succeeds exactly on present ids. -/
theorem pFindF_isSome_iff : ∀ (x : Nat) (f : DForest),
    (pFindF x f).isSome = true ↔ x ∈ idsF f
  | x, .fnil => by simp [pFindF, idsF_fnil]
  | x, .fcons (.node e k) ts => by
    rw [idsF_fcons, idsN_node]
    unfold pFindF
    simp only [DNode.data]
    by_cases he : (e.eid == x) = true
    · rw [if_pos he]
      simp [eq_of_beq he]
    · rw [if_neg he]
      have hk := pFindF_isSome_iff x k
      have hne : ¬ x = e.eid := fun hh => he (by rw [hh]; exact beq_self_eq_true e.eid)
      cases hpn : pFindF x k with
      | none =>
        have hN : pFindN x (.node e k) = none := by
          unfold pFindN
          rw [hpn]
        rw [hN, pFindF_isSome_iff x ts]
        rw [hpn] at hk
        simp only [Option.isSome_none, Bool.false_eq_true, false_iff] at hk
        simp [List.mem_append, List.mem_cons, hk, hne]
      | some w =>
        have hxk : x ∈ idsF k := hk.mp (by rw [hpn]; rfl)
        have hmem : x ∈ (e.eid :: idsF k) ++ idsF ts :=
          List.mem_append_left _ (List.mem_cons_of_mem _ hxk)
        cases w with
        | none =>
          have hN : pFindN x (.node e k) = some (some e.eid) := by
            unfold pFindN
            rw [hpn]
          rw [hN]
          exact ⟨fun hh => hmem, fun hh => rfl⟩
        | some p =>
          have hN : pFindN x (.node e k) = some (some p) := by
            unfold pFindN
            rw [hpn]
          rw [hN]
          exact ⟨fun hh => hmem, fun hh => rfl⟩

/-- Next-sibling search in a forest succeeds exactly on present ids. -/
theorem nsFindF_isSome_iff : ∀ (x : Nat) (f : DForest),
    (nsFindF x f).isSome = true ↔ x ∈ idsF f
  | x, .fnil => by simp [nsFindF, idsF_fnil]
  | x, .fcons (.node e k) ts => by
    rw [idsF_fcons, idsN_node]
    unfold nsFindF
    simp only [DNode.data]
    by_cases he : (e.eid == x) = true
    · rw [if_pos he]
      simp [eq_of_beq he]
    · rw [if_neg he]
      have hN : nsFindN x (.node e k) = nsFindF x k := rfl
      rw [hN]
      have hk := nsFindF_isSome_iff x k
      have hne : ¬ x = e.eid := fun hh => he (by rw [hh]; exact beq_self_eq_true e.eid)
      cases hns : nsFindF x k with
      | none =>
        rw [hns] at hk
        simp only [Option.isSome_none, Bool.false_eq_true, false_iff] at hk
        show (nsFindF x ts).isSome = true ↔ _
        rw [nsFindF_isSome_iff x ts]
        simp [List.mem_append, List.mem_cons, hk, hne]
      | some w =>
        have hxk : x ∈ idsF k := hk.mp (by rw [hns]; rfl)
        exact ⟨fun hh => List.mem_cons_of_mem _ (List.mem_append_left _ hxk),
          fun hh => rfl⟩

/-- Extraction from a forest succeeds exactly on present ids. -/
theorem extractF_isSome_iff : ∀ (x : Nat) (f : DForest),
    (extractF x f).1.isSome = true ↔ x ∈ idsF f
  | x, .fnil => by simp [extractF, idsF_fnil]
  | x, .fcons (.node e k) ts => by
    rw [idsF_fcons, idsN_node]
    unfold extractF
    simp only [DNode.data]
    by_cases he : (e.eid == x) = true
    · rw [if_pos he]
      simp [eq_of_beq he]
    · rw [if_neg he]
      have hne : ¬ x = e.eid := fun hh => he (by rw [hh]; exact beq_self_eq_true e.eid)
      cases hek : extractF x k with
      | mk o k2 =>
        cases o with
        | some v =>
          have hN : extractN x (.node e k) = (some v, .node e k2) := by
            unfold extractN
            rw [hek]
          rw [hN]
          have hxk : x ∈ idsF k := (extractF_isSome_iff x k).mp (by rw [hek]; rfl)
          simp [List.mem_append, List.mem_cons, hxk]
        | none =>
          have hN : extractN x (.node e k) = (none, .node e k) := by
            unfold extractN
            rw [hek]
          rw [hN]
          have hk := extractF_isSome_iff x k
          rw [hek] at hk
          simp only [Option.isSome_none, Bool.false_eq_true, false_iff] at hk
          cases hets : extractF x ts with
          | mk o2 ts2 =>
            cases o2 with
            | some w =>
              have hxts : x ∈ idsF ts := (extractF_isSome_iff x ts).mp (by rw [hets]; rfl)
              simp [List.mem_append, List.mem_cons, hxts]
            | none =>
              have hts := extractF_isSome_iff x ts
              rw [hets] at hts
              simp only [Option.isSome_none, Bool.false_eq_true, false_iff] at hts
              simp [List.mem_append, List.mem_cons, hne, hk, hts]

/-- Parent search fails on absent ids. -/
theorem pFindF_eq_none (x : Nat) (f : DForest) (h : x ∉ idsF f) :
    pFindF x f = none := by
  cases hq : pFindF x f with
  | none => rfl
  | some w => exact absurd ((pFindF_isSome_iff x f).mp (by rw [hq]; rfl)) h

/-- Parent search inside a tree fails when the id is absent from its kids. -/
theorem pFindN_eq_none (x : Nat) (e : ElemData) (k : DForest)
    (h : x ∉ idsF k) : pFindN x (.node e k) = none := by
  unfold pFindN
  rw [pFindF_eq_none x k h]

/-- Next-sibling search fails on absent ids. -/
theorem nsFindF_eq_none (x : Nat) (f : DForest) (h : x ∉ idsF f) :
    nsFindF x f = none := by
  cases hq : nsFindF x f with
  | none => rfl
  | some w => exact absurd ((nsFindF_isSome_iff x f).mp (by rw [hq]; rfl)) h

/-- Next-sibling search inside a tree fails when the id is absent from its
kids. -/
theorem nsFindN_eq_none (x : Nat) (e : ElemData) (k : DForest)
    (h : x ∉ idsF k) : nsFindN x (.node e k) = none := by
  show nsFindF x k = none
  exact nsFindF_eq_none x k h

/-- A tree never reports its own root as a parent-search hit with a root
marker. -/
theorem pFindN_ne_some_none (x : Nat) (t : DNode) : pFindN x t ≠ some none := by
  cases t with
  | node e k =>
    unfold pFindN
    cases hpk : pFindF x k with
    | none => simp
    | some w => cases w <;> simp

/-- The parent reported by a forest search occurs in the forest. -/
theorem pFindF_mem : ∀ (x : Nat) (f : DForest) (q : Nat),
    pFindF x f = some (some q) → q ∈ idsF f
  | x, .fnil, q, h => by simp [pFindF] at h
  | x, .fcons (.node e k) ts, q, h => by
    rw [idsF_fcons, idsN_node]
    unfold pFindF at h
    simp only [DNode.data] at h
    by_cases he : (e.eid == x) = true
    · rw [if_pos he] at h
      simp at h
    · rw [if_neg he] at h
      cases hpn : pFindF x k with
      | none =>
        have hN : pFindN x (.node e k) = none := by
          unfold pFindN
          rw [hpn]
        simp only [hN] at h
        exact List.mem_append_right _ (pFindF_mem x ts q h)
      | some w =>
        cases w with
        | none =>
          have hN : pFindN x (.node e k) = some (some e.eid) := by
            unfold pFindN
            rw [hpn]
          simp only [hN, Option.some.injEq] at h
          subst h
          exact List.mem_append_left _ (List.mem_cons_self _ _)
        | some w' =>
          have hN : pFindN x (.node e k) = some (some w') := by
            unfold pFindN
            rw [hpn]
          simp only [hN, Option.some.injEq] at h
          subst h
          exact List.mem_append_left _
            (List.mem_cons_of_mem _ (pFindF_mem x k w' hpn))

/-- The next sibling reported by a forest search occurs in the forest. -/
theorem nsFindF_mem : ∀ (x : Nat) (f : DForest) (r : Nat),
    nsFindF x f = some (some r) → r ∈ idsF f
  | x, .fnil, r, h => by simp [nsFindF] at h
  | x, .fcons (.node e k) ts, r, h => by
    rw [idsF_fcons, idsN_node]
    unfold nsFindF at h
    simp only [DNode.data] at h
    by_cases he : (e.eid == x) = true
    · rw [if_pos he] at h
      injection h with h1
      cases ts with
      | fnil => simp [headRoot] at h1
      | fcons t2 ts2 =>
        simp only [headRoot, Option.some.injEq] at h1
        subst h1
        refine List.mem_append_right _ ?_
        rw [idsF_fcons]
        cases t2 with
        | node e2 k2 =>
          rw [idsN_node]
          simp only [DNode.data]
          exact List.mem_append_left _ (List.mem_cons_self _ _)
    · rw [if_neg he] at h
      have hN : nsFindN x (.node e k) = nsFindF x k := rfl
      rw [hN] at h
      cases hns : nsFindF x k with
      | none =>
        simp only [hns] at h
        exact List.mem_append_right _ (nsFindF_mem x ts r h)
      | some w =>
        simp only [hns, Option.some.injEq] at h
        subst h
        exact List.mem_append_left _
          (List.mem_cons_of_mem _ (nsFindF_mem x k r hns))

/-- An id extracted from a forest occurred in it. -/
theorem extractF_mem_ids (x : Nat) (f : DForest) (u : DNode) (f' : DForest)
    (h : extractF x f = (some u, f')) : x ∈ idsF f := by
  have hp := extractF_perm x f u f' h
  have he := extractF_eid x f u f' h
  have hu : u.data ∈ dataF f := by
    refine hp.symm.subset ?_
    exact List.mem_append_left _
      (by cases u with | node e k => exact List.mem_cons_self _ _)
  rw [← he]
  exact List.mem_map_of_mem ElemData.eid hu

/-- An id extracted from a tree occurred in it. -/
theorem extractN_mem_ids (x : Nat) (t : DNode) (u t' : DNode)
    (h : extractN x t = (some u, t')) : x ∈ idsN t := by
  have hp := extractN_perm x t u t' h
  have he := extractN_eid x t u t' h
  have hu : u.data ∈ dataN t := by
    refine hp.symm.subset ?_
    exact List.mem_append_left _
      (by cases u with | node e k => exact List.mem_cons_self _ _)
  rw [← he]
  exact List.mem_map_of_mem ElemData.eid hu

/-- Insertion under an absent parent fails and leaves the forest
unchanged. -/
theorem insUF_not_mem : ∀ (p : Nat) (ref : Option Nat) (sub : DNode)
    (f : DForest), p ∉ idsF f → insUF p ref sub f = (f, false)
  | p, ref, sub, .fnil, h => rfl
  | p, ref, sub, .fcons (.node e k) ts, h => by
    rw [idsF_fcons, idsN_node] at h
    simp only [List.mem_append, List.mem_cons, not_or] at h
    obtain ⟨⟨hne, hk⟩, hts⟩ := h
    unfold insUF
    have hN : insUN p ref sub (.node e k) = (.node e k, false) := by
      unfold insUN
      by_cases hb : (e.eid == p) = true
      · exact absurd (eq_of_beq hb) (fun hh => hne hh.symm)
      · rw [if_neg hb, insUF_not_mem p ref sub k hk]
    rw [hN, insUF_not_mem p ref sub ts hts]

/-- Insertion under an absent parent fails and leaves the tree
unchanged. -/
theorem insUN_not_mem (p : Nat) (ref : Option Nat) (sub : DNode)
    (e : ElemData) (k : DForest) (h : p ∉ idsN (.node e k)) :
    insUN p ref sub (.node e k) = (.node e k, false) := by
  rw [idsN_node] at h
  simp only [List.mem_cons, not_or] at h
  obtain ⟨hne, hk⟩ := h
  unfold insUN
  by_cases hb : (e.eid == p) = true
  · exact absurd (eq_of_beq hb) (fun hh => hne hh.symm)
  · rw [if_neg hb, insUF_not_mem p ref sub k hk]

mutual
/-- Re-inserting a subtree just extracted from inside a tree, at the
parent and before the next sibling the queries report, rebuilds the tree
exactly. -/
theorem reinsertN : ∀ (x : Nat) (e : ElemData) (k : DForest) (u t' : DNode),
    (idsN (.node e k)).Nodup →
    extractN x (.node e k) = (some u, t') →
    ∀ (p : Nat) (r : Option Nat), pFindN x (.node e k) = some (some p) →
      nsFindN x (.node e k) = some r →
      insUN p r u t' = (.node e k, true)
  | x, e, k, u, t', hnd, hex, p, r, hp, hns => by
    rw [idsN_node] at hnd
    have hek := (List.nodup_cons.mp hnd).1
    have hnd' := (List.nodup_cons.mp hnd).2
    unfold extractN at hex
    cases hk : extractF x k with
    | mk o k2 =>
      rw [hk] at hex
      cases o with
      | none => simp at hex
      | some v =>
        injection hex with h1 h2
        injection h1 with h1
        subst h1
        subst h2
        have hnsk : nsFindF x k = some r := hns
        unfold pFindN at hp
        cases hpk : pFindF x k with
        | none =>
          rw [hpk] at hp
          simp at hp
        | some w =>
          rw [hpk] at hp
          cases w with
          | none =>
            simp only [Option.some.injEq] at hp
            subst hp
            unfold insUN
            rw [if_pos (beq_self_eq_true e.eid)]
            have hins := (reinsertF x k v k2 hnd' hk).1 r hpk hnsk
            rw [hins]
          | some q =>
            simp only [Option.some.injEq] at hp
            subst hp
            have hq : q ∈ idsF k := pFindF_mem x k q hpk
            unfold insUN
            have hbe : ¬ ((e.eid == q) = true) := by
              intro hb
              exact absurd hq (eq_of_beq hb ▸ hek)
            rw [if_neg hbe]
            have hins := (reinsertF x k v k2 hnd' hk).2 q r hpk hnsk
            rw [hins]

/-- Re-inserting a subtree just extracted from a forest, at the parent
and before the next sibling the queries report, rebuilds the forest
exactly. -/
theorem reinsertF : ∀ (x : Nat) (f : DForest) (u : DNode) (f' : DForest),
    (idsF f).Nodup → extractF x f = (some u, f') →
    (∀ r : Option Nat, pFindF x f = some none → nsFindF x f = some r →
      insertBeforeRef r u f' = f) ∧
    (∀ (p : Nat) (r : Option Nat), pFindF x f = some (some p) →
      nsFindF x f = some r → insUF p r u f' = (f, true))
  | x, .fnil, u, f', hnd, hex => by simp [extractF] at hex
  | x, .fcons (.node e k) ts, u, f', hnd, hex => by
    rw [idsF_fcons, idsN_node] at hnd
    obtain ⟨hndt, hndts, hdisj⟩ := List.nodup_append.mp hnd
    unfold extractF at hex
    simp only [DNode.data] at hex
    by_cases he : (e.eid == x) = true
    · rw [if_pos he] at hex
      injection hex with h1 h2
      injection h1 with h1
      subst h2
      subst h1
      constructor
      · intro r hp hns
        unfold nsFindF at hns
        simp only [DNode.data] at hns
        rw [if_pos he] at hns
        injection hns with hns
        subst hns
        cases ts with
        | fnil => rfl
        | fcons t2 ts2 =>
          show insertBeforeRef (headRoot (.fcons t2 ts2)) (.node e k)
            (.fcons t2 ts2) = _
          rw [show headRoot (.fcons t2 ts2) = some t2.data.eid from rfl,
            insertBeforeRef_fcons_some t2.data.eid (.node e k) t2 ts2,
            if_pos (beq_self_eq_true t2.data.eid)]
      · intro p r hp hns
        unfold pFindF at hp
        simp only [DNode.data] at hp
        rw [if_pos he] at hp
        simp at hp
    · rw [if_neg he] at hex
      cases hn : extractN x (.node e k) with
      | mk o t2 =>
        rw [hn] at hex
        cases o with
        | some v =>
          injection hex with h1 h2
          injection h1 with h1
          subst h1
          subst h2
          have hxm : x ∈ idsN (.node e k) := extractN_mem_ids x _ v t2 hn
          have hxts : x ∉ idsF ts := hdisj hxm
          have hpts : pFindF x ts = none := pFindF_eq_none x ts hxts
          have hnsts : nsFindF x ts = none := nsFindF_eq_none x ts hxts
          constructor
          · intro r hp hns
            unfold pFindF at hp
            simp only [DNode.data] at hp
            rw [if_neg he] at hp
            cases hpn : pFindN x (.node e k) with
            | none =>
              simp only [hpn] at hp
              rw [hpts] at hp
              exact Option.noConfusion hp
            | some w =>
              simp only [hpn, Option.some.injEq] at hp
              subst hp
              exact absurd hpn (pFindN_ne_some_none x _)
          · intro p r hp hns
            unfold pFindF at hp
            simp only [DNode.data] at hp
            rw [if_neg he] at hp
            unfold nsFindF at hns
            simp only [DNode.data] at hns
            rw [if_neg he] at hns
            cases hpn : pFindN x (.node e k) with
            | none =>
              simp only [hpn] at hp
              rw [hpts] at hp
              exact Option.noConfusion hp
            | some w =>
              simp only [hpn, Option.some.injEq] at hp
              subst hp
              cases hnn : nsFindN x (.node e k) with
              | none =>
                simp only [hnn] at hns
                rw [hnsts] at hns
                exact Option.noConfusion hns
              | some w' =>
                simp only [hnn, Option.some.injEq] at hns
                subst hns
                unfold insUF
                have hrec := reinsertN x e k v t2 hndt hn p w' hpn hnn
                rw [hrec]
        | none =>
          cases hts : extractF x ts with
          | mk o2 ts2 =>
            rw [hts] at hex
            cases o2 with
            | none => simp at hex
            | some w =>
              injection hex with h1 h2
              injection h1 with h1
              subst h1
              subst h2
              have hxts : x ∈ idsF ts := extractF_mem_ids x ts w ts2 hts
              have hxt : x ∉ idsN (.node e k) := fun hh => hdisj hh hxts
              rw [idsN_node] at hxt
              simp only [List.mem_cons, not_or] at hxt
              obtain ⟨hxe, hxk⟩ := hxt
              have hpn : pFindN x (.node e k) = none := pFindN_eq_none x e k hxk
              have hnn : nsFindN x (.node e k) = none := nsFindN_eq_none x e k hxk
              have IH := reinsertF x ts w ts2 hndts hts
              constructor
              · intro r hp hns
                unfold pFindF at hp
                simp only [DNode.data] at hp
                rw [if_neg he] at hp
                simp only [hpn] at hp
                unfold nsFindF at hns
                simp only [DNode.data] at hns
                rw [if_neg he] at hns
                simp only [hnn] at hns
                cases r with
                | none =>
                  show insertBeforeRef none w (.fcons (.node e k) ts2) = _
                  rw [insertBeforeRef_fcons_none, IH.1 none hp hns]
                | some rr =>
                  have hrr : rr ∈ idsF ts := nsFindF_mem x ts rr hns
                  have hber : ¬ (((DNode.node e k).data.eid == rr) = true) := by
                    intro hb
                    simp only [DNode.data] at hb
                    have : e.eid ∈ idsF ts := eq_of_beq hb ▸ hrr
                    exact absurd this
                      (fun hh => hdisj (List.mem_cons_self _ _ :
                        e.eid ∈ idsN (.node e k)) hh)
                  show insertBeforeRef (some rr) w (.fcons (.node e k) ts2) = _
                  rw [insertBeforeRef_fcons_some rr w (.node e k) ts2,
                    if_neg hber, IH.1 (some rr) hp hns]
              · intro p r hp hns
                unfold pFindF at hp
                simp only [DNode.data] at hp
                rw [if_neg he] at hp
                simp only [hpn] at hp
                unfold nsFindF at hns
                simp only [DNode.data] at hns
                rw [if_neg he] at hns
                simp only [hnn] at hns
                have hpmem : p ∈ idsF ts := pFindF_mem x ts p hp
                have hpne : p ∉ idsN (.node e k) := fun hh => hdisj hh hpmem
                unfold insUF
                rw [insUN_not_mem p r w e k hpne, (IH.2 p r hp hns)]
end

/-- A data map that fixes every record of a forest fixes the forest. -/
theorem mapF_congr_id (h : ElemData → ElemData) : ∀ (f : DForest),
    (∀ e ∈ dataF f, h e = e) → mapF h f = f
  | .fnil, _ => rfl
  | .fcons (.node e k) ts, hall => by
    have he : h e = e := hall e (List.mem_append_left _ (List.mem_cons_self _ _))
    have hk : ∀ e' ∈ dataF k, h e' = e' := fun e' he' =>
      hall e' (List.mem_append_left _ (List.mem_cons_of_mem _ he'))
    have hts : ∀ e' ∈ dataF ts, h e' = e' := fun e' he' =>
      hall e' (List.mem_append_right _ he')
    show DForest.fcons (.node (h e) (mapF h k)) (mapF h ts) = _
    rw [he, mapF_congr_id h k hk, mapF_congr_id h ts hts]

/-- The id list of the whole store, unfolded region by region. -/
theorem allIds_eq (d : Dom) : allIds d = d.bodyData.eid ::
    (idsF d.bodyKids ++ idsF d.detached ++
      (framesData d.frames).map ElemData.eid) := by
  simp [allIds, allData, idsF, List.map_append]

/-- With globally unique ids, two store records sharing an id are the
same record. -/
theorem allEid_unique (d : Dom) (hnd : (allIds d).Nodup) :
    ∀ e₁ ∈ allData d, ∀ e₂ ∈ allData d, e₁.eid = e₂.eid → e₁ = e₂ := by
  intro e₁ h₁ e₂ h₂ he
  exact List.inj_on_of_nodup_map hnd h₁ h₂ he

/-- An in-place update that fixes every record with the requested id is
the identity on the store. -/
theorem updData_eq_self (d : Dom) (x : Nat) (g : ElemData → ElemData)
    (h : ∀ e ∈ allData d, (e.eid == x) = true → g e = e) :
    updData d x g = d := by
  have hpt : ∀ e ∈ allData d,
      (fun e => if (e.eid == x) = true then g e else e) e = e := by
    intro e he
    by_cases hbe : (e.eid == x) = true
    · simp only [hbe, if_true]
      exact h e he hbe
    · simp [hbe]
  cases d with
  | mk bd bk det fr iw ih =>
    unfold updData
    simp only [Dom.mk.injEq]
    refine ⟨?_, ?_, ?_, ?_, trivial, trivial⟩
    · exact hpt bd (List.mem_cons_self _ _)
    · exact mapF_congr_id _ bk (fun e he => hpt e
        (List.mem_cons_of_mem _ (List.mem_append_left _
          (List.mem_append_left _ he))))
    · exact mapF_congr_id _ det (fun e he => hpt e
        (List.mem_cons_of_mem _ (List.mem_append_left _
          (List.mem_append_right _ he))))
    · have hfr : ∀ p ∈ fr,
          (p.1, mapF (fun e => if (e.eid == x) = true then g e else e) p.2)
            = p := by
        intro p hp
        have hm : mapF (fun e => if (e.eid == x) = true then g e else e) p.2
            = p.2 := by
          apply mapF_congr_id
          intro e he
          refine hpt e (List.mem_cons_of_mem _ (List.mem_append_right _ ?_))
          exact List.mem_flatMap.mpr ⟨p, hp, he⟩
        rw [hm]
      exact (List.map_congr_left hfr).trans (List.map_id _)

/-- The record `lookupData` returns for an id present among body's
descendants. -/
theorem lookupData_body_mem (d : Dom) (x : Nat)
    (hxb : ¬ d.bodyData.eid = x) (hx : x ∈ idsF d.bodyKids) :
    ∃ e, lookupData d x = some e ∧ e ∈ dataF d.bodyKids ∧ e.eid = x := by
  unfold lookupData
  have hbe : ¬ ((d.bodyData.eid == x) = true) := by
    intro hb
    exact hxb (eq_of_beq hb)
  rw [if_neg hbe]
  obtain ⟨e, hmem, heq⟩ := List.mem_map.mp hx
  have hfind : ((dataF d.bodyKids).find? (fun e => e.eid == x)).isSome
      = true := by
    rw [List.find?_isSome]
    exact ⟨e, hmem, by simp [heq]⟩
  cases hf : (dataF d.bodyKids).find? (fun e => e.eid == x) with
  | none => rw [hf] at hfind; simp at hfind
  | some e' =>
    refine ⟨e', rfl, List.mem_of_find?_eq_some hf, ?_⟩
    have := List.find?_some hf
    exact eq_of_beq this

/-- The snapshot's recorded parent is the parent query. -/
theorem saveElementState_parent (d : Dom) (x : Nat) :
    (saveElementState d x).parent = parentElementOf d x := rfl

/-- The snapshot's recorded next sibling is the sibling query. -/
theorem saveElementState_nextSibling (d : Dom) (x : Nat) :
    (saveElementState d x).nextSibling = nextSiblingOf d x := rfl

/-- Insertion at body inserts among body's children. -/
theorem domInsert_body (d : Dom) (p : Nat) (ref : Option Nat) (sub : DNode)
    (hp : (p == d.bodyData.eid) = true) :
    domInsert d p ref sub =
      { d with bodyKids := insertBeforeRef ref sub d.bodyKids } := by
  unfold domInsert
  rw [if_pos hp]

/-- Insertion under an inner document parent rewrites body's subtree. -/
theorem domInsert_inbody (d : Dom) (p : Nat) (ref : Option Nat)
    (sub : DNode) (hpb : ¬ ((p == d.bodyData.eid) = true))
    (k2 : DForest) (hins : insUF p ref sub d.bodyKids = (k2, true)) :
    domInsert d p ref sub = { d with bodyKids := k2 } := by
  unfold domInsert
  rw [if_neg hpb, hins]

/-- Claim C1 (amended): for a document node with globally unique ids
whose record carries an inline style attribute and none of the three
session marker classes, capturing with `saveElementState` and then
restoring with `restoreElementState` — with no intervening activity — is
the identity on the whole store: the node's parent, next sibling, style
attribute and class list (and everything else) end as they began, the
re-insertion landing exactly before the recorded next sibling (or at the
end when none was recorded).  The original claim's unconditional
round-trip identity fails: restore coalesces an absent style attribute
to an empty one and strips marker classes the node carried beforehand
(see the counterexample). -/
theorem C1_round_trip (d : Dom) (x : Nat)
    (hnd : (allIds d).Nodup)
    (hx : x ∈ idsF d.bodyKids)
    (hok : ∀ e ∈ allData d, e.eid = x →
      e.styleAttr.isSome = true ∧ ∀ c ∈ e.className, c ∉ markerClasses) :
    restoreElementState d x (saveElementState d x) = d := by
  have hIds := allIds_eq d
  have hbx : ¬ d.bodyData.eid = x := by
    intro hh
    rw [hIds] at hnd
    have hni := (List.nodup_cons.mp hnd).1
    apply hni
    rw [hh]
    exact List.mem_append_left _ (List.mem_append_left _ hx)
  have hndtail : (idsF d.bodyKids ++ idsF d.detached ++
      (framesData d.frames).map ElemData.eid).Nodup := by
    rw [hIds] at hnd
    exact (List.nodup_cons.mp hnd).2
  have hndb : (idsF d.bodyKids).Nodup :=
    (List.nodup_append.mp (List.nodup_append.mp hndtail).1).1
  obtain ⟨e₀, hlook, he₀bk, he₀eid⟩ := lookupData_body_mem d x hbx hx
  have he₀all : e₀ ∈ allData d :=
    List.mem_cons_of_mem _ (List.mem_append_left _
      (List.mem_append_left _ he₀bk))
  obtain ⟨hsty, hcls⟩ := hok e₀ he₀all he₀eid
  obtain ⟨v, hv⟩ := Option.isSome_iff_exists.mp hsty
  have hstyle : (saveElementState d x).style = v := by
    unfold saveElementState
    rw [hlook]
    simp [hv]
  have hclsEq : (saveElementState d x).className = e₀.className := by
    unfold saveElementState
    rw [hlook]
    simp
  have hD1 : updData d x (fun e =>
      { e with styleAttr := some (saveElementState d x).style,
               className := (saveElementState d x).className.filter
                 (fun c => !(markerClasses.contains c)) }) = d := by
    apply updData_eq_self
    intro e he hbe
    have hee : e = e₀ := allEid_unique d hnd e he e₀ he₀all
      (by rw [eq_of_beq hbe, he₀eid])
    rw [hee, hstyle, hclsEq]
    have hfilter : e₀.className.filter (fun c => !(markerClasses.contains c))
        = e₀.className := by
      rw [List.filter_eq_self]
      intro c hc
      simp [hcls c hc]
    rw [hfilter, ← hv]
  have hexS : ∃ u k', extractF x d.bodyKids = (some u, k') := by
    have hS := (extractF_isSome_iff x d.bodyKids).mpr hx
    cases hq : extractF x d.bodyKids with
    | mk o k' =>
      cases o with
      | none => rw [hq] at hS; simp at hS
      | some u => exact ⟨u, k', rfl⟩
  obtain ⟨u, k', hext⟩ := hexS
  have RT := reinsertF x d.bodyKids u k' hndb hext
  have hdx : domExtract d x = (some u, { d with bodyKids := k' }) := by
    unfold domExtract
    rw [hext]
  have hxb2 : (x == d.bodyData.eid) = false := by
    cases hb : (x == d.bodyData.eid) with
    | false => rfl
    | true => exact absurd (eq_of_beq hb).symm hbx
  have hnsS : ∃ r, nsFindF x d.bodyKids = some r := by
    have hS := (nsFindF_isSome_iff x d.bodyKids).mpr hx
    cases hq : nsFindF x d.bodyKids with
    | none => rw [hq] at hS; simp at hS
    | some r => exact ⟨r, rfl⟩
  obtain ⟨r, hnsf⟩ := hnsS
  have hnso : nextSiblingOf d x = r := by
    unfold nextSiblingOf
    simp only [hnsf]
  cases hpf : pFindF x d.bodyKids with
  | none =>
    exact absurd ((pFindF_isSome_iff x d.bodyKids).mpr hx)
      (by rw [hpf]; simp)
  | some w =>
    cases w with
    | none =>
      have hparent : parentElementOf d x = some d.bodyData.eid := by
        unfold parentElementOf
        simp only [hxb2, Bool.false_eq_true, if_false, hpf]
      unfold restoreElementState
      simp only [hD1, saveElementState_parent, hparent,
        saveElementState_nextSibling, hnso]
      show moveNode d x d.bodyData.eid r = d
      unfold moveNode
      rw [hdx]
      show domInsert { d with bodyKids := k' } d.bodyData.eid r u = d
      rw [domInsert_body ({ d with bodyKids := k' }) d.bodyData.eid r u
        (by exact beq_self_eq_true d.bodyData.eid)]
      show ({ d with bodyKids := insertBeforeRef r u k' } : Dom) = d
      rw [RT.1 r hpf hnsf]
    | some p =>
      have hparent : parentElementOf d x = some p := by
        unfold parentElementOf
        simp only [hxb2, Bool.false_eq_true, if_false, hpf]
      have hpmem : p ∈ idsF d.bodyKids := pFindF_mem x d.bodyKids p hpf
      have hpb : ¬ ((p == d.bodyData.eid) = true) := by
        intro hb
        rw [hIds] at hnd
        have hni := (List.nodup_cons.mp hnd).1
        apply hni
        rw [← eq_of_beq hb]
        exact List.mem_append_left _ (List.mem_append_left _ hpmem)
      unfold restoreElementState
      simp only [hD1, saveElementState_parent, hparent,
        saveElementState_nextSibling, hnso]
      show moveNode d x p r = d
      unfold moveNode
      rw [hdx]
      show domInsert { d with bodyKids := k' } p r u = d
      rw [domInsert_inbody ({ d with bodyKids := k' }) p r u hpb
        d.bodyKids (RT.2 p r hpf hnsf)]

/-- Claim C1 counterexample: for a node that already carries a session
marker class and has no inline style attribute, capture-then-restore is
not the identity — the marker class is stripped and the absent style
attribute comes back as an empty one. -/
theorem C1_counterexample :
    ¬ ((lookupData (restoreElementState exC1Dom 1 (saveElementState exC1Dom 1))
          1).map ElemData.className =
        (lookupData exC1Dom 1).map ElemData.className ∧
      (lookupData (restoreElementState exC1Dom 1 (saveElementState exC1Dom 1))
          1).map ElemData.styleAttr =
        (lookupData exC1Dom 1).map ElemData.styleAttr) := by
  decide

/-- Claim C1 witness: the round-trip identity at a concrete clean node. -/
theorem C1_witness :
    (allIds exC1Clean).Nodup ∧ 1 ∈ idsF exC1Clean.bodyKids ∧
    restoreElementState exC1Clean 1 (saveElementState exC1Clean 1)
      = exC1Clean :=
  ⟨by decide, by decide,
    C1_round_trip exC1Clean 1 (by decide) (by decide) (by decide)⟩

/-- Ids are untouched by an id-preserving data map. -/
theorem idsF_mapF (h : ElemData → ElemData) (hpres : ∀ e, (h e).eid = e.eid)
    (f : DForest) : idsF (mapF h f) = idsF f := by
  unfold idsF
  rw [dataF_mapF, List.map_map]
  apply List.map_congr_left
  intro e he
  exact hpres e

mutual
/-- Id removal commutes with an id-attribute-preserving data map on a
tree. -/
theorem remIdN_mapN (s : String) (h : ElemData → ElemData)
    (hpres : ∀ e, (h e).idAttr = e.idAttr) : ∀ (t : DNode),
    remIdN s (mapN h t) =
      ((remIdN s t).1.map (mapN h), mapN h (remIdN s t).2)
  | .node e k => by
    show remIdN s (.node (h e) (mapF h k)) = _
    unfold remIdN
    rw [remIdF_mapF s h hpres k]
    cases hk : remIdF s k with
    | mk o k2 =>
      cases o with
      | some u => simp [mapN, mapF]
      | none => simp [mapN, mapF]

/-- Id removal commutes with an id-attribute-preserving data map on a
forest. -/
theorem remIdF_mapF (s : String) (h : ElemData → ElemData)
    (hpres : ∀ e, (h e).idAttr = e.idAttr) : ∀ (f : DForest),
    remIdF s (mapF h f) =
      ((remIdF s f).1.map (mapN h), mapF h (remIdF s f).2)
  | .fnil => by simp [mapF, remIdF]
  | .fcons t ts => by
    show remIdF s (.fcons (mapN h t) (mapF h ts)) = _
    unfold remIdF
    rw [mapN_data, hpres t.data]
    by_cases hc : (t.data.idAttr == some s) = true
    · rw [if_pos hc, if_pos hc]
      simp [mapN, mapF]
    · rw [if_neg hc, if_neg hc, remIdN_mapN s h hpres t]
      cases hn : remIdN s t with
      | mk o t2 =>
        cases o with
        | some u => simp [mapN, mapF]
        | none =>
          rw [remIdF_mapF s h hpres ts]
          cases hts : remIdF s ts with
          | mk o2 ts2 =>
            cases o2 with
            | some w => simp [mapN, mapF]
            | none => simp [mapN, mapF]
end

/-- The document forest left by a successful overlay removal. -/
theorem removeOverlay_bodyKids (s : PF) (u : DNode) (k : DForest)
    (h : remIdF OVERLAY_ID s.dom.bodyKids = (some u, k)) :
    (removeOverlay s).dom.bodyKids = k := by
  unfold removeOverlay
  rw [h]

/-- Core of claim C10 at the forest level: under unique ids and a single
overlay, removing the overlay subtree (after the id-preserving restore
update) takes the node inside it out of the document, and the document
ends overlay-free. -/
theorem exit_null_parent_core (d : Dom) (x : Nat) (g : ElemData → ElemData)
    (hidp : ∀ e, (g e).idAttr = e.idAttr)
    (heid : ∀ e, (g e).eid = e.eid)
    (hnd : (idsF d.bodyKids).Nodup)
    (hc1 : countIdF OVERLAY_ID d.bodyKids = 1)
    (u : DNode) (k : DForest)
    (hrem : remIdF OVERLAY_ID d.bodyKids = (some u, k))
    (hxu : x ∈ idsN u) :
    (u.data.idAttr == some OVERLAY_ID) = true ∧
    x ∉ idsF (mapF (fun e => if (e.eid == x) = true then g e else e) k) ∧
    countIdF OVERLAY_ID
      (mapF (fun e => if (e.eid == x) = true then g e else e) k) = 0 ∧
    remIdF OVERLAY_ID
        (mapF (fun e => if (e.eid == x) = true then g e else e) d.bodyKids) =
      (some (mapN (fun e => if (e.eid == x) = true then g e else e) u),
        mapF (fun e => if (e.eid == x) = true then g e else e) k) := by
  obtain ⟨hperm, hattr⟩ := remIdF_perm OVERLAY_ID d.bodyKids u k hrem
  have hidp' : ∀ e, ((fun e => if (e.eid == x) = true then g e else e)
      e).idAttr = e.idAttr := by
    intro e
    by_cases hb : (e.eid == x) = true
    · simp only [hb, if_true]
      exact hidp e
    · simp [hb]
  have heid' : ∀ e, ((fun e => if (e.eid == x) = true then g e else e)
      e).eid = e.eid := by
    intro e
    by_cases hb : (e.eid == x) = true
    · simp only [hb, if_true]
      exact heid e
    · simp [hb]
  refine ⟨hattr, ?_, ?_, ?_⟩
  · rw [idsF_mapF _ heid']
    have hip : List.Perm (idsF d.bodyKids) (idsN u ++ idsF k) := by
      have hm := hperm.map ElemData.eid
      rw [List.map_append] at hm
      exact hm
    have hnd2 : (idsN u ++ idsF k).Nodup := hip.nodup_iff.mp hnd
    exact fun hh => ((List.nodup_append.mp hnd2).2.2 hxu) hh
  · rw [countIdF_mapF _ _ hidp']
    have hcnt : countIdF OVERLAY_ID d.bodyKids =
        countIdN OVERLAY_ID u + countIdF OVERLAY_ID k := by
      unfold countIdF countIdN
      rw [countId_of_perm OVERLAY_ID hperm, List.filter_append,
        List.length_append]
    have hroot : (if (u.data.idAttr == some OVERLAY_ID) = true then 1 else 0)
        = 1 := by simp [hattr]
    have hule := root_le_countIdN OVERLAY_ID u
    omega
  · rw [remIdF_mapF OVERLAY_ID _ hidp' d.bodyKids, hrem]
    simp

/-- Claim C10: when the snapshot taken at enter records a null parent,
exit re-inserts the node nowhere — the node leaves the document inside
the removed subtree, which is rooted at the overlay element — the
document ends overlay-free, and the session state (active flag, current
element, snapshot) is fully cleared. -/
theorem C10_null_parent_exit (s : PF) (x : Nat) (st : SavedState)
    (hAct : s.isActive = true)
    (hcur : s.currentElement = some x)
    (hsnap : s.originalElementState = some st)
    (hpar : st.parent = none)
    (hnd : (idsF s.dom.bodyKids).Nodup)
    (hc1 : countIdF OVERLAY_ID s.dom.bodyKids = 1)
    (u : DNode) (k : DForest)
    (hrem : remIdF OVERLAY_ID s.dom.bodyKids = (some u, k))
    (hxu : x ∈ idsN u) :
    (u.data.idAttr == some OVERLAY_ID) = true ∧
    x ∉ idsF (exitPaneFullscreen s).dom.bodyKids ∧
    countIdF OVERLAY_ID (exitPaneFullscreen s).dom.bodyKids = 0 ∧
    (exitPaneFullscreen s).isActive = false ∧
    (exitPaneFullscreen s).currentElement = none ∧
    (exitPaneFullscreen s).originalElementState = none := by
  have hrest : restoreElementState s.dom x st =
      updData s.dom x (fun e =>
        { e with styleAttr := some st.style,
                 className := st.className.filter
                   (fun c => !(markerClasses.contains c)) }) := by
    unfold restoreElementState
    rw [hpar]
  have hexit : exitPaneFullscreen s =
      { removeOverlay { s with dom := restoreElementState s.dom x st } with isActive := false, currentElement := none, originalElementState := none } := by
    unfold exitPaneFullscreen
    rw [if_neg (by rw [hAct]; simp), hcur, hsnap]
  obtain ⟨hov, hx1, hc0, hremM⟩ := exit_null_parent_core s.dom x
    (fun e => { e with
      styleAttr := some st.style
      className := st.className.filter
        (fun c => !(markerClasses.contains c)) })
    (fun e => rfl) (fun e => rfl) hnd hc1 u k hrem hxu
  have hbody : (exitPaneFullscreen s).dom.bodyKids =
      mapF (fun e => if (e.eid == x) = true then
        ({ e with
          styleAttr := some st.style
          className := st.className.filter
            (fun c => !(markerClasses.contains c)) } : ElemData) else e) k := by
    rw [hexit]
    show (removeOverlay { s with
      dom := restoreElementState s.dom x st }).dom.bodyKids = _
    rw [hrest]
    exact removeOverlay_bodyKids _ _ _ hremM
  refine ⟨hov, ?_, ?_, ?_, ?_, ?_⟩
  · rw [hbody]
    exact hx1
  · rw [hbody]
    exact hc0
  · rw [hexit]
  · rw [hexit]
  · rw [hexit]

/-- Claim C10 witness: the null-parent exit at a concrete session. -/
theorem C10_witness :
    exC10PF.isActive = true ∧ exC10St.parent = none ∧
    remIdF OVERLAY_ID exC10PF.dom.bodyKids = (some exC10Ov, exC10Rest) ∧
    ((exC10Ov.data.idAttr == some OVERLAY_ID) = true ∧
      5 ∉ idsF (exitPaneFullscreen exC10PF).dom.bodyKids ∧
      countIdF OVERLAY_ID (exitPaneFullscreen exC10PF).dom.bodyKids = 0 ∧
      (exitPaneFullscreen exC10PF).isActive = false ∧
      (exitPaneFullscreen exC10PF).currentElement = none ∧
      (exitPaneFullscreen exC10PF).originalElementState = none) :=
  ⟨rfl, rfl, rfl,
    C10_null_parent_exit exC10PF 5 exC10St rfl rfl rfl rfl (by decide)
      (by decide) exC10Ov exC10Rest rfl (by decide)⟩

/-- The no-reserved-id fact transfers along store permutations. -/
theorem idFact_of_perm {d d' : Dom}
    (hp : List.Perm (allData d') (allData d)) (y : Nat) (h : IdFact d y) :
    IdFact d' y :=
  fun e he hey => h e (hp.subset he) hey

/-- Overlay-shapedness transfers along store permutations. -/
theorem ovShape_of_perm {d d' : Dom}
    (hp : List.Perm (allData d') (allData d))
    (h : ∀ e ∈ allData d, e.idAttr = some OVERLAY_ID →
      e.tag = Tag.div ∧ e.selHits = []) :
    ∀ e ∈ allData d', e.idAttr = some OVERLAY_ID →
      e.tag = Tag.div ∧ e.selHits = [] :=
  fun e he hov => h e (hp.subset he) hov

/-- Any insertion adds exactly the inserted subtree's records to the
store, up to permutation. -/
theorem domInsert_perm (d : Dom) (p : Nat) (ref : Option Nat) (sub : DNode) :
    List.Perm (allData (domInsert d p ref sub)) (dataN sub ++ allData d) := by
  unfold domInsert
  by_cases hp : (p == d.bodyData.eid) = true
  · rw [if_pos hp]
    exact perm_store_left (insertBeforeRef_perm ref sub d.bodyKids)
  · rw [if_neg hp]
    cases hb : insUF p ref sub d.bodyKids with
    | mk bk2 b =>
      cases b with
      | true => exact perm_store_left (insUF_perm _ _ _ _ _ hb)
      | false =>
        cases hdet : insUF p ref sub d.detached with
        | mk det2 b2 =>
          cases b2 with
          | true => exact perm_store_mid (insUF_perm _ _ _ _ _ hdet)
          | false =>
            cases hfr : domInsert.framesInsert p ref sub d.frames with
            | mk fr2 b3 =>
              cases b3 with
              | true =>
                obtain ⟨-, hperm⟩ := framesInsert_spec p ref sub d.frames
                  fr2 true hfr
                exact perm_store_right (hperm rfl)
              | false =>
                exact perm_store_mid
                  (insertBeforeRef_perm none sub d.detached)

/-- Relocating a node never changes the store's records, up to
permutation. -/
theorem moveNode_perm (d : Dom) (x p : Nat) (ref : Option Nat) :
    List.Perm (allData (moveNode d x p ref)) (allData d) := by
  unfold moveNode
  cases hx : domExtract d x with
  | mk o d1 =>
    cases o with
    | none => exact List.Perm.refl _
    | some u =>
      obtain ⟨hperm, -, -, -, -⟩ := domExtract_spec d x u d1 hx
      exact (domInsert_perm d1 p ref u).trans hperm.symm

/-- Removing the overlay never changes the store's records (the subtree
survives detached), up to permutation. -/
theorem removeOverlay_allData_perm (s : PF) :
    List.Perm (allData (removeOverlay s).dom) (allData s.dom) := by
  unfold removeOverlay
  cases hrem : remIdF OVERLAY_ID s.dom.bodyKids with
  | mk o k =>
    cases o with
    | none => exact List.Perm.refl _
    | some t =>
      obtain ⟨hperm, -⟩ := remIdF_perm OVERLAY_ID s.dom.bodyKids t k hrem
      have hdp := insertBeforeRef_perm none t s.dom.detached
      show List.Perm
        (s.dom.bodyData :: (dataF k ++
          dataF (insertBeforeRef none t s.dom.detached) ++
          framesData s.dom.frames))
        (s.dom.bodyData :: (dataF s.dom.bodyKids ++ dataF s.dom.detached ++
          framesData s.dom.frames))
      rw [← Multiset.coe_eq_coe] at hdp hperm ⊢
      simp only [← Multiset.coe_add, ← Multiset.cons_coe,
        ← Multiset.singleton_add] at hdp hperm ⊢
      rw [hdp, hperm]
      abel

/-- Exit always ends with the session flag down. -/
theorem exit_isActive_false (s : PF) :
    (exitPaneFullscreen s).isActive = false := by
  unfold exitPaneFullscreen
  by_cases hA : s.isActive = false
  · rw [if_pos hA]
    exact hA
  · rw [if_neg hA]

/-- Restoration preserves the overlay bookkeeping: under the at-roots
invariants and a non-reserved target, counts, ids (up to permutation),
the body record's id attribute, overlay-shapedness and id facts all
survive `restoreElementState`. -/
theorem restore_pres (d : Dom) (x : Nat) (st : SavedState)
    (hub : countIdF OVERLAY_ID d.bodyKids = topCountIdF OVERLAY_ID d.bodyKids)
    (hdet : countIdF OVERLAY_ID d.detached =
      topCountIdF OVERLAY_ID d.detached)
    (hfr : framesCount OVERLAY_ID d.frames = 0)
    (hid : IdFact d x) :
    countIdF OVERLAY_ID (restoreElementState d x st).bodyKids =
      countIdF OVERLAY_ID d.bodyKids ∧
    topCountIdF OVERLAY_ID (restoreElementState d x st).bodyKids =
      topCountIdF OVERLAY_ID d.bodyKids ∧
    countIdF OVERLAY_ID (restoreElementState d x st).detached =
      topCountIdF OVERLAY_ID (restoreElementState d x st).detached ∧
    framesCount OVERLAY_ID (restoreElementState d x st).frames = 0 ∧
    (restoreElementState d x st).bodyData.idAttr = d.bodyData.idAttr ∧
    List.Perm (allIds (restoreElementState d x st)) (allIds d) ∧
    ((∀ e ∈ allData d, e.idAttr = some OVERLAY_ID →
        e.tag = Tag.div ∧ e.selHits = []) →
      ∀ e ∈ allData (restoreElementState d x st),
        e.idAttr = some OVERLAY_ID → e.tag = Tag.div ∧ e.selHits = []) ∧
    (∀ y, IdFact d y → IdFact (restoreElementState d x st) y) := by
  obtain ⟨hids, hcb, htb, hcd, htd, hfrm, hbi, hshape, hfact⟩ :=
    updData_pres d x (fun e =>
      { e with styleAttr := some st.style,
               className := st.className.filter
                 (fun c => !(markerClasses.contains c)) })
      (fun e => rfl) (fun e => rfl) (fun e => rfl) (fun e => rfl)
  cases hp : st.parent with
  | none =>
    have hre : restoreElementState d x st = updData d x (fun e =>
        { e with styleAttr := some st.style,
                 className := st.className.filter
                   (fun c => !(markerClasses.contains c)) }) := by
      unfold restoreElementState
      rw [hp]
    rw [hre]
    exact ⟨hcb, htb, by rw [hcd, htd]; exact hdet, by rw [hfrm]; exact hfr,
      hbi, by rw [hids], hshape, hfact⟩
  | some p =>
    have hre : restoreElementState d x st =
        moveNode (updData d x (fun e =>
          { e with styleAttr := some st.style,
                   className := st.className.filter
                     (fun c => !(markerClasses.contains c)) }))
          x p st.nextSibling := by
      unfold restoreElementState
      rw [hp]
    rw [hre]
    obtain ⟨hmp, hmb, hmt, hmd, hmf, hmbody⟩ :=
      moveNode_inv (updData d x (fun e =>
        { e with styleAttr := some st.style,
                 className := st.className.filter
                   (fun c => !(markerClasses.contains c)) }))
        x p st.nextSibling
        (by rw [hcb, htb]; exact hub) (by rw [hcd, htd]; exact hdet)
        (by rw [hfrm]; exact hfr) (hfact x hid)
    refine ⟨by rw [hmb, hcb], by rw [hmt, htb], hmd, hmf, ?_, ?_, ?_, ?_⟩
    · rw [hmbody]
      exact hbi
    · have hmip : List.Perm
          (allIds (moveNode (updData d x (fun e =>
            { e with styleAttr := some st.style,
                     className := st.className.filter
                       (fun c => !(markerClasses.contains c)) }))
            x p st.nextSibling))
          (allIds (updData d x (fun e =>
            { e with styleAttr := some st.style,
                     className := st.className.filter
                       (fun c => !(markerClasses.contains c)) }))) :=
        hmp.map ElemData.eid
      rw [hids] at hmip
      exact hmip
    · intro hsh
      exact ovShape_of_perm hmp (hshape hsh)
    · intro y hy
      exact idFact_of_perm hmp y (hfact y hy)


/-- Removing the single overlay and clearing the session flags from any
well-formed ending state yields a well-formed inactive state. -/
theorem clear_inv (s1 : PF)
    (hnd : (allIds s1.dom).Nodup)
    (hbound : ∀ i ∈ allIds s1.dom, i < s1.nextId)
    (hbody : s1.dom.bodyData.idAttr ≠ some OVERLAY_ID)
    (hfr : framesCount OVERLAY_ID s1.dom.frames = 0)
    (hdet : countIdF OVERLAY_ID s1.dom.detached =
      topCountIdF OVERLAY_ID s1.dom.detached)
    (hc1 : countIdF OVERLAY_ID s1.dom.bodyKids = 1)
    (hshape : ∀ e ∈ allData s1.dom, e.idAttr = some OVERLAY_ID →
      e.tag = Tag.div ∧ e.selHits = []) :
    PFInv (clearedState s1) ∧
    List.Perm (allIds (clearedState s1).dom) (allIds s1.dom) ∧
    (∀ y, IdFact s1.dom y → IdFact (clearedState s1).dom y) ∧
    (clearedState s1).nextId = s1.nextId := by
  obtain ⟨hPerm, hc0, ht0, hdet2, hfr2, hbody2, hov2, hec2, hact2, hcur2,
    hsnap2, hsel2, hnid2⟩ := removeOverlay_one s1 hc1 hdet
  have hip : List.Perm (allIds (removeOverlay s1).dom) (allIds s1.dom) :=
    hPerm.map ElemData.eid
  refine ⟨⟨hip.nodup_iff.mpr hnd, ?_, ?_, ?_, hdet2, ?_, fun _ => hc0,
    ovShape_of_perm hPerm hshape, ?_⟩, hip, fun y hy =>
      idFact_of_perm hPerm y hy, hnid2⟩
  · intro i hi
    have hlt := hbound i (hip.subset hi)
    rw [show (clearedState s1).nextId = s1.nextId from hnid2]
    exact hlt
  · rw [show (clearedState s1).dom.bodyData = s1.dom.bodyData from hbody2]
    exact hbody
  · rw [show (clearedState s1).dom.frames = s1.dom.frames from hfr2]
    exact hfr
  · intro h
    exact Bool.noConfusion h
  · intro h
    exact Bool.noConfusion h

/-- Exit preserves the invariant, the fresh-id counter, the ids (up to
permutation) and all id facts. -/
theorem exit_inv (s : PF) (hinv : PFInv s) :
    PFInv (exitPaneFullscreen s) ∧
    (exitPaneFullscreen s).nextId = s.nextId ∧
    List.Perm (allIds (exitPaneFullscreen s).dom) (allIds s.dom) ∧
    (∀ y, IdFact s.dom y → IdFact (exitPaneFullscreen s).dom y) := by
  by_cases hA : s.isActive = true
  · obtain ⟨x, hcur, hxmem, hxid⟩ := hinv.curOk hA
    obtain ⟨hc1, ht1⟩ := hinv.activeOv hA
    have hAne : ¬ (s.isActive = false) := by rw [hA]; simp
    cases hsnap : s.originalElementState with
    | none =>
      have hE : exitPaneFullscreen s = clearedState s := by
        unfold exitPaneFullscreen clearedState
        rw [if_neg hAne, hcur, hsnap]
      obtain ⟨hI, hP, hF, hN⟩ := clear_inv s hinv.nodup hinv.bound
        hinv.bodyNotOv hinv.framesOv hinv.detOvTop hc1 hinv.ovShape
      rw [hE]
      exact ⟨hI, hN, hP, hF⟩
    | some st =>
      have hE : exitPaneFullscreen s =
          clearedState { s with dom := restoreElementState s.dom x st } := by
        unfold exitPaneFullscreen clearedState
        rw [if_neg hAne, hcur, hsnap]
      obtain ⟨hrb, hrt, hrd, hrf, hrbody, hrids, hrshape, hrfact⟩ :=
        restore_pres s.dom x st (hc1.trans ht1.symm) hinv.detOvTop
          hinv.framesOv hxid
      have hbody3 : ({ s with dom := restoreElementState s.dom x st }
          : PF).dom.bodyData.idAttr = s.dom.bodyData.idAttr := hrbody
      obtain ⟨hI, hP, hF, hN⟩ := clear_inv
        { s with dom := restoreElementState s.dom x st }
        (hrids.nodup_iff.mpr hinv.nodup)
        (fun i hi => hinv.bound i (hrids.subset hi))
        (by rw [hbody3]; exact hinv.bodyNotOv)
        hrf hrd (hrb.trans hc1) (hrshape hinv.ovShape)
      rw [hE]
      exact ⟨hI, hN, hP.trans hrids, fun y hy => hF y (hrfact y hy)⟩
  · have hA' : s.isActive = false := by
      cases hB : s.isActive with
      | false => rfl
      | true => exact absurd hB hA
    have hE : exitPaneFullscreen s = s := by
      unfold exitPaneFullscreen
      rw [if_pos hA']
    rw [hE]
    exact ⟨hinv, rfl, List.Perm.refl _, fun y h => h⟩

/-- `enterPaneFullscreen` on an inactive state is the four-stage
pipeline ending with the active flag. -/
theorem enter_eq (t : PF) (x : Nat) (ty : SKind)
    (hact : t.isActive = false) :
    enterPaneFullscreen (some x) ty t =
      (true, { enterMove x (enterTag x ty (createOverlay (enterSnap x t))) with isActive := true }) := by
  unfold enterPaneFullscreen enterSnap enterTag enterMove
  rw [if_neg (by rw [hact]; simp)]

/-- Every record of the fresh overlay subtree that carries the reserved
id is overlay-shaped. -/
theorem overlay_records_shape (n : Nat) :
    ∀ e ∈ dataN (overlayTree n), e.idAttr = some OVERLAY_ID →
      e.tag = Tag.div ∧ e.selHits = [] := by
  intro e he hov
  rw [overlayTree_data] at he
  simp only [List.mem_cons, List.not_mem_nil, or_false] at he
  rcases he with rfl | rfl | rfl | rfl
  · exact ⟨rfl, rfl⟩
  · exact absurd (show some CONTAINER_ID = some OVERLAY_ID from hov)
      (by decide)
  · exact absurd (show (none : Option String) = some OVERLAY_ID from hov)
      (by decide)
  · exact ⟨rfl, rfl⟩

/-- The ids of the fresh overlay subtree. -/
theorem overlay_ids (n : Nat) :
    ∀ e ∈ dataN (overlayTree n), e.eid ∈ [n, n + 1, n + 2, n + 3] := by
  intro e he
  rw [← idsN_overlayTree n]
  exact List.mem_map_of_mem ElemData.eid he

/-- Entering from an inactive well-formed state keeps the invariant and
activates the session. -/
theorem enter_after_exit (t : PF) (x : Nat) (ty : SKind) (hinv : PFInv t)
    (hact : t.isActive = false) (hx : x ∈ allIds t.dom)
    (hid : IdFact t.dom x) :
    PFInv (enterPaneFullscreen (some x) ty t).2 ∧
    (enterPaneFullscreen (some x) ty t).2.isActive = true ∧
    (enterPaneFullscreen (some x) ty t).1 = true := by
  have hc0 : countIdF OVERLAY_ID t.dom.bodyKids = 0 := hinv.inactiveOv hact
  obtain ⟨hBperm, hBc, hBt, hBdet, hBfr, hBbody, hBov, hBec, hBnid, hBact,
    hBcur, hBsnap, hBsel⟩ := createOverlay_pres (enterSnap x t) hc0
  have hxlt : x < t.nextId := hinv.bound x hx
  have hBids : List.Perm (allIds (createOverlay (enterSnap x t)).dom)
      ([t.nextId, t.nextId + 1, t.nextId + 2, t.nextId + 3] ++
        allIds t.dom) := by
    have hm := hBperm.map ElemData.eid
    rw [List.map_append] at hm
    rw [show (dataN (overlayTree (enterSnap x t).nextId)).map ElemData.eid
      = idsN (overlayTree (enterSnap x t).nextId) from rfl,
      idsN_overlayTree] at hm
    exact hm
  have hBfact : IdFact (createOverlay (enterSnap x t)).dom x := by
    intro e he hey
    have hmem := hBperm.subset he
    rcases List.mem_append.mp hmem with hovm | hold
    · exfalso
      have hin := overlay_ids (enterSnap x t).nextId e hovm
      rw [hey] at hin
      simp only [List.mem_cons, List.not_mem_nil, or_false] at hin
      have hnn : (enterSnap x t).nextId = t.nextId := rfl
      rw [hnn] at hin
      rcases hin with h | h | h | h <;> omega
    · exact hid e hold hey
  have hBshape : ∀ e ∈ allData (createOverlay (enterSnap x t)).dom,
      e.idAttr = some OVERLAY_ID → e.tag = Tag.div ∧ e.selHits = [] := by
    intro e he hov
    rcases List.mem_append.mp (hBperm.subset he) with hovm | hold
    · exact overlay_records_shape _ e hovm hov
    · exact hinv.ovShape e hold hov
  obtain ⟨hCids, hCcb, hCtb, hCcd, hCtd, hCfr, hCbody, hCshape, hCfact⟩ :=
    updData_pres (createOverlay (enterSnap x t)).dom x
      (fun e => { e with className := classListAdd e.className (markerClassOf ty) })
      (fun e => rfl) (fun e => rfl) (fun e => rfl) (fun e => rfl)
  have hCfactx : IdFact (updData (createOverlay (enterSnap x t)).dom x
      (fun e => { e with className := classListAdd e.className (markerClassOf ty) })) x := hCfact x hBfact
  obtain ⟨hDperm, hDb, hDt, hDdet, hDfr, hDbody⟩ :=
    moveNode_inv (updData (createOverlay (enterSnap x t)).dom x
      (fun e => { e with className := classListAdd e.className (markerClassOf ty) }))
      x ((enterTag x ty (createOverlay (enterSnap x t))).elementContainer.getD
        0) none
      (by rw [hCcb, hCtb, hBc, hBt])
      (by rw [hCcd, hCtd, hBdet]; exact hinv.detOvTop)
      (by rw [hCfr, hBfr]; exact hinv.framesOv)
      hCfactx
  have hDids : List.Perm
      (allIds (moveNode (updData (createOverlay (enterSnap x t)).dom x
        (fun e => { e with className := classListAdd e.className (markerClassOf ty) }))
        x ((enterTag x ty (createOverlay (enterSnap x t))).elementContainer.getD
          0) none))
      ([t.nextId, t.nextId + 1, t.nextId + 2, t.nextId + 3] ++
        allIds t.dom) := by
    have hm : List.Perm
        (allIds (moveNode (updData (createOverlay (enterSnap x t)).dom x
          (fun e => { e with className := classListAdd e.className (markerClassOf ty) }))
          x ((enterTag x ty
            (createOverlay (enterSnap x t))).elementContainer.getD 0) none))
        (allIds (updData (createOverlay (enterSnap x t)).dom x
          (fun e => { e with className := classListAdd e.className (markerClassOf ty) }))) := hDperm.map ElemData.eid
    rw [hCids] at hm
    exact hm.trans hBids
  have hfreshnd : ([t.nextId, t.nextId + 1, t.nextId + 2, t.nextId + 3] ++
      allIds t.dom).Nodup := by
    rw [List.nodup_append]
    refine ⟨?_, hinv.nodup, ?_⟩
    · simp [List.nodup_cons]
    · intro a ha hb
      have := hinv.bound a hb
      simp only [List.mem_cons, List.not_mem_nil, or_false] at ha
      rcases ha with h | h | h | h <;> omega
  rw [enter_eq t x ty hact]
  refine ⟨⟨?_, ?_, ?_, ?_, ?_, ?_, ?_, ?_, ?_⟩, rfl, rfl⟩
  · exact hDids.nodup_iff.mpr hfreshnd
  · intro i hi
    have hmem := hDids.subset hi
    have hnid : ({ enterMove x (enterTag x ty (createOverlay (enterSnap x t)))
        with isActive := true } : PF).nextId = t.nextId + 4 := hBnid
    rw [hnid]
    rcases List.mem_append.mp hmem with h | h
    · simp only [List.mem_cons, List.not_mem_nil, or_false] at h
      rcases h with h | h | h | h <;> omega
    · have := hinv.bound i h
      omega
  · have hchain : ({ enterMove x (enterTag x ty (createOverlay
        (enterSnap x t))) with isActive := true } : PF).dom.bodyData.idAttr
        = t.dom.bodyData.idAttr := by
      rw [show ({ enterMove x (enterTag x ty (createOverlay (enterSnap x t)))
          with isActive := true } : PF).dom.bodyData
        = (moveNode (updData (createOverlay (enterSnap x t)).dom x
          (fun e => { e with className := classListAdd e.className (markerClassOf ty) }))
          x ((enterTag x ty
            (createOverlay (enterSnap x t))).elementContainer.getD 0)
          none).bodyData from rfl, hDbody, hCbody, hBbody]
      rfl
    rw [hchain]
    exact hinv.bodyNotOv
  · exact hDfr
  · exact hDdet
  · intro _
    refine ⟨?_, ?_⟩
    · rw [show countIdF OVERLAY_ID ({ enterMove x (enterTag x ty
        (createOverlay (enterSnap x t))) with isActive := true }
        : PF).dom.bodyKids = countIdF OVERLAY_ID (moveNode (updData
          (createOverlay (enterSnap x t)).dom x
          (fun e => { e with className := classListAdd e.className (markerClassOf ty) }))
          x ((enterTag x ty
            (createOverlay (enterSnap x t))).elementContainer.getD 0)
          none).bodyKids from rfl, hDb, hCcb, hBc]
    · rw [show topCountIdF OVERLAY_ID ({ enterMove x (enterTag x ty
        (createOverlay (enterSnap x t))) with isActive := true }
        : PF).dom.bodyKids = topCountIdF OVERLAY_ID (moveNode (updData
          (createOverlay (enterSnap x t)).dom x
          (fun e => { e with className := classListAdd e.className (markerClassOf ty) }))
          x ((enterTag x ty
            (createOverlay (enterSnap x t))).elementContainer.getD 0)
          none).bodyKids from rfl, hDt, hCtb, hBt]
  · intro h
    exact Bool.noConfusion h
  · intro e he hov
    have he2 := hDperm.subset he
    exact hCshape hBshape e he2 hov
  · intro _
    refine ⟨x, ?_, ?_, ?_⟩
    · show (createOverlay (enterSnap x t)).currentElement = some x
      rw [hBcur]
      rfl
    · exact hDids.mem_iff.mpr (List.mem_append_right _ hx)
    · exact idFact_of_perm hDperm x hCfactx

/-- Entering while a session is active factors through a full exit. -/
theorem enter_exit_factor (s : PF) (x : Nat) (ty : SKind)
    (hA : s.isActive = true) :
    enterPaneFullscreen (some x) ty s =
      enterPaneFullscreen (some x) ty (exitPaneFullscreen s) := by
  have hf : (exitPaneFullscreen s).isActive = false := exit_isActive_false s
  unfold enterPaneFullscreen
  rw [if_pos hA, if_neg (by rw [hf]; simp)]

/-- Entering on any well-formed state with a sound target keeps the
invariant, activates the session and reports success. -/
theorem enter_inv (s : PF) (x : Nat) (ty : SKind) (hinv : PFInv s)
    (hx : x ∈ allIds s.dom) (hid : IdFact s.dom x) :
    PFInv (enterPaneFullscreen (some x) ty s).2 ∧
    (enterPaneFullscreen (some x) ty s).2.isActive = true ∧
    (enterPaneFullscreen (some x) ty s).1 = true := by
  by_cases hA : s.isActive = true
  · rw [enter_exit_factor s x ty hA]
    obtain ⟨hI, hN, hP, hF⟩ := exit_inv s hinv
    exact enter_after_exit (exitPaneFullscreen s) x ty hI
      (exit_isActive_false s) (hP.mem_iff.mpr hx) (hF x hid)
  · have hA' : s.isActive = false := by
      cases hB : s.isActive with
      | false => rfl
      | true => exact absurd hB hA
    exact enter_after_exit s x ty hinv hA' hx hid

/-- A frame document found by lookup is one of the stored frame
documents. -/
theorem framesLookup_mem : ∀ (x : Nat) (l : List (Nat × DForest))
    (f : DForest), framesLookup x l = some f → ∃ i, (i, f) ∈ l
  | x, [], f, h => by simp [framesLookup] at h
  | x, (i, g) :: rest, f, h => by
    unfold framesLookup at h
    by_cases hb : (i == x) = true
    · rw [if_pos hb] at h
      injection h with h1
      subst h1
      exact ⟨i, List.mem_cons_self _ _⟩
    · rw [if_neg hb] at h
      obtain ⟨j, hj⟩ := framesLookup_mem x rest f h
      exact ⟨j, List.mem_cons_of_mem _ hj⟩

/-- Main-document elements live in the store. -/
theorem docElems_sub (d : Dom) : ∀ e ∈ docElems d, e ∈ allData d := by
  intro e he
  rcases List.mem_cons.mp he with h | h
  · rw [h]
    exact List.mem_cons_self _ _
  · exact List.mem_cons_of_mem _
      (List.mem_append_left _ (List.mem_append_left _ h))

/-- Every element the video scan returns is a stored video element. -/
theorem findAllVideos_facts (d : Dom) :
    ∀ e ∈ findAllVideos d, e ∈ allData d ∧ e.tag = Tag.video := by
  intro e he
  rcases List.mem_append.mp he with h | h
  · obtain ⟨hmem, htag⟩ := List.mem_filter.mp h
    exact ⟨docElems_sub d e hmem, eq_of_beq htag⟩
  · obtain ⟨f, hf, hef⟩ := List.mem_flatMap.mp h
    cases hl : framesLookup f.eid d.frames with
    | none =>
      rw [hl] at hef
      simp at hef
    | some doc =>
      rw [hl] at hef
      obtain ⟨hmem, htag⟩ := List.mem_filter.mp hef
      obtain ⟨i, hi⟩ := framesLookup_mem f.eid d.frames doc hl
      refine ⟨?_, eq_of_beq htag⟩
      refine List.mem_cons_of_mem _ (List.mem_append_right _ ?_)
      exact List.mem_flatMap.mpr ⟨(i, doc), hi, hmem⟩

/-- Every element the iframe scan returns is a stored iframe element. -/
theorem findVideoIframes_facts (d : Dom) :
    ∀ e ∈ findVideoIframes d, e ∈ allData d ∧ e.tag = Tag.iframe := by
  intro e he
  obtain ⟨h1, -⟩ := List.mem_filter.mp he
  obtain ⟨h2, htag⟩ := List.mem_filter.mp h1
  exact ⟨docElems_sub d e h2, eq_of_beq htag⟩

/-- Every element the container scan returns is stored and matches a
container selector. -/
theorem findVideoContainers_facts (d : Dom) :
    ∀ e ∈ findVideoContainers d, e ∈ allData d ∧ e.selHits ≠ [] := by
  intro e he
  obtain ⟨i, hi, hef⟩ := List.mem_flatMap.mp he
  obtain ⟨hmem, hp⟩ := List.mem_filter.mp hef
  have hc : e.selHits.contains i = true := by
    rw [Bool.and_eq_true] at hp
    exact hp.1
  refine ⟨docElems_sub d e hmem, ?_⟩
  intro hnil
  rw [hnil] at hc
  simp at hc

/-- Every pick-mode candidate is stored and is a video, an iframe, or a
selector-matching container. -/
theorem selectable_facts (d : Dom) :
    ∀ c ∈ getAllSelectableElements d, c.elem ∈ allData d ∧
      (c.elem.tag = Tag.video ∨ c.elem.tag = Tag.iframe ∨
        c.elem.selHits ≠ []) := by
  intro c hc
  rcases List.mem_append.mp hc with h | h
  · rcases List.mem_append.mp h with hv | hf
    · obtain ⟨e, he, heq⟩ := List.mem_map.mp hv
      subst heq
      obtain ⟨hm, ht⟩ := findAllVideos_facts d e he
      exact ⟨hm, Or.inl ht⟩
    · obtain ⟨e, he, heq⟩ := List.mem_map.mp hf
      subst heq
      obtain ⟨hm, ht⟩ := findVideoIframes_facts d e he
      exact ⟨hm, Or.inr (Or.inl ht)⟩
  · obtain ⟨e, he, heq⟩ := List.mem_map.mp h
    subst heq
    obtain ⟨he2, -⟩ := List.mem_filter.mp he
    obtain ⟨hm, hs⟩ := findVideoContainers_facts d e he2
    exact ⟨hm, Or.inr (Or.inr hs)⟩

/-- The best-candidate fold only ever reports the accumulator or a list
member. -/
theorem bestFoldAux : ∀ (vw vh : ℚ) (l : List ElemData)
    (acc : Option ElemData × ℚ) (e : ElemData),
    (l.foldl (bestStep vw vh) acc).1 = some e → acc.1 = some e ∨ e ∈ l
  | vw, vh, [], acc, e, h => Or.inl h
  | vw, vh, a :: l, acc, e, h => by
    rw [List.foldl_cons] at h
    rcases bestFoldAux vw vh l (bestStep vw vh acc a) e h with h1 | h1
    · unfold bestStep at h1
      by_cases hgt : getElementScore vw vh a > acc.2
      · rw [if_pos hgt] at h1
        injection h1 with h1
        rw [← h1]
        exact Or.inr (List.mem_cons_self _ _)
      · rw [if_neg hgt] at h1
        exact Or.inl h1
    · exact Or.inr (List.mem_cons_of_mem _ h1)

/-- A best candidate comes from the scanned list. -/
theorem bestOf_mem (vw vh : ℚ) (l : List ElemData) (e : ElemData)
    (h : bestOf vw vh l = some e) : e ∈ l := by
  rcases bestFoldAux vw vh l (none, 0) e h with h1 | h1
  · exact Option.noConfusion h1
  · exact h1

/-- The element the auto scan settles on is stored and is a video, an
iframe, or a selector-matching container. -/
theorem findBest_facts (d : Dom) (c : Cand)
    (h : findBestPlayableElement d = some c) :
    c.elem ∈ allData d ∧ (c.elem.tag = Tag.video ∨ c.elem.tag = Tag.iframe ∨
      c.elem.selHits ≠ []) := by
  unfold findBestPlayableElement at h
  cases hv : findBestVideo d with
  | some v =>
    rw [hv] at h
    injection h with h1
    subst h1
    obtain ⟨hm, ht⟩ := findAllVideos_facts d v (bestOf_mem _ _ _ _ hv)
    exact ⟨hm, Or.inl ht⟩
  | none =>
    rw [hv] at h
    cases hf : findBestIframe d with
    | some f =>
      rw [hf] at h
      injection h with h1
      subst h1
      obtain ⟨hm, ht⟩ := findVideoIframes_facts d f (bestOf_mem _ _ _ _ hf)
      exact ⟨hm, Or.inr (Or.inl ht)⟩
    | none =>
      rw [hf] at h
      cases hco : findBestContainer d with
      | some co =>
        rw [hco] at h
        injection h with h1
        subst h1
        obtain ⟨hm, hs⟩ := findVideoContainers_facts d co
          (bestOf_mem _ _ _ _ hco)
        exact ⟨hm, Or.inr (Or.inr hs)⟩
      | none =>
        rw [hco] at h
        exact Option.noConfusion h

/-- In a well-formed state a scanned candidate is a sound enter target:
its id is stored and never collides with the reserved overlay id. -/
theorem cand_ok (s : PF) (hinv : PFInv s) (e : ElemData)
    (hmem : e ∈ allData s.dom)
    (hkind : e.tag = Tag.video ∨ e.tag = Tag.iframe ∨ e.selHits ≠ []) :
    e.eid ∈ allIds s.dom ∧ IdFact s.dom e.eid := by
  refine ⟨List.mem_map_of_mem ElemData.eid hmem, ?_⟩
  intro e2 he2 heq hov
  have hee : e2 = e := allEid_unique s.dom hinv.nodup e2 he2 e hmem heq
  have hshape := hinv.ovShape e2 he2 hov
  rcases hkind with h | h | h
  · rw [← hee] at h
    rw [hshape.1] at h
    exact Tag.noConfusion h
  · rw [← hee] at h
    rw [hshape.1] at h
    exact Tag.noConfusion h
  · rw [← hee] at h
    exact h hshape.2

/-- The invariant transfers along any state change that preserves the
overlay bookkeeping, the ids, the session flag and the current
element. -/
theorem pfinv_transfer (s t : PF)
    (hids : allIds t.dom = allIds s.dom)
    (hcb : countIdF OVERLAY_ID t.dom.bodyKids =
      countIdF OVERLAY_ID s.dom.bodyKids)
    (htb : topCountIdF OVERLAY_ID t.dom.bodyKids =
      topCountIdF OVERLAY_ID s.dom.bodyKids)
    (hcd : countIdF OVERLAY_ID t.dom.detached =
      countIdF OVERLAY_ID s.dom.detached)
    (htd : topCountIdF OVERLAY_ID t.dom.detached =
      topCountIdF OVERLAY_ID s.dom.detached)
    (hfr : framesCount OVERLAY_ID t.dom.frames =
      framesCount OVERLAY_ID s.dom.frames)
    (hbody : t.dom.bodyData.idAttr = s.dom.bodyData.idAttr)
    (hshape : (∀ e ∈ allData s.dom, e.idAttr = some OVERLAY_ID →
        e.tag = Tag.div ∧ e.selHits = []) →
      ∀ e ∈ allData t.dom, e.idAttr = some OVERLAY_ID →
        e.tag = Tag.div ∧ e.selHits = [])
    (hfact : ∀ y, IdFact s.dom y → IdFact t.dom y)
    (hact : t.isActive = s.isActive)
    (hcur : t.currentElement = s.currentElement)
    (hnid : t.nextId = s.nextId)
    (hinv : PFInv s) : PFInv t := by
  refine ⟨?_, ?_, ?_, ?_, ?_, ?_, ?_, hshape hinv.ovShape, ?_⟩
  · rw [hids]
    exact hinv.nodup
  · intro i hi
    rw [hnid]
    exact hinv.bound i (hids ▸ hi)
  · rw [hbody]
    exact hinv.bodyNotOv
  · rw [hfr]
    exact hinv.framesOv
  · rw [hcd, htd]
    exact hinv.detOvTop
  · intro h
    obtain ⟨c1, t1⟩ := hinv.activeOv (hact ▸ h)
    exact ⟨by rw [hcb]; exact c1, by rw [htb]; exact t1⟩
  · intro h
    have hz := hinv.inactiveOv (hact ▸ h)
    rw [hcb]
    exact hz
  · intro h
    obtain ⟨x, hc, hm, hf⟩ := hinv.curOk (hact ▸ h)
    exact ⟨x, by rw [hcur]; exact hc, by rw [hids]; exact hm, hfact x hf⟩

/-- Tagging body with the pick-mode class leaves ids, overlay shapes and
id facts intact. -/
theorem pickModeEntryDom_pres (d : Dom) :
    allIds (pickModeEntryDom d) = allIds d ∧
    ((∀ e ∈ allData d, e.idAttr = some OVERLAY_ID →
        e.tag = Tag.div ∧ e.selHits = []) →
      ∀ e ∈ allData (pickModeEntryDom d), e.idAttr = some OVERLAY_ID →
        e.tag = Tag.div ∧ e.selHits = []) ∧
    (∀ y, IdFact d y → IdFact (pickModeEntryDom d) y) := by
  refine ⟨rfl, ?_, ?_⟩
  · intro h e he hov
    rcases List.mem_cons.mp he with hh | hh
    · rw [hh] at hov ⊢
      exact h d.bodyData (List.mem_cons_self _ _) hov
    · exact h e (List.mem_cons_of_mem _ hh) hov
  · intro y hy e he hey
    rcases List.mem_cons.mp he with hh | hh
    · rw [hh] at hey ⊢
      exact hy d.bodyData (List.mem_cons_self _ _) hey
    · exact hy e (List.mem_cons_of_mem _ hh) hey

/-- Disabling pick mode preserves the invariant and everything the
session tracks. -/
theorem disable_pres (s : PF) (hinv : PFInv s) :
    PFInv (disableSelectMode s) ∧
    allIds (disableSelectMode s).dom = allIds s.dom ∧
    (∀ y, IdFact s.dom y → IdFact (disableSelectMode s).dom y) ∧
    (disableSelectMode s).isActive = s.isActive ∧
    (disableSelectMode s).currentElement = s.currentElement ∧
    (disableSelectMode s).originalElementState = s.originalElementState ∧
    (disableSelectMode s).nextId = s.nextId := by
  by_cases hsm : s.selectMode = false
  · have hE : disableSelectMode s = s := by
      unfold disableSelectMode
      rw [if_pos hsm]
    rw [hE]
    exact ⟨hinv, rfl, fun y h => h, rfl, rfl, rfl, rfl⟩
  · have hE : disableSelectMode s = { s with
        selectMode := false
        dom := { s.dom with
          bodyData := (fun (e : ElemData) =>
            { e with className := classListRemove e.className selectableClass })
            { s.dom.bodyData with
              className := classListRemove s.dom.bodyData.className selectModeClass }
          bodyKids := mapF (fun (e : ElemData) =>
            { e with className := classListRemove e.className selectableClass }) s.dom.bodyKids } } := by
      unfold disableSelectMode
      rw [if_neg hsm]
    rw [hE]
    have hk : idsF (mapF (fun (e : ElemData) =>
        { e with className := classListRemove e.className selectableClass })
        s.dom.bodyKids) = idsF s.dom.bodyKids :=
      idsF_mapF (fun (e : ElemData) =>
        { e with className := classListRemove e.className selectableClass })
        (fun e => rfl) s.dom.bodyKids
    have hids : allIds ({ s with
        selectMode := false
        dom := { s.dom with
          bodyData := (fun (e : ElemData) =>
            { e with className := classListRemove e.className selectableClass })
            { s.dom.bodyData with
              className := classListRemove s.dom.bodyData.className selectModeClass }
          bodyKids := mapF (fun (e : ElemData) =>
            { e with className := classListRemove e.className selectableClass }) s.dom.bodyKids } } : PF).dom
        = allIds s.dom := by
      rw [allIds_eq, allIds_eq, hk]
    have hshape : (∀ e ∈ allData s.dom, e.idAttr = some OVERLAY_ID →
        e.tag = Tag.div ∧ e.selHits = []) →
      ∀ e ∈ allData ({ s with
        selectMode := false
        dom := { s.dom with
          bodyData := (fun (e : ElemData) =>
            { e with className := classListRemove e.className selectableClass })
            { s.dom.bodyData with
              className := classListRemove s.dom.bodyData.className selectModeClass }
          bodyKids := mapF (fun (e : ElemData) =>
            { e with className := classListRemove e.className selectableClass }) s.dom.bodyKids } } : PF).dom,
        e.idAttr = some OVERLAY_ID → e.tag = Tag.div ∧ e.selHits = [] := by
      intro h e he hov
      rcases List.mem_cons.mp he with hh | hh
      · rw [hh] at hov ⊢
        exact h s.dom.bodyData (List.mem_cons_self _ _) hov
      · rcases List.mem_append.mp hh with h2 | h2
        · rcases List.mem_append.mp h2 with h3 | h3
          · have h4 : e ∈ (dataF s.dom.bodyKids).map (fun (e : ElemData) =>
                { e with className := classListRemove e.className selectableClass }) := by
              rw [← dataF_mapF]
              exact h3
            obtain ⟨e0, he0, heq⟩ := List.mem_map.mp h4
            rw [← heq] at hov ⊢
            exact h e0 (List.mem_cons_of_mem _ (List.mem_append_left _
              (List.mem_append_left _ he0))) hov
          · exact h e (List.mem_cons_of_mem _ (List.mem_append_left _
              (List.mem_append_right _ h3))) hov
        · exact h e (List.mem_cons_of_mem _ (List.mem_append_right _ h2)) hov
    have hfact : ∀ y, IdFact s.dom y →
      IdFact ({ s with
        selectMode := false
        dom := { s.dom with
          bodyData := (fun (e : ElemData) =>
            { e with className := classListRemove e.className selectableClass })
            { s.dom.bodyData with
              className := classListRemove s.dom.bodyData.className selectModeClass }
          bodyKids := mapF (fun (e : ElemData) =>
            { e with className := classListRemove e.className selectableClass }) s.dom.bodyKids } } : PF).dom y := by
      intro y hy e he hey
      rcases List.mem_cons.mp he with hh | hh
      · rw [hh] at hey ⊢
        exact hy s.dom.bodyData (List.mem_cons_self _ _) hey
      · rcases List.mem_append.mp hh with h2 | h2
        · rcases List.mem_append.mp h2 with h3 | h3
          · have h4 : e ∈ (dataF s.dom.bodyKids).map (fun (e : ElemData) =>
                { e with className := classListRemove e.className selectableClass }) := by
              rw [← dataF_mapF]
              exact h3
            obtain ⟨e0, he0, heq⟩ := List.mem_map.mp h4
            rw [← heq] at hey ⊢
            exact hy e0 (List.mem_cons_of_mem _ (List.mem_append_left _
              (List.mem_append_left _ he0))) hey
          · exact hy e (List.mem_cons_of_mem _ (List.mem_append_left _
              (List.mem_append_right _ h3))) hey
        · exact hy e (List.mem_cons_of_mem _
            (List.mem_append_right _ h2)) hey
    refine ⟨pfinv_transfer s _ hids
      (countIdF_mapF _ (fun (e : ElemData) =>
        { e with className := classListRemove e.className selectableClass })
        (fun e => rfl) s.dom.bodyKids)
      (topCountIdF_mapF _ (fun (e : ElemData) =>
        { e with className := classListRemove e.className selectableClass })
        (fun e => rfl) s.dom.bodyKids)
      rfl rfl rfl rfl hshape hfact rfl rfl rfl hinv,
      hids, hfact, rfl, rfl, rfl, rfl⟩

/-- `enableSelectMode` on a fresh call is the tagging fold over the
candidates of the pick-mode-tagged document. -/
theorem enable_eq (s : PF) (hsm : ¬ (s.selectMode = true)) :
    enableSelectMode s =
      (some (getAllSelectableElements (pickModeEntryDom s.dom)).length,
        selFold (getAllSelectableElements (pickModeEntryDom s.dom))
          { s with selectMode := true, dom := pickModeEntryDom s.dom }) := by
  unfold enableSelectMode selFold
  rw [if_neg hsm]

/-- The tagging fold preserves the overlay bookkeeping, ids, shapes, id
facts and every session field. -/
theorem selFold_pres : ∀ (l : List Cand) (s : PF),
    allIds (selFold l s).dom = allIds s.dom ∧
    countIdF OVERLAY_ID (selFold l s).dom.bodyKids =
      countIdF OVERLAY_ID s.dom.bodyKids ∧
    topCountIdF OVERLAY_ID (selFold l s).dom.bodyKids =
      topCountIdF OVERLAY_ID s.dom.bodyKids ∧
    countIdF OVERLAY_ID (selFold l s).dom.detached =
      countIdF OVERLAY_ID s.dom.detached ∧
    topCountIdF OVERLAY_ID (selFold l s).dom.detached =
      topCountIdF OVERLAY_ID s.dom.detached ∧
    framesCount OVERLAY_ID (selFold l s).dom.frames =
      framesCount OVERLAY_ID s.dom.frames ∧
    (selFold l s).dom.bodyData.idAttr = s.dom.bodyData.idAttr ∧
    ((∀ e ∈ allData s.dom, e.idAttr = some OVERLAY_ID →
        e.tag = Tag.div ∧ e.selHits = []) →
      ∀ e ∈ allData (selFold l s).dom, e.idAttr = some OVERLAY_ID →
        e.tag = Tag.div ∧ e.selHits = []) ∧
    (∀ y, IdFact s.dom y → IdFact (selFold l s).dom y) ∧
    (selFold l s).isActive = s.isActive ∧
    (selFold l s).currentElement = s.currentElement ∧
    (selFold l s).originalElementState = s.originalElementState ∧
    (selFold l s).nextId = s.nextId ∧
    (selFold l s).selectMode = s.selectMode
  | [], s => ⟨rfl, rfl, rfl, rfl, rfl, rfl, rfl, fun h => h, fun y h => h,
      rfl, rfl, rfl, rfl, rfl⟩
  | c :: l, s => by
    obtain ⟨h1, h2, h3, h4, h5, h6, h7, h8, h9⟩ :=
      updData_pres s.dom c.elem.eid (fun e =>
        { e with className := classListAdd e.className selectableClass })
        (fun e => rfl) (fun e => rfl) (fun e => rfl) (fun e => rfl)
    obtain ⟨g1, g2, g3, g4, g5, g6, g7, g8, g9, g10, g11, g12, g13, g14⟩ :=
      selFold_pres l { s with dom := updData s.dom c.elem.eid (fun e =>
        { e with className := classListAdd e.className selectableClass }) }
    have hE : selFold (c :: l) s = selFold l
        { s with dom := updData s.dom c.elem.eid (fun e =>
          { e with className := classListAdd e.className selectableClass }) } := by
      unfold selFold
      rw [List.foldl_cons]
    rw [hE]
    exact ⟨g1.trans h1, g2.trans h2, g3.trans h3, g4.trans h4, g5.trans h5,
      g6.trans h6, g7.trans h7, fun h => g8 (h8 h), fun y hy => g9 y (h9 y hy),
      g10, g11, g12, g13, g14⟩

/-- Enabling pick mode preserves the invariant and everything the
session tracks. -/
theorem enable_pres (s : PF) (hinv : PFInv s) :
    PFInv (enableSelectMode s).2 ∧
    allIds (enableSelectMode s).2.dom = allIds s.dom ∧
    (∀ y, IdFact s.dom y → IdFact (enableSelectMode s).2.dom y) ∧
    (enableSelectMode s).2.isActive = s.isActive ∧
    (enableSelectMode s).2.currentElement = s.currentElement ∧
    (enableSelectMode s).2.originalElementState = s.originalElementState ∧
    (enableSelectMode s).2.nextId = s.nextId := by
  by_cases hsm : s.selectMode = true
  · have hE : enableSelectMode s = (none, s) := by
      unfold enableSelectMode
      rw [if_pos hsm]
    rw [hE]
    exact ⟨hinv, rfl, fun y h => h, rfl, rfl, rfl, rfl⟩
  · rw [enable_eq s hsm]
    obtain ⟨p1, p2, p3⟩ := pickModeEntryDom_pres s.dom
    obtain ⟨g1, g2, g3, g4, g5, g6, g7, g8, g9, g10, g11, g12, g13, g14⟩ :=
      selFold_pres (getAllSelectableElements (pickModeEntryDom s.dom))
        { s with selectMode := true, dom := pickModeEntryDom s.dom }
    have hids : allIds (selFold
        (getAllSelectableElements (pickModeEntryDom s.dom))
        { s with selectMode := true, dom := pickModeEntryDom s.dom }).dom = allIds s.dom :=
      g1.trans p1
    have hfact : ∀ y, IdFact s.dom y → IdFact (selFold
        (getAllSelectableElements (pickModeEntryDom s.dom))
        { s with selectMode := true, dom := pickModeEntryDom s.dom }).dom y :=
      fun y hy => g9 y (p3 y hy)
    exact ⟨pfinv_transfer s _ hids g2 g3 g4 g5 g6 g7
      (fun h => g8 (p2 h)) hfact g10 g11 g13 hinv,
      hids, hfact, g10, g11, g12, g13⟩

/-- A pristine page satisfies the invariant. -/
theorem init_inv (s : PF) (h : InitState s) : PFInv s := by
  refine ⟨h.nodup, h.bound, h.bodyNotOv, h.framesNoOv, ?_, ?_,
    fun _ => h.noOv, h.ovShape, ?_⟩
  · rw [h.noDetached]
    rfl
  · intro ha
    rw [h.inactive] at ha
    exact Bool.noConfusion ha
  · intro ha
    rw [h.inactive] at ha
    exact Bool.noConfusion ha

/-- Every script operation preserves the invariant. -/
theorem step_inv {s t : PF} (hinv : PFInv s) (hst : PFStep s t) : PFInv t := by
  cases hst with
  | auto =>
    unfold autoFullscreenAction
    cases hm : findBestPlayableElement s.dom with
    | none => exact hinv
    | some c =>
      obtain ⟨hmem, hkind⟩ := findBest_facts s.dom c hm
      obtain ⟨hm2, hf2⟩ := cand_ok s hinv c.elem hmem hkind
      exact (enter_inv s c.elem.eid c.ckind hinv hm2 hf2).1
  | pick c hc =>
    obtain ⟨hmem, hkind⟩ := selectable_facts s.dom c hc
    obtain ⟨hm2, hf2⟩ := cand_ok s hinv c.elem hmem hkind
    obtain ⟨hdinv, hdids, hdfact, -, -, -, -⟩ := disable_pres s hinv
    have hm3 : c.elem.eid ∈ allIds (disableSelectMode s).dom := by
      rw [hdids]
      exact hm2
    exact (enter_inv (disableSelectMode s) c.elem.eid c.ckind hdinv hm3
      (hdfact _ hf2)).1
  | exitStep => exact (exit_inv s hinv).1
  | selectVid =>
    unfold selectVideoAction
    obtain ⟨heinv, -, -, -, -, -, -⟩ := enable_pres s hinv
    cases he : enableSelectMode s with
    | mk cnt s1 =>
      rw [he] at heinv
      by_cases hz : (cnt == some 0) = true
      · show PFInv (if (cnt == some 0) = true
          then (false, disableSelectMode s1) else (true, s1)).2
        rw [if_pos hz]
        exact (disable_pres s1 heinv).1
      · show PFInv (if (cnt == some 0) = true
          then (false, disableSelectMode s1) else (true, s1)).2
        rw [if_neg hz]
        exact heinv
  | cancelPick => exact (disable_pres s hinv).1

/-- Every reachable state satisfies the invariant. -/
theorem reach_inv {s : PF} (h : PFReach s) : PFInv s := by
  induction h with
  | init s h => exact init_inv s h
  | step hs st ih => exact step_inv ih st

mutual
/-- Two data maps over a tree compose. -/
theorem mapN_comp (g h : ElemData → ElemData) : ∀ t : DNode,
    mapN g (mapN h t) = mapN (fun e => g (h e)) t
  | .node e k => by
    show DNode.node (g (h e)) (mapF g (mapF h k)) = _
    rw [mapF_comp g h k]
    rfl
/-- Two data maps over a forest compose. -/
theorem mapF_comp (g h : ElemData → ElemData) : ∀ f : DForest,
    mapF g (mapF h f) = mapF (fun e => g (h e)) f
  | .fnil => rfl
  | .fcons t ts => by
    show DForest.fcons (mapN g (mapN h t)) (mapF g (mapF h ts)) = _
    rw [mapN_comp g h t, mapF_comp g h ts]
    rfl
end

/-- A data map fixing every record of a tree is the identity on it. -/
theorem mapN_congr_id (h : ElemData → ElemData) (t : DNode)
    (hall : ∀ e ∈ dataN t, h e = e) : mapN h t = t := by
  cases t with
  | node e k =>
    have he : h e = e := hall e (List.mem_cons_self _ _)
    have hk : ∀ e2 ∈ dataF k, h e2 = e2 := fun e2 he2 =>
      hall e2 (List.mem_cons_of_mem _ he2)
    show DNode.node (h e) (mapF h k) = _
    rw [he, mapF_congr_id h k hk]

/-- An id-preserving data map commutes with sibling-list insertion. -/
theorem mapF_insertBeforeRef (h : ElemData → ElemData)
    (hpres : ∀ e, (h e).eid = e.eid) (ref : Option Nat) (w : DNode) :
    ∀ f : DForest,
    mapF h (insertBeforeRef ref w f) =
      insertBeforeRef ref (mapN h w) (mapF h f)
  | .fnil => by
    show DForest.fcons (mapN h w) (mapF h DForest.fnil) =
      insertBeforeRef ref (mapN h w) (mapF h DForest.fnil)
    rw [show mapF h DForest.fnil = DForest.fnil from rfl,
      insertBeforeRef_fnil]
  | .fcons t ts => by
    rw [show mapF h (DForest.fcons t ts) =
      DForest.fcons (mapN h t) (mapF h ts) from rfl]
    cases ref with
    | none =>
      rw [insertBeforeRef_fcons_none, insertBeforeRef_fcons_none]
      show DForest.fcons (mapN h t) (mapF h (insertBeforeRef none w ts)) = _
      rw [mapF_insertBeforeRef h hpres none w ts]
    | some r =>
      rw [insertBeforeRef_fcons_some, insertBeforeRef_fcons_some]
      have hgr : ((mapN h t).data.eid == r) = (t.data.eid == r) := by
        rw [mapN_data, hpres t.data]
      by_cases hb : (t.data.eid == r) = true
      · rw [if_pos hb, if_pos (show ((mapN h t).data.eid == r) = true by
          rw [hgr]; exact hb)]
        rfl
      · rw [if_neg hb, if_neg (show ¬ (((mapN h t).data.eid == r) = true) by
          rw [hgr]; exact hb)]
        show DForest.fcons (mapN h t)
          (mapF h (insertBeforeRef (some r) w ts)) = _
        rw [mapF_insertBeforeRef h hpres (some r) w ts]

mutual
/-- Extraction commutes with an id-preserving data map on a tree. -/
theorem extractN_mapN (x : Nat) (h : ElemData → ElemData)
    (hpres : ∀ e, (h e).eid = e.eid) : ∀ (t : DNode),
    extractN x (mapN h t) =
      ((extractN x t).1.map (mapN h), mapN h (extractN x t).2)
  | .node e k => by
    show extractN x (.node (h e) (mapF h k)) = _
    unfold extractN
    rw [extractF_mapF x h hpres k]
    cases hk : extractF x k with
    | mk o k2 =>
      cases o with
      | some u => simp [mapN, mapF]
      | none => simp [mapN, mapF]

/-- Extraction commutes with an id-preserving data map on a forest. -/
theorem extractF_mapF (x : Nat) (h : ElemData → ElemData)
    (hpres : ∀ e, (h e).eid = e.eid) : ∀ (f : DForest),
    extractF x (mapF h f) =
      ((extractF x f).1.map (mapN h), mapF h (extractF x f).2)
  | .fnil => by simp [mapF, extractF]
  | .fcons t ts => by
    show extractF x (.fcons (mapN h t) (mapF h ts)) = _
    unfold extractF
    rw [mapN_data, hpres t.data]
    by_cases hc : (t.data.eid == x) = true
    · rw [if_pos hc, if_pos hc]
      simp [mapN, mapF]
    · rw [if_neg hc, if_neg hc, extractN_mapN x h hpres t]
      cases hn : extractN x t with
      | mk o t2 =>
        cases o with
        | some u => simp [mapN, mapF]
        | none =>
          rw [extractF_mapF x h hpres ts]
          cases hts : extractF x ts with
          | mk o2 ts2 =>
            cases o2 with
            | some w => simp [mapN, mapF]
            | none => simp [mapN, mapF]
end

/-- Extraction of an absent id is a no-op. -/
theorem extractF_not_mem : ∀ (x : Nat) (f : DForest),
    x ∉ idsF f → extractF x f = (none, f)
  | x, .fnil, _ => rfl
  | x, .fcons (.node e k) ts, h => by
    rw [idsF_fcons, idsN_node] at h
    simp only [List.mem_append, List.mem_cons, not_or] at h
    obtain ⟨⟨hne, hk⟩, hts⟩ := h
    unfold extractF
    simp only [DNode.data]
    have hb : ¬ ((e.eid == x) = true) := fun hb => hne (eq_of_beq hb).symm
    rw [if_neg hb]
    have hN : extractN x (.node e k) = (none, .node e k) := by
      unfold extractN
      rw [extractF_not_mem x k hk]
    rw [hN, extractF_not_mem x ts hts]

/-- Extraction that succeeds in a forest is unaffected by a subtree
appended at the end of the sibling list. -/
theorem extractF_append : ∀ (x : Nat) (f : DForest) (u : DNode)
    (f' : DForest) (w : DNode), extractF x f = (some u, f') →
    extractF x (insertBeforeRef none w f) =
      (some u, insertBeforeRef none w f')
  | x, .fnil, u, f', w, h => by simp [extractF] at h
  | x, .fcons t ts, u, f', w, h => by
    rw [insertBeforeRef_fcons_none]
    unfold extractF at h
    unfold extractF
    by_cases he : (t.data.eid == x) = true
    · rw [if_pos he] at h
      rw [if_pos he]
      injection h with h1 h2
      injection h1 with h1
      subst h1
      subst h2
      rfl
    · rw [if_neg he] at h
      rw [if_neg he]
      cases hn : extractN x t with
      | mk o t2 =>
        rw [hn] at h
        cases o with
        | some v =>
          injection h with h1 h2
          injection h1 with h1
          subst h1
          subst h2
          rw [insertBeforeRef_fcons_none]
        | none =>
          cases hts : extractF x ts with
          | mk o2 ts2 =>
            rw [hts] at h
            cases o2 with
            | some v2 =>
              injection h with h1 h2
              injection h1 with h1
              subst h1
              subst h2
              rw [extractF_append x ts v2 ts2 w hts,
                insertBeforeRef_fcons_none]
            | none => simp at h

/-- When the id is absent from the forest, extraction with a further
subtree appended descends into the appended subtree. -/
theorem extractF_append_hit : ∀ (x : Nat) (f : DForest) (w u w' : DNode),
    x ∉ idsF f → (w.data.eid == x) = false →
    extractN x w = (some u, w') →
    extractF x (insertBeforeRef none w f) =
      (some u, insertBeforeRef none w' f)
  | x, .fnil, w, u, w', _, hb, hw => by
    rw [insertBeforeRef_fnil, insertBeforeRef_fnil]
    unfold extractF
    have hb2 : ¬ ((w.data.eid == x) = true) := by
      rw [hb]
      exact Bool.false_ne_true
    rw [if_neg hb2, hw]
  | x, .fcons (.node e k) ts, w, u, w', h, hb, hw => by
    rw [idsF_fcons, idsN_node] at h
    simp only [List.mem_append, List.mem_cons, not_or] at h
    obtain ⟨⟨hne, hk⟩, hts⟩ := h
    rw [insertBeforeRef_fcons_none, insertBeforeRef_fcons_none]
    unfold extractF
    simp only [DNode.data]
    have hbe : ¬ ((e.eid == x) = true) := fun hh => hne (eq_of_beq hh).symm
    rw [if_neg hbe]
    have hN : extractN x (.node e k) = (none, .node e k) := by
      unfold extractN
      rw [extractF_not_mem x k hk]
    rw [hN, extractF_append_hit x ts w u w' hts hb hw]

/-- A parent found only in the appended subtree: insertion descends into
it and the prefix siblings stay. -/
theorem insUF_append_hit : ∀ (p : Nat) (ref : Option Nat) (u : DNode)
    (f : DForest) (w w' : DNode), p ∉ idsF f →
    insUN p ref u w = (w', true) →
    insUF p ref u (insertBeforeRef none w f) =
      (insertBeforeRef none w' f, true)
  | p, ref, u, .fnil, w, w', _, hw => by
    rw [insertBeforeRef_fnil, insertBeforeRef_fnil]
    unfold insUF
    rw [hw]
  | p, ref, u, .fcons (.node e k) ts, w, w', h, hw => by
    rw [idsF_fcons] at h
    simp only [List.mem_append, not_or] at h
    obtain ⟨ht, hts⟩ := h
    rw [insertBeforeRef_fcons_none, insertBeforeRef_fcons_none]
    unfold insUF
    rw [insUN_not_mem p ref u e k ht,
      insUF_append_hit p ref u ts w w' hts hw]

/-- Insertion that succeeds in a forest is unaffected by a subtree
appended at the end of the sibling list. -/
theorem insUF_append_left : ∀ (p : Nat) (ref : Option Nat) (u : DNode)
    (f f2 : DForest) (w : DNode), insUF p ref u f = (f2, true) →
    insUF p ref u (insertBeforeRef none w f) =
      (insertBeforeRef none w f2, true)
  | p, ref, u, .fnil, f2, w, h => by
    unfold insUF at h
    injection h with h1 h2
    cases h2
  | p, ref, u, .fcons t ts, f2, w, h => by
    unfold insUF at h
    rw [insertBeforeRef_fcons_none]
    unfold insUF
    cases hn : insUN p ref u t with
    | mk t' b =>
      rw [hn] at h
      cases b with
      | true =>
        injection h with h1 h2
        subst h1
        rw [insertBeforeRef_fcons_none]
      | false =>
        cases hts : insUF p ref u ts with
        | mk ts' b2 =>
          rw [hts] at h
          injection h with h1 h2
          subst h2
          subst h1
          rw [insUF_append_left p ref u ts ts' w hts,
            insertBeforeRef_fcons_none]

/-- Inserting under the freshly created container descends into the
overlay subtree. -/
theorem insUN_overlayTree (n : Nat) (u : DNode) :
    insUN (n + 1) none u (overlayTree n) = (ovHold n u, true) := by
  simp [overlayTree, ovHold, insUN, insUF, insertBeforeRef, mkFresh,
    defaultElem, DNode.data, show ¬ (n = n + 1) from by omega]

/-- Extracting the hosted subtree out of the holding overlay restores
the fresh overlay. -/
theorem extractN_ovHold (n x : Nat) (u : DNode)
    (hu : (u.data.eid == x) = true) (hx : x < n) :
    extractN x (ovHold n u) = (some u, overlayTree n) := by
  cases u with
  | node eu ku =>
    simp only [DNode.data] at hu
    simp [ovHold, overlayTree, extractN, extractF, mkFresh, defaultElem,
      DNode.data, eq_of_beq hu, show ¬ (n + 1 = x) from by omega]

/-- A data map keyed on an id below the overlay's fresh ids fixes the
fresh overlay subtree. -/
theorem mapH_overlayTree (g : ElemData → ElemData) (n x : Nat)
    (hx : x < n) :
    mapN (fun e => if e.eid == x then g e else e) (overlayTree n) =
      overlayTree n := by
  apply mapN_congr_id
  intro e he
  have hmem := overlay_ids n e he
  have hne : ¬ ((e.eid == x) = true) := by
    intro hb
    have hex : e.eid = x := eq_of_beq hb
    simp only [List.mem_cons, List.not_mem_nil, or_false] at hmem
    rcases hmem with h1 | h1 | h1 | h1 <;> omega
  exact if_neg hne

/-- A data map keyed on an id below the overlay's fresh ids passes
through the holding overlay to the hosted subtree. -/
theorem mapH_ovHold (g : ElemData → ElemData) (n x : Nat) (hx : x < n)
    (u : DNode) :
    mapN (fun e => if e.eid == x then g e else e) (ovHold n u) =
      ovHold n (mapN (fun e => if e.eid == x then g e else e) u) := by
  simp [ovHold, mapN, mapF, mkFresh, defaultElem, DNode.data,
    show ¬ (n = x) from by omega, show ¬ (n + 1 = x) from by omega,
    show ¬ (n + 2 = x) from by omega, show ¬ (n + 3 = x) from by omega]

/-- A subtree with zero id count is untouched by removal. -/
theorem remIdN_of_zero (s : String) (e : ElemData) (k : DForest)
    (h : countIdN s (.node e k) = 0) :
    remIdN s (.node e k) = (none, .node e k) := by
  rw [countIdN_node] at h
  have hk : countIdF s k = 0 := by
    by_cases hc : (e.idAttr == some s) = true
    · rw [if_pos hc] at h
      omega
    · rw [if_neg hc] at h
      omega
  unfold remIdN
  rw [remIdF_none_of_zero s k hk]

/-- The root of a zero-count subtree does not carry the id. -/
theorem root_free_of_zero (s : String) (e : ElemData) (k : DForest)
    (h : countIdN s (.node e k) = 0) :
    ¬ ((e.idAttr == some s) = true) := by
  intro hc
  rw [countIdN_node, if_pos hc] at h
  omega

/-- Removing the reserved id from a clean forest with the overlay
appended takes out exactly the appended subtree. -/
theorem remIdF_append_hit (sid : String) : ∀ (f : DForest) (w : DNode),
    countIdF sid f = 0 → (w.data.idAttr == some sid) = true →
    remIdF sid (insertBeforeRef none w f) = (some w, f)
  | .fnil, w, _, hw => by
    rw [insertBeforeRef_fnil]
    unfold remIdF
    rw [if_pos hw]
  | .fcons (.node e k) ts, w, hf, hw => by
    rw [countIdF_fcons] at hf
    have hN0 : countIdN sid (.node e k) = 0 := by omega
    have hts0 : countIdF sid ts = 0 := by omega
    rw [insertBeforeRef_fcons_none]
    unfold remIdF
    simp only [DNode.data]
    rw [if_neg (root_free_of_zero sid e k hN0),
      remIdN_of_zero sid e k hN0,
      remIdF_append_hit sid ts w hts0 hw]

/-- Re-inserting the restored subtree among the clean original siblings
while the overlay still sits appended: the subsequent removal takes out
exactly the overlay and leaves the re-inserted forest. -/
theorem remIdF_insert_around (sid : String) : ∀ (ref : Option Nat)
    (u w : DNode) (f : DForest),
    countIdN sid u = 0 → countIdF sid f = 0 →
    (w.data.idAttr == some sid) = true →
    (∀ rr, ref = some rr → (w.data.eid == rr) = false) →
    remIdF sid (insertBeforeRef ref u (insertBeforeRef none w f)) =
      (some w, insertBeforeRef ref u f)
  | none, u, w, .fnil, hu, hf, hw, hr => by
    simp only [insertBeforeRef_fnil, insertBeforeRef_fcons_none]
    unfold remIdF
    rw [if_pos hw]
  | some rr, u, w, .fnil, hu, hf, hw, hr => by
    have hwne : ¬ ((w.data.eid == rr) = true) := by
      rw [hr rr rfl]
      exact Bool.false_ne_true
    simp only [insertBeforeRef_fnil, insertBeforeRef_fcons_some,
      if_neg hwne]
    unfold remIdF
    rw [if_pos hw]
  | none, u, w, .fcons (.node e k) ts, hu, hf, hw, hr => by
    rw [countIdF_fcons] at hf
    have hN0 : countIdN sid (.node e k) = 0 := by omega
    have hts0 : countIdF sid ts = 0 := by omega
    simp only [insertBeforeRef_fcons_none]
    unfold remIdF
    simp only [DNode.data]
    rw [if_neg (root_free_of_zero sid e k hN0),
      remIdN_of_zero sid e k hN0,
      remIdF_insert_around sid none u w ts hu hts0 hw
        (fun rr2 hrr2 => Option.noConfusion hrr2)]
  | some rr, u, w, .fcons (.node e k) ts, hu, hf, hw, hr => by
    rw [countIdF_fcons] at hf
    have hN0 : countIdN sid (.node e k) = 0 := by omega
    have hts0 : countIdF sid ts = 0 := by omega
    simp only [insertBeforeRef_fcons_none]
    rw [insertBeforeRef_fcons_some, insertBeforeRef_fcons_some]
    by_cases hb : ((DNode.node e k).data.eid == rr) = true
    · rw [if_pos hb, if_pos hb]
      rw [show DForest.fcons u (.fcons (.node e k)
          (insertBeforeRef none w ts)) = insertBeforeRef none w
          (.fcons u (.fcons (.node e k) ts)) from by
        rw [insertBeforeRef_fcons_none, insertBeforeRef_fcons_none]]
      rw [remIdF_append_hit sid
        (.fcons u (.fcons (.node e k) ts)) w
        (by rw [countIdF_fcons, countIdF_fcons]; omega) hw]
    · rw [if_neg hb, if_neg hb]
      unfold remIdF
      simp only [DNode.data]
      rw [if_neg (root_free_of_zero sid e k hN0),
        remIdN_of_zero sid e k hN0,
        remIdF_insert_around sid (some rr) u w ts hu hts0 hw hr]

/-- Extraction partitions the id list. -/
theorem extract_ids_perm {x : Nat} {f : DForest} {u : DNode}
    {f' : DForest} (h : extractF x f = (some u, f')) :
    List.Perm (idsF f) (idsN u ++ idsF f') := by
  have hp := (extractF_perm x f u f' h).map ElemData.eid
  rw [List.map_append] at hp
  exact hp

/-- Extensionality for the script state. -/
theorem PF_ext (a b : PF) (h1 : a.dom = b.dom)
    (h2 : a.isActive = b.isActive)
    (h3 : a.currentElement = b.currentElement) (h4 : a.overlay = b.overlay)
    (h5 : a.elementContainer = b.elementContainer)
    (h6 : a.originalElementState = b.originalElementState)
    (h7 : a.selectMode = b.selectMode) (h8 : a.nextId = b.nextId) :
    a = b := by
  cases a with
  | mk d1 a1 c1 o1 e1 s1 m1 n1 =>
    cases b with
    | mk d2 a2 c2 o2 e2 s2 m2 n2 =>
      rw [PF.mk.injEq]
      exact ⟨h1, h2, h3, h4, h5, h6, h7, h8⟩

/-- When the target id lives neither in the body record, the detached
store nor the frames, `updData` reduces to the body-forest map. -/
theorem updData_off (d : Dom) (x : Nat) (g : ElemData → ElemData)
    (hbo : (d.bodyData.eid == x) = false)
    (hdet : x ∉ idsF d.detached)
    (hfr : x ∉ (framesData d.frames).map ElemData.eid) :
    updData d x g = withBody d
      (mapF (fun e => if (e.eid == x) = true then g e else e) d.bodyKids) := by
  cases d with
  | mk bd bk det fr iw ih =>
    have hbo2 : (bd.eid == x) = false := hbo
    have hdet2 : x ∉ idsF det := hdet
    have hfr2 : x ∉ (framesData fr).map ElemData.eid := hfr
    unfold updData withBody
    simp only [Dom.mk.injEq]
    refine ⟨?_, trivial, ?_, ?_, trivial, trivial⟩
    · show (if (bd.eid == x) = true then g bd else bd) = bd
      rw [if_neg (by rw [hbo2]; exact Bool.false_ne_true)]
    · apply mapF_congr_id
      intro e he
      have hne : ¬ ((e.eid == x) = true) := by
        intro hbe
        apply hdet2
        rw [← eq_of_beq hbe]
        exact List.mem_map_of_mem ElemData.eid he
      exact if_neg hne
    · have hfx : ∀ p ∈ fr,
          (p.1, mapF (fun e => if (e.eid == x) = true then g e else e) p.2)
            = p := by
        intro p hp
        have hm : mapF (fun e => if (e.eid == x) = true then g e else e)
            p.2 = p.2 := by
          apply mapF_congr_id
          intro e he
          have hne : ¬ ((e.eid == x) = true) := by
            intro hbe
            apply hfr2
            rw [← eq_of_beq hbe]
            apply List.mem_map_of_mem
            exact List.mem_flatMap.mpr ⟨p, hp, he⟩
          exact if_neg hne
        rw [hm]
      exact (List.map_congr_left hfx).trans (List.map_id _)

/-- The tagging stage of `enterPaneFullscreen`, as a body-forest map. -/
theorem updData_tag (d : Dom) (x : Nat) (ty : SKind)
    (hbo : (d.bodyData.eid == x) = false)
    (hdet : x ∉ idsF d.detached)
    (hfr : x ∉ (framesData d.frames).map ElemData.eid) :
    updData d x (fun e =>
      { e with className := classListAdd e.className (markerClassOf ty) }) =
      withBody d (mapF (tagFn x ty) d.bodyKids) := by
  rw [updData_off d x _ hbo hdet hfr]
  rfl

/-- The record-restoring stage of `restoreElementState`, as a
body-forest map. -/
theorem updData_restore (d : Dom) (x : Nat) (st : SavedState)
    (hbo : (d.bodyData.eid == x) = false)
    (hdet : x ∉ idsF d.detached)
    (hfr : x ∉ (framesData d.frames).map ElemData.eid) :
    updData d x (fun e =>
      { e with styleAttr := some st.style,
               className := st.className.filter
                 (fun c => !(markerClasses.contains c)) }) =
      withBody d (mapF (restoreFn x st) d.bodyKids) := by
  rw [updData_off d x _ hbo hdet hfr]
  rfl

/-- The tagging update preserves ids. -/
theorem tagFn_eid (x : Nat) (ty : SKind) :
    ∀ e, (tagFn x ty e).eid = e.eid := by
  intro e
  unfold tagFn
  by_cases hbe : (e.eid == x) = true
  · rw [if_pos hbe]
  · rw [if_neg hbe]

/-- The restoring update preserves ids. -/
theorem restoreFn_eid (x : Nat) (st : SavedState) :
    ∀ e, (restoreFn x st e).eid = e.eid := by
  intro e
  unfold restoreFn
  by_cases hbe : (e.eid == x) = true
  · rw [if_pos hbe]
  · rw [if_neg hbe]

/-- The tagging update fixes the fresh overlay subtree. -/
theorem mapN_tag_overlayTree (x : Nat) (ty : SKind) (n : Nat)
    (hx : x < n) :
    mapN (tagFn x ty) (overlayTree n) = overlayTree n := by
  unfold tagFn
  exact mapH_overlayTree _ n x hx

/-- The restoring update passes through the holding overlay to the
hosted subtree. -/
theorem mapN_restore_ovHold (x : Nat) (st : SavedState) (n : Nat)
    (hx : x < n) (u : DNode) :
    mapN (restoreFn x st) (ovHold n u) =
      ovHold n (mapN (restoreFn x st) u) := by
  unfold restoreFn
  exact mapH_ovHold _ n x hx u

/-- Parent and next-sibling queries of a body-resident node depend only
on the body part of the store. -/
theorem queries_body (d d2 : Dom) (x : Nat)
    (hk : d2.bodyKids = d.bodyKids) (hb : d2.bodyData = d.bodyData)
    (hx : x ∈ idsF d.bodyKids) (hbx : (x == d.bodyData.eid) = false) :
    parentElementOf d2 x = parentElementOf d x ∧
    nextSiblingOf d2 x = nextSiblingOf d x := by
  have hp : (pFindF x d.bodyKids).isSome = true :=
    (pFindF_isSome_iff x d.bodyKids).mpr hx
  have hn : (nsFindF x d.bodyKids).isSome = true :=
    (nsFindF_isSome_iff x d.bodyKids).mpr hx
  have hne : ¬ ((x == d.bodyData.eid) = true) := by
    rw [hbx]
    exact Bool.false_ne_true
  constructor
  · unfold parentElementOf
    rw [hk, hb, if_neg hne, if_neg hne]
    cases hq : pFindF x d.bodyKids with
    | none =>
      rw [hq] at hp
      simp at hp
    | some w => cases w <;> rfl
  · unfold nextSiblingOf
    rw [hk]
    cases hq : nsFindF x d.bodyKids with
    | none =>
      rw [hq] at hn
      simp at hn
    | some r => rfl

/-- The active exit path: restore from the snapshot, then drop the
overlay and clear the session state. -/
theorem exit_of_session (S : PF) (x : Nat) (st : SavedState)
    (hA : S.isActive = true) (hcur : S.currentElement = some x)
    (hsnap : S.originalElementState = some st) :
    exitPaneFullscreen S =
      clearedState { S with dom := restoreElementState S.dom x st } := by
  unfold exitPaneFullscreen clearedState
  rw [if_neg (by rw [hA]; simp), hcur, hsnap]

/-- `enterPaneFullscreen` on a clean inactive state reaches exactly the
session state: the chosen subtree is tagged with its kind's marker class
and moved into the fresh overlay's container, the overlay appended after
the remaining body children. -/
theorem enter_session_shape (t : PF) (x : Nat) (ty : SKind)
    (hact : t.isActive = false)
    (hnd : (allIds t.dom).Nodup)
    (hbound : ∀ i ∈ allIds t.dom, i < t.nextId)
    (hx : x ∈ idsF t.dom.bodyKids)
    (hc0 : countIdF OVERLAY_ID t.dom.bodyKids = 0)
    (u0 : DNode) (k1 : DForest)
    (hext : extractF x t.dom.bodyKids = (some u0, k1)) :
    (enterPaneFullscreen (some x) ty t).2 = sessionState t x ty u0 k1 := by
  have hIds := allIds_eq t.dom
  have hnd2 := hnd
  rw [hIds] at hnd2
  have hbodyne : ¬ t.dom.bodyData.eid = x := by
    intro hh
    apply (List.nodup_cons.mp hnd2).1
    rw [hh]
    exact List.mem_append_left _ (List.mem_append_left _ hx)
  have hbx : (t.dom.bodyData.eid == x) = false := by
    cases hbq : (t.dom.bodyData.eid == x) with
    | false => rfl
    | true => exact absurd (eq_of_beq hbq) hbodyne
  have hndtail := (List.nodup_cons.mp hnd2).2
  obtain ⟨hnd12, hndfr, hdisj2⟩ := List.nodup_append.mp hndtail
  obtain ⟨hndbk, hnddet, hdisj1⟩ := List.nodup_append.mp hnd12
  have hdet : x ∉ idsF t.dom.detached := fun hc => hdisj1 hx hc
  have hfrx : x ∉ (framesData t.dom.frames).map ElemData.eid :=
    fun hc => hdisj2 (List.mem_append_left _ hx) hc
  have hxlt : x < t.nextId := hbound x (by
    rw [hIds]
    exact List.mem_cons_of_mem _ (List.mem_append_left _
      (List.mem_append_left _ hx)))
  have hidsperm := extract_ids_perm hext
  have hndsplit : (idsN u0 ++ idsF k1).Nodup := hidsperm.nodup_iff.mp hndbk
  have hu0eid := extractF_eid x t.dom.bodyKids u0 k1 hext
  have hxu : x ∈ idsN u0 := by
    cases u0 with
    | node e0 kk =>
      rw [idsN_node]
      rw [show (DNode.node e0 kk).data = e0 from rfl] at hu0eid
      rw [← hu0eid]
      exact List.mem_cons_self _ _
  have hxk1 : x ∉ idsF k1 := fun hc =>
    (List.nodup_append.mp hndsplit).2.2 hxu hc
  have hk1sub : ∀ i ∈ idsF k1, i ∈ idsF t.dom.bodyKids := fun i hi =>
    hidsperm.symm.subset (List.mem_append_right _ hi)
  have hnp1 : (t.nextId + 1) ∉ idsF k1 := by
    intro hc
    have h1 := hbound (t.nextId + 1) (by
      rw [hIds]
      exact List.mem_cons_of_mem _ (List.mem_append_left _
        (List.mem_append_left _ (hk1sub _ hc))))
    omega
  have hC := createOverlay_eq (enterSnap x t) hc0
  have hCd : (createOverlay (enterSnap x t)).dom = withBody t.dom
      (insertBeforeRef none (overlayTree t.nextId) t.dom.bodyKids) := by
    rw [hC]
    rfl
  have hCec : (createOverlay (enterSnap x t)).elementContainer =
      some (t.nextId + 1) := by
    rw [hC]
    rfl
  have hEdom : (enterPaneFullscreen (some x) ty t).2.dom =
      moveNode (updData (createOverlay (enterSnap x t)).dom x (fun e =>
        { e with className := classListAdd e.className (markerClassOf ty) }))
        x (t.nextId + 1) none := by
    rw [enter_eq t x ty hact]
    show moveNode (updData (createOverlay (enterSnap x t)).dom x (fun e =>
        { e with className := classListAdd e.className (markerClassOf ty) }))
      x ((createOverlay (enterSnap x t)).elementContainer.getD 0) none = _
    rw [hCec]
    rfl
  have hupd : updData (createOverlay (enterSnap x t)).dom x (fun e =>
      { e with className := classListAdd e.className (markerClassOf ty) }) =
      withBody t.dom (insertBeforeRef none (overlayTree t.nextId)
        (mapF (tagFn x ty) t.dom.bodyKids)) := by
    rw [hCd, updData_tag (withBody t.dom (insertBeforeRef none
      (overlayTree t.nextId) t.dom.bodyKids)) x ty hbx hdet hfrx]
    rw [show (withBody t.dom (insertBeforeRef none (overlayTree t.nextId)
      t.dom.bodyKids)).bodyKids = insertBeforeRef none (overlayTree t.nextId)
      t.dom.bodyKids from rfl]
    rw [mapF_insertBeforeRef _ (tagFn_eid x ty) none _ t.dom.bodyKids,
      mapN_tag_overlayTree x ty t.nextId hxlt]
    rfl
  have hex2 : extractF x (mapF (tagFn x ty) t.dom.bodyKids) =
      (some (mapN (tagFn x ty) u0), mapF (tagFn x ty) k1) := by
    rw [extractF_mapF x _ (tagFn_eid x ty) t.dom.bodyKids, hext]
    rfl
  have hk1map : mapF (tagFn x ty) k1 = k1 := by
    apply mapF_congr_id
    intro e he
    have hne : ¬ ((e.eid == x) = true) := by
      intro hbe
      apply hxk1
      rw [← eq_of_beq hbe]
      exact List.mem_map_of_mem ElemData.eid he
    unfold tagFn
    exact if_neg hne
  have hex3 : extractF x (insertBeforeRef none (overlayTree t.nextId)
      (mapF (tagFn x ty) t.dom.bodyKids)) = (some (mapN (tagFn x ty) u0),
      insertBeforeRef none (overlayTree t.nextId) k1) := by
    rw [extractF_append x _ _ _ _ hex2, hk1map]
  have hbblt : t.dom.bodyData.eid < t.nextId := hbound _ (by
    rw [hIds]
    exact List.mem_cons_self _ _)
  have hpb : ¬ (((t.nextId + 1) == t.dom.bodyData.eid) = true) := by
    intro hbq
    have h2 := eq_of_beq hbq
    omega
  have hmove : moveNode (withBody t.dom (insertBeforeRef none
      (overlayTree t.nextId) (mapF (tagFn x ty) t.dom.bodyKids))) x
      (t.nextId + 1) none = withBody t.dom (insertBeforeRef none
      (ovHold t.nextId (mapN (tagFn x ty) u0)) k1) := by
    unfold moveNode
    have hdx : domExtract (withBody t.dom (insertBeforeRef none
        (overlayTree t.nextId) (mapF (tagFn x ty) t.dom.bodyKids))) x =
        (some (mapN (tagFn x ty) u0), withBody t.dom (insertBeforeRef
          none (overlayTree t.nextId) k1)) := by
      unfold domExtract
      rw [show (withBody t.dom (insertBeforeRef none (overlayTree t.nextId)
        (mapF (tagFn x ty) t.dom.bodyKids))).bodyKids = insertBeforeRef none
        (overlayTree t.nextId) (mapF (tagFn x ty) t.dom.bodyKids) from rfl]
      rw [hex3]
      rfl
    rw [hdx]
    show domInsert (withBody t.dom (insertBeforeRef none
      (overlayTree t.nextId) k1)) (t.nextId + 1) none
      (mapN (tagFn x ty) u0) = _
    exact domInsert_inbody (withBody t.dom (insertBeforeRef none
        (overlayTree t.nextId) k1)) (t.nextId + 1) none
      (mapN (tagFn x ty) u0) hpb
      (insertBeforeRef none (ovHold t.nextId (mapN (tagFn x ty) u0)) k1)
      (insUF_append_hit (t.nextId + 1) none _ k1 (overlayTree t.nextId)
        (ovHold t.nextId (mapN (tagFn x ty) u0)) hnp1
        (insUN_overlayTree t.nextId _))
  have hEdom2 : (enterPaneFullscreen (some x) ty t).2.dom =
      withBody t.dom (insertBeforeRef none
        (ovHold t.nextId (mapN (tagFn x ty) u0)) k1) := by
    rw [hEdom, hupd, hmove]
  have hEflags : (enterPaneFullscreen (some x) ty t).2.isActive = true ∧
      (enterPaneFullscreen (some x) ty t).2.currentElement = some x ∧
      (enterPaneFullscreen (some x) ty t).2.overlay = some t.nextId ∧
      (enterPaneFullscreen (some x) ty t).2.elementContainer =
        some (t.nextId + 1) ∧
      (enterPaneFullscreen (some x) ty t).2.originalElementState =
        some (saveElementState t.dom x) ∧
      (enterPaneFullscreen (some x) ty t).2.selectMode = t.selectMode ∧
      (enterPaneFullscreen (some x) ty t).2.nextId = t.nextId + 4 := by
    rw [enter_eq t x ty hact]
    exact ⟨rfl, rfl, rfl, rfl, rfl, rfl, rfl⟩
  exact PF_ext _ _ hEdom2 hEflags.1 hEflags.2.1 hEflags.2.2.1
    hEflags.2.2.2.1 hEflags.2.2.2.2.1 hEflags.2.2.2.2.2.1
    hEflags.2.2.2.2.2.2

/-- The session round trip: exiting the session that
`enterPaneFullscreen` built from a clean inactive state (unique ids, all
ids below the fresh counter, the chosen node a body descendant with an
inline style and no marker classes, no overlay present) restores the
document verbatim — every node, the relocated element included, returns
to its pre-session parent, sibling position, style attribute and class
list — and parks the discarded overlay subtree in the detached store. -/
theorem session_round_trip (t : PF) (x : Nat) (ty : SKind)
    (hact : t.isActive = false)
    (hnd : (allIds t.dom).Nodup)
    (hbound : ∀ i ∈ allIds t.dom, i < t.nextId)
    (hx : x ∈ idsF t.dom.bodyKids)
    (hc0 : countIdF OVERLAY_ID t.dom.bodyKids = 0)
    (hok : ∀ e ∈ allData t.dom, e.eid = x →
      e.styleAttr.isSome = true ∧ ∀ c ∈ e.className, c ∉ markerClasses) :
    exitPaneFullscreen (enterPaneFullscreen (some x) ty t).2 =
      { t with
        dom := { t.dom with
          detached := insertBeforeRef none (overlayTree t.nextId)
            t.dom.detached }
        isActive := false
        currentElement := none
        overlay := none
        elementContainer := none
        originalElementState := none
        nextId := t.nextId + 4 } := by
  have hexS : ∃ u k', extractF x t.dom.bodyKids = (some u, k') := by
    have hS := (extractF_isSome_iff x t.dom.bodyKids).mpr hx
    cases hq : extractF x t.dom.bodyKids with
    | mk o k' =>
      cases o with
      | none => rw [hq] at hS; simp at hS
      | some u => exact ⟨u, k', rfl⟩
  obtain ⟨u0, k1, hext⟩ := hexS
  rw [enter_session_shape t x ty hact hnd hbound hx hc0 u0 k1 hext]
  rw [exit_of_session (sessionState t x ty u0 k1) x
    (saveElementState t.dom x) rfl rfl rfl]
  have hIds := allIds_eq t.dom
  have hnd2 := hnd
  rw [hIds] at hnd2
  have hbodyne : ¬ t.dom.bodyData.eid = x := by
    intro hh
    apply (List.nodup_cons.mp hnd2).1
    rw [hh]
    exact List.mem_append_left _ (List.mem_append_left _ hx)
  have hbx : (t.dom.bodyData.eid == x) = false := by
    cases hbq : (t.dom.bodyData.eid == x) with
    | false => rfl
    | true => exact absurd (eq_of_beq hbq) hbodyne
  have hxb2 : (x == t.dom.bodyData.eid) = false := by
    cases hb : (x == t.dom.bodyData.eid) with
    | false => rfl
    | true => exact absurd (eq_of_beq hb).symm hbodyne
  have hndtail := (List.nodup_cons.mp hnd2).2
  obtain ⟨hnd12, hndfr, hdisj2⟩ := List.nodup_append.mp hndtail
  obtain ⟨hndbk, hnddet, hdisj1⟩ := List.nodup_append.mp hnd12
  have hdet : x ∉ idsF t.dom.detached := fun hc => hdisj1 hx hc
  have hfrx : x ∉ (framesData t.dom.frames).map ElemData.eid :=
    fun hc => hdisj2 (List.mem_append_left _ hx) hc
  have hxlt : x < t.nextId := hbound x (by
    rw [hIds]
    exact List.mem_cons_of_mem _ (List.mem_append_left _
      (List.mem_append_left _ hx)))
  have hidsperm := extract_ids_perm hext
  have hndsplit : (idsN u0 ++ idsF k1).Nodup := hidsperm.nodup_iff.mp hndbk
  have hu0eid := extractF_eid x t.dom.bodyKids u0 k1 hext
  have hxu : x ∈ idsN u0 := by
    cases u0 with
    | node e0 kk =>
      rw [idsN_node]
      rw [show (DNode.node e0 kk).data = e0 from rfl] at hu0eid
      rw [← hu0eid]
      exact List.mem_cons_self _ _
  have hxk1 : x ∉ idsF k1 := fun hc =>
    (List.nodup_append.mp hndsplit).2.2 hxu hc
  have RT := reinsertF x t.dom.bodyKids u0 k1 hndbk hext
  obtain ⟨e0, hlook, he0bk, he0eid⟩ := lookupData_body_mem t.dom x
    hbodyne hx
  have he0all : e0 ∈ allData t.dom := List.mem_cons_of_mem _
    (List.mem_append_left _ (List.mem_append_left _ he0bk))
  obtain ⟨hsty, hcls⟩ := hok e0 he0all he0eid
  obtain ⟨v, hv⟩ := Option.isSome_iff_exists.mp hsty
  have hstyle : (saveElementState t.dom x).style = v := by
    unfold saveElementState
    rw [hlook]
    simp [hv]
  have hclsEq : (saveElementState t.dom x).className = e0.className := by
    unfold saveElementState
    rw [hlook]
    simp
  have hk1map2 : mapF (restoreFn x (saveElementState t.dom x)) k1 = k1 := by
    apply mapF_congr_id
    intro e he
    have hne : ¬ ((e.eid == x) = true) := by
      intro hbe
      apply hxk1
      rw [← eq_of_beq hbe]
      exact List.mem_map_of_mem ElemData.eid he
    unfold restoreFn
    exact if_neg hne
  have hmapu0 : mapN (restoreFn x (saveElementState t.dom x))
      (mapN (tagFn x ty) u0) = u0 := by
    rw [mapN_comp]
    apply mapN_congr_id
    intro e he
    show restoreFn x (saveElementState t.dom x) (tagFn x ty e) = e
    have heall : e ∈ allData t.dom := by
      have h1 : e ∈ dataF t.dom.bodyKids :=
        (extractF_perm x t.dom.bodyKids u0 k1 hext).symm.subset
          (List.mem_append_left _ he)
      exact List.mem_cons_of_mem _ (List.mem_append_left _
        (List.mem_append_left _ h1))
    by_cases hbe : (e.eid == x) = true
    · have hee : e = e0 := allEid_unique t.dom hnd e heall e0 he0all
        (by rw [eq_of_beq hbe, he0eid])
      simp only [tagFn, restoreFn]
      rw [if_pos hbe]
      rw [if_pos (show (({ e with className := classListAdd e.className (markerClassOf ty) } : ElemData).eid == x) = true from hbe)]
      show ({ e with
        styleAttr := some (saveElementState t.dom x).style
        className := (saveElementState t.dom x).className.filter
          (fun c => !(markerClasses.contains c)) } : ElemData) = e
      rw [hee, hstyle, hclsEq]
      have hfilter : e0.className.filter
          (fun c => !(markerClasses.contains c)) = e0.className := by
        rw [List.filter_eq_self]
        intro c hc
        simp [hcls c hc]
      rw [hfilter, ← hv]
    · simp only [tagFn, restoreFn]
      rw [if_neg hbe]
      rw [if_neg hbe]
  have hd1 : updData (sessionState t x ty u0 k1).dom x (fun e =>
      { e with styleAttr := some (saveElementState t.dom x).style,
               className := (saveElementState t.dom x).className.filter
                 (fun c => !(markerClasses.contains c)) }) =
      withBody t.dom (insertBeforeRef none (ovHold t.nextId u0) k1) := by
    rw [show (sessionState t x ty u0 k1).dom = withBody t.dom
      (insertBeforeRef none (ovHold t.nextId (mapN (tagFn x ty) u0)) k1)
      from rfl]
    rw [updData_restore (withBody t.dom (insertBeforeRef none
      (ovHold t.nextId (mapN (tagFn x ty) u0)) k1)) x
      (saveElementState t.dom x) hbx hdet hfrx]
    rw [show (withBody t.dom (insertBeforeRef none (ovHold t.nextId
      (mapN (tagFn x ty) u0)) k1)).bodyKids = insertBeforeRef none
      (ovHold t.nextId (mapN (tagFn x ty) u0)) k1 from rfl]
    rw [mapF_insertBeforeRef _ (restoreFn_eid x (saveElementState t.dom x))
      none _ k1]
    rw [mapN_restore_ovHold x (saveElementState t.dom x) t.nextId hxlt]
    rw [hk1map2, hmapu0]
    rfl
  have hovne : ((ovHold t.nextId u0).data.eid == x) = false := by
    show (t.nextId == x) = false
    cases hb : (t.nextId == x) with
    | false => rfl
    | true => exact absurd (eq_of_beq hb) (by omega)
  have hu0beq : (u0.data.eid == x) = true := by
    rw [hu0eid]
    exact beq_self_eq_true x
  have hdx2 : domExtract (withBody t.dom (insertBeforeRef none
      (ovHold t.nextId u0) k1)) x = (some u0, withBody t.dom
      (insertBeforeRef none (overlayTree t.nextId) k1)) := by
    unfold domExtract
    rw [show (withBody t.dom (insertBeforeRef none (ovHold t.nextId u0)
      k1)).bodyKids = insertBeforeRef none (ovHold t.nextId u0) k1
      from rfl]
    rw [extractF_append_hit x k1 (ovHold t.nextId u0) u0
      (overlayTree t.nextId) hxk1 hovne
      (extractN_ovHold t.nextId x u0 hu0beq hxlt)]
    rfl
  have hnsS : ∃ r, nsFindF x t.dom.bodyKids = some r := by
    have hS := (nsFindF_isSome_iff x t.dom.bodyKids).mpr hx
    cases hq : nsFindF x t.dom.bodyKids with
    | none => rw [hq] at hS; simp at hS
    | some r => exact ⟨r, rfl⟩
  obtain ⟨r, hnsf⟩ := hnsS
  have hnso : (saveElementState t.dom x).nextSibling = r := by
    rw [saveElementState_nextSibling]
    unfold nextSiblingOf
    simp only [hnsf]
  have hu0c : countIdN OVERLAY_ID u0 = 0 := by
    have h1 := countIdN_le_of_extract OVERLAY_ID hext
    omega
  have hk1c : countIdF OVERLAY_ID k1 = 0 := by
    have h1 := countIdF_extract OVERLAY_ID hext
    omega
  have hovattr : ((overlayTree t.nextId).data.idAttr == some OVERLAY_ID)
      = true := by
    show ((some OVERLAY_ID : Option String) == some OVERLAY_ID) = true
    exact beq_self_eq_true _
  cases hpf : pFindF x t.dom.bodyKids with
  | none =>
    exact absurd ((pFindF_isSome_iff x t.dom.bodyKids).mpr hx)
      (by rw [hpf]; simp)
  | some w =>
    cases w with
    | none =>
      have hparent : (saveElementState t.dom x).parent =
          some t.dom.bodyData.eid := by
        rw [saveElementState_parent]
        unfold parentElementOf
        simp only [hxb2, Bool.false_eq_true, if_false, hpf]
      have hre : restoreElementState (sessionState t x ty u0 k1).dom x
          (saveElementState t.dom x) = moveNode (withBody t.dom
          (insertBeforeRef none (ovHold t.nextId u0) k1)) x
          t.dom.bodyData.eid r := by
        unfold restoreElementState
        simp only [hd1, hparent, hnso]
      have hmv : moveNode (withBody t.dom (insertBeforeRef none
          (ovHold t.nextId u0) k1)) x t.dom.bodyData.eid r =
          withBody t.dom (insertBeforeRef r u0 (insertBeforeRef none
          (overlayTree t.nextId) k1)) := by
        unfold moveNode
        rw [hdx2]
        show domInsert (withBody t.dom (insertBeforeRef none
          (overlayTree t.nextId) k1)) t.dom.bodyData.eid r u0 = _
        rw [domInsert_body (withBody t.dom (insertBeforeRef none
          (overlayTree t.nextId) k1)) t.dom.bodyData.eid r u0
          (beq_self_eq_true t.dom.bodyData.eid)]
        rfl
      rw [hre, hmv]
      have hrr : ∀ rr, r = some rr →
          ((overlayTree t.nextId).data.eid == rr) = false := by
        intro rr hrrr
        have hrmem : rr ∈ idsF t.dom.bodyKids :=
          nsFindF_mem x t.dom.bodyKids rr (by rw [← hrrr]; exact hnsf)
        have hrlt : rr < t.nextId := hbound rr (by
          rw [hIds]
          exact List.mem_cons_of_mem _ (List.mem_append_left _
            (List.mem_append_left _ hrmem)))
        show (t.nextId == rr) = false
        cases hb : (t.nextId == rr) with
        | false => rfl
        | true => exact absurd (eq_of_beq hb) (by omega)
      have hrem : remIdF OVERLAY_ID (insertBeforeRef r u0 (insertBeforeRef
          none (overlayTree t.nextId) k1)) = (some (overlayTree t.nextId),
          insertBeforeRef r u0 k1) :=
        remIdF_insert_around OVERLAY_ID r u0 (overlayTree t.nextId) k1
          hu0c hk1c hovattr hrr
      refine PF_ext _ _ ?_ rfl rfl rfl rfl rfl rfl rfl
      show (removeOverlay { sessionState t x ty u0 k1 with
        dom := withBody t.dom (insertBeforeRef r u0 (insertBeforeRef none
          (overlayTree t.nextId) k1)) }).dom = _
      unfold removeOverlay
      rw [show ({ sessionState t x ty u0 k1 with
        dom := withBody t.dom (insertBeforeRef r u0 (insertBeforeRef none
          (overlayTree t.nextId) k1)) } : PF).dom.bodyKids =
        insertBeforeRef r u0 (insertBeforeRef none (overlayTree t.nextId)
          k1) from rfl]
      rw [hrem, RT.1 r hpf hnsf]
      rfl
    | some p =>
      have hparent : (saveElementState t.dom x).parent = some p := by
        rw [saveElementState_parent]
        unfold parentElementOf
        simp only [hxb2, Bool.false_eq_true, if_false, hpf]
      have hpmem : p ∈ idsF t.dom.bodyKids := pFindF_mem x t.dom.bodyKids
        p hpf
      have hpb : ¬ ((p == t.dom.bodyData.eid) = true) := by
        intro hb
        apply (List.nodup_cons.mp hnd2).1
        rw [← eq_of_beq hb]
        exact List.mem_append_left _ (List.mem_append_left _ hpmem)
      have hre : restoreElementState (sessionState t x ty u0 k1).dom x
          (saveElementState t.dom x) = moveNode (withBody t.dom
          (insertBeforeRef none (ovHold t.nextId u0) k1)) x p r := by
        unfold restoreElementState
        simp only [hd1, hparent, hnso]
      have hins2 : insUF p r u0 (insertBeforeRef none (overlayTree
          t.nextId) k1) = (insertBeforeRef none (overlayTree t.nextId)
          t.dom.bodyKids, true) :=
        insUF_append_left p r u0 k1 t.dom.bodyKids (overlayTree t.nextId)
          (RT.2 p r hpf hnsf)
      have hmv : moveNode (withBody t.dom (insertBeforeRef none
          (ovHold t.nextId u0) k1)) x p r = withBody t.dom
          (insertBeforeRef none (overlayTree t.nextId) t.dom.bodyKids) := by
        unfold moveNode
        rw [hdx2]
        show domInsert (withBody t.dom (insertBeforeRef none
          (overlayTree t.nextId) k1)) p r u0 = _
        exact domInsert_inbody (withBody t.dom (insertBeforeRef none
          (overlayTree t.nextId) k1)) p r u0 hpb
          (insertBeforeRef none (overlayTree t.nextId) t.dom.bodyKids)
          hins2
      rw [hre, hmv]
      have hrem : remIdF OVERLAY_ID (insertBeforeRef none (overlayTree
          t.nextId) t.dom.bodyKids) = (some (overlayTree t.nextId),
          t.dom.bodyKids) :=
        remIdF_append_hit OVERLAY_ID t.dom.bodyKids (overlayTree t.nextId)
          hc0 hovattr
      refine PF_ext _ _ ?_ rfl rfl rfl rfl rfl rfl rfl
      show (removeOverlay { sessionState t x ty u0 k1 with
        dom := withBody t.dom (insertBeforeRef none (overlayTree t.nextId)
          t.dom.bodyKids) }).dom = _
      unfold removeOverlay
      rw [show ({ sessionState t x ty u0 k1 with
        dom := withBody t.dom (insertBeforeRef none (overlayTree t.nextId)
          t.dom.bodyKids) } : PF).dom.bodyKids =
        insertBeforeRef none (overlayTree t.nextId) t.dom.bodyKids
        from rfl]
      rw [hrem]
      rfl

/-- Exit writes the snapshot's style attribute and marker-stripped class
list onto the relocated node's record. -/
theorem exit_restores_record (s : PF) (x : Nat) (st : SavedState)
    (hAct : s.isActive = true) (hcur : s.currentElement = some x)
    (hsnap : s.originalElementState = some st) :
    ∀ e ∈ allData (exitPaneFullscreen s).dom, e.eid = x →
      e.styleAttr = some st.style ∧
      e.className = st.className.filter
        (fun c => !(markerClasses.contains c)) := by
  intro e he heid
  have hE : exitPaneFullscreen s =
      clearedState { s with dom := restoreElementState s.dom x st } := by
    unfold exitPaneFullscreen clearedState
    rw [if_neg (by rw [hAct]; simp), hcur, hsnap]
  rw [hE] at he
  have hro := removeOverlay_allData_perm
    { s with dom := restoreElementState s.dom x st }
  have he2 : e ∈ allData (restoreElementState s.dom x st) := hro.subset he
  have hupd := allData_updData s.dom x (fun e =>
    { e with styleAttr := some st.style,
             className := st.className.filter
               (fun c => !(markerClasses.contains c)) })
  have he3 : e ∈ (allData s.dom).map (fun e =>
      if (e.eid == x) = true then
        ({ e with styleAttr := some st.style,
                  className := st.className.filter
                    (fun c => !(markerClasses.contains c)) } : ElemData)
      else e) := by
    cases hp : st.parent with
    | none =>
      have hre : restoreElementState s.dom x st = updData s.dom x (fun e =>
          { e with styleAttr := some st.style,
                   className := st.className.filter
                     (fun c => !(markerClasses.contains c)) }) := by
        unfold restoreElementState
        rw [hp]
      rw [hre, hupd] at he2
      exact he2
    | some p =>
      have hre : restoreElementState s.dom x st =
          moveNode (updData s.dom x (fun e =>
            { e with styleAttr := some st.style,
                     className := st.className.filter
                       (fun c => !(markerClasses.contains c)) }))
            x p st.nextSibling := by
        unfold restoreElementState
        rw [hp]
      rw [hre] at he2
      have hmm := (moveNode_perm (updData s.dom x (fun e =>
        { e with styleAttr := some st.style,
                 className := st.className.filter
                   (fun c => !(markerClasses.contains c)) }))
        x p st.nextSibling).subset he2
      rw [hupd] at hmm
      exact hmm
  obtain ⟨e0, he0, heq⟩ := List.mem_map.mp he3
  by_cases hbe : (e0.eid == x) = true
  · rw [if_pos hbe] at heq
    rw [← heq]
    exact ⟨rfl, rfl⟩
  · rw [if_neg hbe] at heq
    exfalso
    rw [← heq] at heid
    exact hbe (by rw [heid]; exact beq_self_eq_true x)

/-- Claim C5: entering while a session is active first fully exits the
existing session before any DOM mutation for the new session (the
re-entrant call factors through `exitPaneFullscreen`, first conjunct);
the exit restores the relocated node per its snapshot: its record gets
the snapshot's style attribute and marker-stripped class list (second
conjunct), and for a session entered on a clean document the exit
returns the whole document verbatim to its pre-session state — the
relocated node back under its recorded parent at its recorded sibling
position, with `parentElementOf` and `nextSiblingOf` again reporting
exactly the snapshot's parent and next sibling, and the discarded
overlay subtree parked detached (third conjunct); afterwards exactly
one overlay element is present in the document; and no reachable state
ever holds two overlays. -/
theorem C5_single_overlay :
    (∀ (s : PF) (x : Nat) (ty : SKind), s.isActive = true →
      enterPaneFullscreen (some x) ty s =
        enterPaneFullscreen (some x) ty (exitPaneFullscreen s)) ∧
    (∀ (s : PF) (x : Nat) (st : SavedState), s.isActive = true →
      s.currentElement = some x → s.originalElementState = some st →
      ∀ e ∈ allData (exitPaneFullscreen s).dom, e.eid = x →
        e.styleAttr = some st.style ∧
        e.className = st.className.filter
          (fun c => !(markerClasses.contains c))) ∧
    (∀ (t : PF) (x : Nat) (ty : SKind),
      t.isActive = false → (allIds t.dom).Nodup →
      (∀ i ∈ allIds t.dom, i < t.nextId) →
      x ∈ idsF t.dom.bodyKids →
      countIdF OVERLAY_ID t.dom.bodyKids = 0 →
      (∀ e ∈ allData t.dom, e.eid = x →
        e.styleAttr.isSome = true ∧ ∀ c ∈ e.className, c ∉ markerClasses) →
      exitPaneFullscreen (enterPaneFullscreen (some x) ty t).2 =
        { t with
          dom := { t.dom with
            detached := insertBeforeRef none (overlayTree t.nextId)
              t.dom.detached }
          isActive := false
          currentElement := none
          overlay := none
          elementContainer := none
          originalElementState := none
          nextId := t.nextId + 4 } ∧
      parentElementOf
          (exitPaneFullscreen (enterPaneFullscreen (some x) ty t).2).dom x =
        (saveElementState t.dom x).parent ∧
      nextSiblingOf
          (exitPaneFullscreen (enterPaneFullscreen (some x) ty t).2).dom x =
        (saveElementState t.dom x).nextSibling) ∧
    (∀ (s : PF) (x : Nat) (ty : SKind), PFInv s → x ∈ allIds s.dom →
      IdFact s.dom x →
      overlaysInDocument (enterPaneFullscreen (some x) ty s).2 = 1) ∧
    (∀ s : PF, PFReach s → overlaysInDocument s ≤ 1) := by
  refine ⟨fun s x ty hA => enter_exit_factor s x ty hA,
    fun s x st h1 h2 h3 => exit_restores_record s x st h1 h2 h3,
    ?_, ?_, ?_⟩
  · intro t x ty h1 h2 h3 h4 h5 h6
    have hRT := session_round_trip t x ty h1 h2 h3 h4 h5 h6
    have hbodyne : ¬ t.dom.bodyData.eid = x := by
      intro hh
      have hnd2 := h2
      rw [allIds_eq t.dom] at hnd2
      apply (List.nodup_cons.mp hnd2).1
      rw [hh]
      exact List.mem_append_left _ (List.mem_append_left _ h4)
    have hxb2 : (x == t.dom.bodyData.eid) = false := by
      cases hb : (x == t.dom.bodyData.eid) with
      | false => rfl
      | true => exact absurd (eq_of_beq hb).symm hbodyne
    refine ⟨hRT, ?_, ?_⟩
    · rw [hRT, saveElementState_parent]
      exact (queries_body t.dom { t.dom with
        detached := insertBeforeRef none (overlayTree t.nextId)
          t.dom.detached } x rfl rfl h4 hxb2).1
    · rw [hRT, saveElementState_nextSibling]
      exact (queries_body t.dom { t.dom with
        detached := insertBeforeRef none (overlayTree t.nextId)
          t.dom.detached } x rfl rfl h4 hxb2).2
  · intro s x ty hinv hx hid
    obtain ⟨hI, hact, -⟩ := enter_inv s x ty hinv hx hid
    exact (hI.activeOv hact).1
  · intro s hr
    have hI := reach_inv hr
    by_cases hA : s.isActive = true
    · have hc := (hI.activeOv hA).1
      unfold overlaysInDocument
      omega
    · have hA' : s.isActive = false := by
        cases hB : s.isActive with
        | false => rfl
        | true => exact absurd hB hA
      have hc := hI.inactiveOv hA'
      unfold overlaysInDocument
      omega

/-- Claim C5 witness: re-entrancy at a concrete active session, a
concrete restored record, a concrete enter-then-exit document round
trip with the restored parent and sibling queries, one overlay after a
concrete enter, and the overlay bound at a concrete reachable state. -/
theorem C5_witness :
    (enterPaneFullscreen (some 5) SKind.video exC10PF =
      enterPaneFullscreen (some 5) SKind.video
        (exitPaneFullscreen exC10PF)) ∧
    (({ defaultElem with eid := 5, tag := Tag.div, styleAttr := some "" }
        : ElemData) ∈ allData (exitPaneFullscreen exC10PF).dom ∧
      ({ defaultElem with eid := 5, tag := Tag.div, styleAttr := some "" }
        : ElemData).styleAttr = some exC10St.style ∧
      ({ defaultElem with eid := 5, tag := Tag.div, styleAttr := some "" }
        : ElemData).className = exC10St.className.filter
          (fun c => !(markerClasses.contains c))) ∧
    (exitPaneFullscreen (enterPaneFullscreen (some 1) SKind.video
        exC5Enter).2 =
      { exC5Enter with
        dom := { exC5Enter.dom with
          detached := insertBeforeRef none (overlayTree exC5Enter.nextId)
            exC5Enter.dom.detached }
        isActive := false
        currentElement := none
        overlay := none
        elementContainer := none
        originalElementState := none
        nextId := exC5Enter.nextId + 4 } ∧
      parentElementOf (exitPaneFullscreen (enterPaneFullscreen (some 1)
        SKind.video exC5Enter).2).dom 1 =
        (saveElementState exC5Enter.dom 1).parent ∧
      nextSiblingOf (exitPaneFullscreen (enterPaneFullscreen (some 1)
        SKind.video exC5Enter).2).dom 1 =
        (saveElementState exC5Enter.dom 1).nextSibling) ∧
    overlaysInDocument
      (enterPaneFullscreen (some 5) SKind.video exC10PF).2 = 1 ∧
    overlaysInDocument exStateSelectOff ≤ 1 := by
  have h := C5_single_overlay
  refine ⟨h.1 exC10PF 5 SKind.video rfl, ?_, ?_, ?_, ?_⟩
  · have hmem :
        ({ defaultElem with eid := 5, tag := Tag.div, styleAttr := some "" }
          : ElemData) ∈ allData (exitPaneFullscreen exC10PF).dom := by
      decide
    exact ⟨hmem, h.2.1 exC10PF 5 exC10St rfl rfl rfl _ hmem rfl⟩
  · exact h.2.2.1 exC5Enter 1 SKind.video rfl (by decide) (by decide)
      (by decide) (by decide) (by decide)
  · exact h.2.2.2.1 exC10PF 5 SKind.video
      ⟨by decide, by decide, by decide, by decide, by decide, by decide,
        by decide, by decide, fun _ => ⟨5, rfl, by decide,
          by unfold IdFact; decide⟩⟩
      (by decide) (by unfold IdFact; decide)
  · exact h.2.2.2.2 exStateSelectOff
      (PFReach.init _ ⟨rfl, rfl, rfl, rfl, rfl, by decide, by decide,
        by decide, rfl, rfl, by decide⟩)
